import Mathlib

/-!
# Double-ratchet messenger (`messenger.js`): embedding and verification

The class `MessengerClient` of `src/w24_proj2_source/messenger.js` is embedded as
pure functions over an explicit client state.  A JavaScript method that mutates
`this` and may throw becomes a function returning the outcome (`Except`) together
with the client state *as the mutation left it*, so that mutations performed
before a `throw` stay visible, exactly as in the source.

The cryptographic primitives of `lib.js` and of WebCrypto are parameters
(`Lib`); calls that draw randomness take the drawn entropy as an argument.
-/

namespace DoubleRatchet

/-! ## Values -/

/-- `const MAX_SKIP = 2000` (messenger.js line 25). -/
def MAX_SKIP : Nat := 2000

/-- The object `{ pub, sec }` returned by `generateEG()`. -/
structure KeyPair (K : Type) where
  pub : K
  sec : K

/-- The `plaintext` argument of `encryptWithGCM`: messenger.js passes a string
(the user's message) in one call and an `ArrayBuffer` (the raw message key) in
the other. -/
inductive Plain (B : Type) where
  | text (s : String)
  | buffer (b : B)

/-- The `authenticatedData` argument of the GCM calls.  It is either left out
(the default, used for the escrow ciphertext) or `JSON.stringify(header)`.
`JSON.stringify` renders a `CryptoKey` (`dh`, `vGov`) and an `ArrayBuffer`
(`cGov`) as the empty object, whatever their content (see the note at
messenger.js lines 217-218), so the text is determined by, and determines, the
numbers `pn`, `n` and the two `Uint8Array`s `ivGov`, `receiverIV`; the text is
represented by these four components. -/
inductive AuthData (B : Type) where
  | empty
  | headerJSON (pn n : Nat) (ivGov receiverIV : B)

/-- The certificate `{ username, pub }` built by `generateCertificate`; `pub` is
the JWK export of the public key. -/
structure Certificate (J : Type) where
  username : String
  pub : J

/-- What a JavaScript `throw` carries: one of the string literals thrown by
messenger.js, or an exception object raised inside `lib.js` / WebCrypto. -/
inductive Thrown where
  | str (msg : String)
  | native
  deriving DecidableEq, Repr

/-- The primitives imported from `./lib` (messenger.js lines 5-21) and the
`subtle` calls made directly by messenger.js.  `K` is the type of `CryptoKey`
handles, `B` of byte buffers (`ArrayBuffer`, `Uint8Array`), `J` of JWK texts.
`generateEG` and `genRandomSalt` take the entropy they draw as first argument.
`verifyWithECDSA` receives `JSON.stringify(certificate)`, represented by the
certificate itself. -/
structure Lib (K B J : Type) where
  bufferToString : B → String
  genRandomSalt : Nat → Nat → B
  generateEG : Nat → KeyPair K
  computeDH : K → K → K
  verifyWithECDSA : K → Certificate J → B → Bool
  HMACtoAESKey : K → String → K
  HMACtoHMACKey : K → String → K
  HKDF : K → K → String → K × K
  encryptWithGCM : K → Plain B → B → AuthData B → B
  decryptWithGCM : K → B → B → AuthData B → Option B
  cryptoKeyToJSON : K → J
  govEncryptionDataStr : String
  importKeyJwk : J → Option K
  exportKeyRaw : K → B
  importKeyRaw : B → K

/-! ## JavaScript `Map` and `Set`

Keys of `MKSKIPPED` and `receivedSet` are the strings `dhStr + '|' + n`; such a
string is represented by the pair of its two parts. Entries are kept in
insertion order, as JavaScript does. -/

/-- A JavaScript `Map`, as its list of entries in insertion order. -/
abbrev JsMap (α β : Type) := List (α × β)

/-- `Map.prototype.has`. -/
def JsMap.has {α β : Type} [DecidableEq α] (m : JsMap α β) (k : α) : Bool :=
  m.any (fun e => decide (e.1 = k))

/-- `Map.prototype.get` (`none` for `undefined`). -/
def JsMap.get {α β : Type} [DecidableEq α] (m : JsMap α β) (k : α) : Option β :=
  (m.find? (fun e => decide (e.1 = k))).map Prod.snd

/-- `Map.prototype.set`: an existing key keeps its place and takes the new
value, a new key is appended. -/
def JsMap.set {α β : Type} [DecidableEq α] (m : JsMap α β) (k : α) (v : β) : JsMap α β :=
  if m.has k then m.map (fun e => if e.1 = k then (k, v) else e) else m ++ [(k, v)]

/-- `Map.prototype.delete`. -/
def JsMap.delete {α β : Type} [DecidableEq α] (m : JsMap α β) (k : α) : JsMap α β :=
  m.filter (fun e => !decide (e.1 = k))

/-- A JavaScript `Set`, as its list of members in insertion order. -/
abbrev JsSet (α : Type) := List α

/-- `Set.prototype.has`. -/
def JsSet.has {α : Type} [DecidableEq α] (s : JsSet α) (a : α) : Bool :=
  s.any (fun b => decide (b = a))

/-- `Set.prototype.add`. -/
def JsSet.add {α : Type} [DecidableEq α] (s : JsSet α) (a : α) : JsSet α :=
  if s.has a then s else s ++ [a]

/-! ## State -/

/-- The key string `dhStr + '|' + n` of `MKSKIPPED` and `receivedSet`.  The
first part is the result of `_pubKeyToStr`: the JWK text of a key, or the text
`null` (here `none`) when there is no key. -/
abbrev HeaderKey (J : Type) := Option J × Nat

/-- The per-peer connection state stored in `this.conns[name]`
(messenger.js lines 152-163 and 245-256). -/
structure Session (K B J : Type) where
  DHs : KeyPair K
  DHr : Option K
  RK : K
  CKs : Option K
  CKr : Option K
  Ns : Nat
  Nr : Nat
  PN : Nat
  MKSKIPPED : JsMap (HeaderKey J) B
  receivedSet : JsSet (HeaderKey J)

/-- The message header built by `sendMessage` (messenger.js lines 206-214).  The
two counters are natural numbers and `dh`, `vGov` are keys: a header received
from the network is taken to be well-typed. -/
structure Header (K B : Type) where
  dh : K
  pn : Nat
  n : Nat
  vGov : K
  cGov : B
  ivGov : B
  receiverIV : B

/-- An entry `{ certificate, publicKey }` of `this.certs`. -/
structure CertEntry (K J : Type) where
  certificate : Certificate J
  publicKey : K

/-- The fields of a `MessengerClient` (messenger.js lines 28-40).  `conns` and
`certs` are the two dictionaries (`none`: no entry, or `null`); `EGKeyPair` is
`none` while it still is the empty object of the constructor.  The dictionaries
are taken as plain maps from names to entries: a name that is a property of
`Object.prototype` (see `objectPrototypeNames`) is outside the model. -/
structure MessengerClient (K B J : Type) where
  caPublicKey : K
  govPublicKey : K
  conns : String → Option (Session K B J)
  certs : String → Option (CertEntry K J)
  EGKeyPair : Option (KeyPair K)

/-- The property names every plain object inherits from `Object.prototype`.
`this.certs` and `this.conns` are created as `{}` (messenger.js lines 37-38), so
for these names `this.certs[name]` and `this.conns[name]` find the inherited
property, which is truthy, even when no entry was ever assigned; the maps of
`MessengerClient` represent the lookups of every other name. -/
def objectPrototypeNames : List String :=
  ["constructor", "__defineGetter__", "__defineSetter__", "hasOwnProperty",
    "__lookupGetter__", "__lookupSetter__", "isPrototypeOf", "propertyIsEnumerable",
    "toString", "valueOf", "__proto__", "toLocaleString"]

/-- The entropy one `sendMessage` call draws: `generateEG()` for the ratchet key
pair of a new session, `genRandomSalt(12)` twice, `generateEG()` for the escrow
key pair. -/
structure SendEntropy where
  ratchet : Nat
  receiverIV : Nat
  ivGov : Nat
  govEphemeral : Nat

/-- Outcome of a method call together with the client as the call left it. -/
abbrev Outcome (K B J α : Type) := Except Thrown α × MessengerClient K B J

/-- Outcome of a helper working on one session. -/
abbrev SessionOutcome (K B J α : Type) := Except Thrown α × Session K B J

variable {K B J : Type}

/-- The assignment `this.conns[name] = state`, also the effect of mutating the
object `this.conns[name]` refers to. -/
def MessengerClient.setConn (c : MessengerClient K B J) (name : String)
    (state : Session K B J) : MessengerClient K B J :=
  { c with conns := fun x => if x = name then some state else c.conns x }

/-- The constructor (messenger.js lines 28-40). -/
def MessengerClient.new (certAuthorityPublicKey govPublicKey : K) : MessengerClient K B J :=
  { caPublicKey := certAuthorityPublicKey
    govPublicKey := govPublicKey
    conns := fun _ => none
    certs := fun _ => none
    EGKeyPair := none }

/-- `JSON.stringify(header)`: see `AuthData`. -/
def stringifyHeader (header : Header K B) : AuthData B :=
  .headerJSON header.pn header.n header.ivGov header.receiverIV

/-- `_pubKeyToStr` (messenger.js lines 44-52): the JWK text of the key.  For a
missing key (`null`) the export throws and the fallback yields the text
`null`, represented by `none`. -/
def MessengerClient._pubKeyToStr (L : Lib K B J) (pubKey : Option K) : Option J :=
  pubKey.map L.cryptoKeyToJSON

/-- `generateCertificate` (messenger.js lines 70-84); `seed` is the entropy of
`generateEG()`. -/
def MessengerClient.generateCertificate (L : Lib K B J) (c : MessengerClient K B J)
    (username : String) (seed : Nat) : Certificate J × MessengerClient K B J :=
  let kp := L.generateEG seed
  let pubJSON := L.cryptoKeyToJSON kp.pub
  ({ username := username, pub := pubJSON }, { c with EGKeyPair := some kp })

/-- `receiveCertificate` (messenger.js lines 95-120). -/
def MessengerClient.receiveCertificate (L : Lib K B J) (c : MessengerClient K B J)
    (certificate : Certificate J) (signature : B) : Outcome K B J Unit :=
  let ok := L.verifyWithECDSA c.caPublicKey certificate signature
  if !ok then (.error (.str "Invalid certificate signature"), c)
  else
    match L.importKeyJwk certificate.pub with
    | none => (.error .native, c)
    | some theirPub =>
      (.ok (),
        { c with certs := fun x =>
            if x = certificate.username then
              some { certificate := certificate, publicKey := theirPub }
            else c.certs x })

/-! ## Double-ratchet helpers -/

/-- `_trySkippedMessageKeys` (messenger.js lines 324-334): the cached raw key,
if any, and the state with that entry deleted. -/
def MessengerClient._trySkippedMessageKeys [DecidableEq J] (L : Lib K B J)
    (state : Session K B J) (header : Header K B) : Option B × Session K B J :=
  let dhStr := MessengerClient._pubKeyToStr L (some header.dh)
  let key : HeaderKey J := (dhStr, header.n)
  if state.MKSKIPPED.has key then
    let mk := state.MKSKIPPED.get key
    (mk, { state with MKSKIPPED := state.MKSKIPPED.delete key })
  else (none, state)

/-- One pass through the body of the `while` loop of `_skipMessageKeys`
(messenger.js lines 346-354), for a state whose `CKr` is `ckr`. -/
def skipStep [DecidableEq J] (L : Lib K B J) (state : Session K B J) (ckr : K) :
    Session K B J :=
  let mkCrypto := L.HMACtoAESKey ckr "msg"
  let mkRaw := L.exportKeyRaw mkCrypto
  let dhrStr := MessengerClient._pubKeyToStr L state.DHr
  let mapKey : HeaderKey J := (dhrStr, state.Nr)
  { state with
    MKSKIPPED := state.MKSKIPPED.set mapKey mkRaw
    CKr := some (L.HMACtoHMACKey ckr "ck")
    Nr := state.Nr + 1 }

/-- The loop `while (state.Nr < until)` of `_skipMessageKeys`, run for at most
`fuel` passes.  The loop is entered only after the test `!state.CKr`, and the
body keeps `CKr` present, so the `none` branch is never taken from there. -/
def skipLoop [DecidableEq J] (L : Lib K B J) (until_ : Nat) :
    Nat → Session K B J → Session K B J
  | 0, state => state
  | fuel + 1, state =>
    if state.Nr < until_ then
      match state.CKr with
      | none => state
      | some ckr => skipLoop L until_ fuel (skipStep L state ckr)
    else state

/-- `_skipMessageKeys` (messenger.js lines 337-356).  The loop needs exactly
`until - state.Nr` passes, which is the fuel it is given. -/
def MessengerClient._skipMessageKeys [DecidableEq J] (L : Lib K B J)
    (state : Session K B J) (until_ : Nat) : SessionOutcome K B J Unit :=
  if state.Nr + MAX_SKIP < until_ then (.error (.str "Too many skipped messages"), state)
  else
    match state.CKr with
    | none => (.ok (), state)
    | some _ => (.ok (), skipLoop L until_ (until_ - state.Nr) state)

/-- `_doDHRatchet` (messenger.js lines 359-388); `seed` is the entropy of
`generateEG()`. -/
def MessengerClient._doDHRatchet (L : Lib K B J) (state : Session K B J) (headerDh : K)
    (seed : Nat) : Session K B J :=
  let state := { state with PN := state.Ns, Ns := 0, Nr := 0, DHr := some headerDh }
  let dh1 := L.computeDH state.DHs.sec headerDh
  let kdf1 := L.HKDF state.RK dh1 "ratchet"
  let state := { state with RK := kdf1.1, CKr := some kdf1.2 }
  let state := { state with DHs := L.generateEG seed }
  let dh2 := L.computeDH state.DHs.sec headerDh
  let kdf2 := L.HKDF state.RK dh2 "ratchet"
  { state with RK := kdf2.1, CKs := some kdf2.2 }

/-! ## `sendMessage` -/

/-- The session created by `sendMessage` when `this.conns[name]` is empty
(RatchetInitAlice, messenger.js lines 142-163).  `computeDH` on the missing
private key of an empty `EGKeyPair` throws: `none`. -/
def ratchetInitAlice (L : Lib K B J) (c : MessengerClient K B J) (cert : CertEntry K J)
    (e : SendEntropy) : Option (Session K B J) :=
  match c.EGKeyPair with
  | none => none
  | some eg =>
    let theirPub := cert.publicKey
    let SK := L.computeDH eg.sec theirPub
    let DHs := L.generateEG e.ratchet
    let DHr := theirPub
    let dh_out := L.computeDH DHs.sec DHr
    let kdf := L.HKDF SK dh_out "ratchet"
    some
      { DHs := DHs
        DHr := some DHr
        RK := kdf.1
        CKs := some kdf.2
        CKr := none
        Ns := 0
        Nr := 0
        PN := 0
        MKSKIPPED := []
        receivedSet := [] }

/-- The body of `sendMessage` from `const state = this.conns[name]` on
(messenger.js lines 166-223), as a function of the session `state`. -/
def sendOnSession (L : Lib K B J) (govPublicKey : K) (state : Session K B J)
    (plaintext : String) (e : SendEntropy) : SessionOutcome K B J (Header K B × B) :=
  match state.CKs with
  | none => (.error (.str "Sending chain key missing"), state)
  | some cks =>
    let mkCryptoKey := L.HMACtoAESKey cks "msg"
    let Ns := state.Ns
    let state := { state with CKs := some (L.HMACtoHMACKey cks "ck"), Ns := state.Ns + 1 }
    let receiverIV := L.genRandomSalt e.receiverIV 12
    let ivGov := L.genRandomSalt e.ivGov 12
    let mkRaw := L.exportKeyRaw mkCryptoKey
    let govEphemeral := L.generateEG e.govEphemeral
    let govShared := L.computeDH govEphemeral.sec govPublicKey
    let govAESKey := L.HMACtoAESKey govShared L.govEncryptionDataStr
    let cGov := L.encryptWithGCM govAESKey (.buffer mkRaw) ivGov .empty
    let header : Header K B :=
      { dh := state.DHs.pub
        pn := state.PN
        n := Ns
        vGov := govEphemeral.pub
        cGov := cGov
        ivGov := ivGov
        receiverIV := receiverIV }
    let associatedData := stringifyHeader header
    let ciphertext := L.encryptWithGCM mkCryptoKey (.text plaintext) receiverIV associatedData
    (.ok (header, ciphertext), state)

/-- `sendMessage` (messenger.js lines 131-224). -/
def MessengerClient.sendMessage (L : Lib K B J) (c : MessengerClient K B J) (name : String)
    (plaintext : String) (e : SendEntropy) : Outcome K B J (Header K B × B) :=
  match c.certs name with
  | none => (.error (.str "No certificate for recipient"), c)
  | some cert =>
    match c.conns name with
    | some state =>
      let r := sendOnSession L c.govPublicKey state plaintext e
      (r.1, c.setConn name r.2)
    | none =>
      match ratchetInitAlice L c cert e with
      | none => (.error .native, c)
      | some state =>
        let r := sendOnSession L c.govPublicKey state plaintext e
        (r.1, c.setConn name r.2)

/-! ## `receiveMessage` -/

/-- The session created by `receiveMessage` when `this.conns[name]` is empty
(RatchetInitBob, messenger.js lines 240-258). -/
def ratchetInitBob (L : Lib K B J) (c : MessengerClient K B J) (cert : CertEntry K J) :
    Option (Session K B J) :=
  match c.EGKeyPair with
  | none => none
  | some eg =>
    let theirPub := cert.publicKey
    let SK := L.computeDH eg.sec theirPub
    some
      { DHs := eg
        DHr := none
        RK := SK
        CKs := none
        CKr := none
        Ns := 0
        Nr := 0
        PN := 0
        MKSKIPPED := []
        receivedSet := [] }

/-- Step 2 of `receiveMessage` (messenger.js lines 282-292): the test on the
header's ratchet key and, when it is new, the skip to `header.pn` followed by
the DH ratchet step. -/
def ratchetIfNew [DecidableEq J] (L : Lib K B J) (state : Session K B J)
    (header : Header K B) (seed : Nat) : SessionOutcome K B J Unit :=
  let headerDhStr := MessengerClient._pubKeyToStr L (some header.dh)
  let stateDhrStr : Option J :=
    match state.DHr with
    | some dhr => MessengerClient._pubKeyToStr L (some dhr)
    | none => none
  if stateDhrStr = none ∨ headerDhStr ≠ stateDhrStr then
    match MessengerClient._skipMessageKeys L state header.pn with
    | (.error err, state) => (.error err, state)
    | (.ok _, state) => (.ok (), MessengerClient._doDHRatchet L state header.dh seed)
  else (.ok (), state)

/-- Steps 3 and 4 of `receiveMessage` and the decryption (messenger.js lines
294-318). -/
def receiveOnChain [DecidableEq J] (L : Lib K B J) (state : Session K B J)
    (header : Header K B) (ciphertext : B) : SessionOutcome K B J String :=
  let headerKey : HeaderKey J := (MessengerClient._pubKeyToStr L (some header.dh), header.n)
  match MessengerClient._skipMessageKeys L state header.n with
  | (.error err, state) => (.error err, state)
  | (.ok _, state) =>
    match state.CKr with
    | none => (.error (.str "Receiving chain key missing after ratchet"), state)
    | some ckr =>
      let mkCryptoKey := L.HMACtoAESKey ckr "msg"
      let state := { state with CKr := some (L.HMACtoHMACKey ckr "ck"), Nr := state.Nr + 1 }
      let associatedData := stringifyHeader header
      match L.decryptWithGCM mkCryptoKey ciphertext header.receiverIV associatedData with
      | some plaintextBuf =>
        (.ok (L.bufferToString plaintextBuf),
          { state with receivedSet := state.receivedSet.add headerKey })
      | none => (.error (.str "Decryption failed or tampering detected"), state)

/-- The body of `receiveMessage` from `const state = this.conns[name]` on
(messenger.js lines 260-318), as a function of the session `state`; `seed`
is the entropy of the `generateEG()` of a DH ratchet step. -/
def receiveOnSession [DecidableEq J] (L : Lib K B J) (state : Session K B J)
    (header : Header K B) (ciphertext : B) (seed : Nat) : SessionOutcome K B J String :=
  let dhStr := MessengerClient._pubKeyToStr L (some header.dh)
  let headerKey : HeaderKey J := (dhStr, header.n)
  if state.receivedSet.has headerKey then (.error (.str "Replay detected"), state)
  else
    match MessengerClient._trySkippedMessageKeys L state header with
    | (some mkFromSkipped, state) =>
      let subtleMK := L.importKeyRaw mkFromSkipped
      let associatedData := stringifyHeader header
      match L.decryptWithGCM subtleMK ciphertext header.receiverIV associatedData with
      | none => (.error .native, state)
      | some plaintextBuf =>
        (.ok (L.bufferToString plaintextBuf),
          { state with receivedSet := state.receivedSet.add headerKey })
    | (none, state) =>
      match ratchetIfNew L state header seed with
      | (.error err, state) => (.error err, state)
      | (.ok _, state) => receiveOnChain L state header ciphertext

/-- `receiveMessage` (messenger.js lines 235-319). -/
def MessengerClient.receiveMessage [DecidableEq J] (L : Lib K B J)
    (c : MessengerClient K B J) (name : String) (message : Header K B × B) (seed : Nat) :
    Outcome K B J String :=
  match c.certs name with
  | none => (.error (.str "No certificate for sender"), c)
  | some cert =>
    match c.conns name with
    | some state =>
      let r := receiveOnSession L state message.1 message.2 seed
      (r.1, c.setConn name r.2)
    | none =>
      match ratchetInitBob L c cert with
      | none => (.error .native, c)
      | some state =>
        let r := receiveOnSession L state message.1 message.2 seed
        (r.1, c.setConn name r.2)

/-! ## Sequences of calls -/

/-- One call of a public method of the client, with the entropy it draws. -/
inductive Call (K B J : Type) where
  | generateCertificate (username : String) (seed : Nat)
  | receiveCertificate (certificate : Certificate J) (signature : B)
  | sendMessage (name plaintext : String) (e : SendEntropy)
  | receiveMessage (name : String) (message : Header K B × B) (seed : Nat)

/-- The client after one call, whether the call returned or threw. -/
def MessengerClient.step [DecidableEq J] (L : Lib K B J) (c : MessengerClient K B J) :
    Call K B J → MessengerClient K B J
  | .generateCertificate username seed => (c.generateCertificate L username seed).2
  | .receiveCertificate certificate signature =>
    (c.receiveCertificate L certificate signature).2
  | .sendMessage name plaintext e => (c.sendMessage L name plaintext e).2
  | .receiveMessage name message seed => (c.receiveMessage L name message seed).2

/-- The client after a sequence of calls. -/
def MessengerClient.run [DecidableEq J] (L : Lib K B J) (c : MessengerClient K B J) :
    List (Call K B J) → MessengerClient K B J
  | [] => c
  | call :: rest => (c.step L call).run L rest

/-- The results of `sendMessage(name, p)` called for each plaintext of the list in
order, and the client afterwards. -/
def sendAll (L : Lib K B J) (c : MessengerClient K B J) (name : String) :
    List (String × SendEntropy) → List (Except Thrown (Header K B × B)) × MessengerClient K B J
  | [] => ([], c)
  | (plaintext, e) :: rest =>
    let r := c.sendMessage L name plaintext e
    let rs := sendAll L r.2 name rest
    (r.1 :: rs.1, rs.2)

/-- The results of `receiveMessage(name, m)` called for each message of the list
in order, and the client afterwards. -/
def receiveAll [DecidableEq J] (L : Lib K B J) (c : MessengerClient K B J) (name : String) :
    List ((Header K B × B) × Nat) → List (Except Thrown String) × MessengerClient K B J
  | [] => ([], c)
  | (message, seed) :: rest =>
    let r := c.receiveMessage L name message seed
    let rs := receiveAll L r.2 name rest
    (r.1 :: rs.1, rs.2)

/-! ## Vocabulary of the statements -/

/-- The chain key `ck` advanced `i` times by the chain step
`HMACtoHMACKey(·, 'ck')`. -/
def chainKey (L : Lib K B J) (ck : K) (i : Nat) : K :=
  (fun k => L.HMACtoHMACKey k "ck")^[i] ck

/-- The message key `HMACtoAESKey(·, 'msg')` of position `i` of the chain that
starts at `ck`. -/
def messageKey (L : Lib K B J) (ck : K) (i : Nat) : K :=
  L.HMACtoAESKey (chainKey L ck i) "msg"

/-- Primitive contract: Diffie-Hellman is symmetric on generated key pairs. -/
def DHSymmetric (L : Lib K B J) : Prop :=
  ∀ a b : Nat,
    L.computeDH (L.generateEG a).sec (L.generateEG b).pub
      = L.computeDH (L.generateEG b).sec (L.generateEG a).pub

/-- Primitive contract: GCM decryption under the key, nonce and associated data
of the encryption returns the encrypted bytes; for a string, bytes that
`bufferToString` turns back into the string. -/
def AeadRoundTrip (L : Lib K B J) : Prop :=
  (∀ k s iv ad, ∃ buf, L.decryptWithGCM k (L.encryptWithGCM k (.text s) iv ad) iv ad = some buf
      ∧ L.bufferToString buf = s)
  ∧ ∀ k b iv ad, L.decryptWithGCM k (L.encryptWithGCM k (.buffer b) iv ad) iv ad = some b

/-- Primitive contract: importing the JWK export of a generated public key
gives that key back. -/
def JwkRoundTrip (L : Lib K B J) : Prop :=
  ∀ a : Nat, L.importKeyJwk (L.cryptoKeyToJSON (L.generateEG a).pub) = some (L.generateEG a).pub

/-- Primitive contract: `importKey('raw', exportKey('raw', k))` is `k`. -/
def RawKeyRoundTrip (L : Lib K B J) : Prop :=
  ∀ k : K, L.importKeyRaw (L.exportKeyRaw k) = k

/-- Primitive contract (ideal AEAD): a ciphertext authenticates only under the
key, nonce and associated data it was produced with. -/
def AeadBinding (L : Lib K B J) : Prop :=
  ∀ k p iv ad k1 iv1 ad1,
    L.decryptWithGCM k1 (L.encryptWithGCM k p iv ad) iv1 ad1 ≠ none →
      k1 = k ∧ iv1 = iv ∧ ad1 = ad

/-- The message `m` is the one sent at position `i` of the sending chain that
starts at `ck0` under the ratchet key `dhPub`, with plaintext `p`. -/
def ChainMessage (L : Lib K B J) (dhPub ck0 : K) (i : Nat) (p : String)
    (m : Header K B × B) : Prop :=
  m.1.dh = dhPub ∧ m.1.n = i ∧
    m.2 = L.encryptWithGCM (messageKey L ck0 i) (.text p) m.1.receiverIV (stringifyHeader m.1)

/-- The receiving session `s` follows the chain that starts at `ck0` under the
peer ratchet key `dhPub`, the positions in `D` having been delivered: the chain
key stands at position `Nr`, every position below `Nr` that was not delivered has
its key in `MKSKIPPED`, no other position of the chain is cached or recorded, and
the position before `Nr` was delivered. -/
def Synced [DecidableEq J] (L : Lib K B J) (dhPub ck0 : K) (D : List Nat)
    (s : Session K B J) : Prop :=
  s.DHr = some dhPub ∧ s.CKr = some (chainKey L ck0 s.Nr) ∧ (∀ i ∈ D, i < s.Nr) ∧
  (∀ i, s.receivedSet.has (some (L.cryptoKeyToJSON dhPub), i) = true → i ∈ D) ∧
  (∀ i, i < s.Nr → i ∉ D →
    s.MKSKIPPED.get (some (L.cryptoKeyToJSON dhPub), i)
      = some (L.exportKeyRaw (messageKey L ck0 i))) ∧
  (∀ i, s.Nr ≤ i → s.MKSKIPPED.has (some (L.cryptoKeyToJSON dhPub), i) = false) ∧
  (0 < s.Nr → s.Nr - 1 ∈ D)

/-- The counters of `order` can be delivered one after the other once those of `D`
have been: each is new and at most `MAX_SKIP` beyond the position after the
highest counter delivered before it. -/
def Deliverable : List Nat → List Nat → Prop
  | _, [] => True
  | D, i :: rest =>
    i ∉ D ∧ (i ≤ MAX_SKIP ∨ ∃ j ∈ D, i ≤ j + 1 + MAX_SKIP) ∧ Deliverable (i :: D) rest

/-- Each counter of `order` is above every counter delivered before it (those of
`D` included): no delivery fills a gap left earlier. -/
def Ascending : List Nat → List Nat → Prop
  | _, [] => True
  | D, i :: rest => (∀ j ∈ D, j < i) ∧ Ascending (i :: D) rest

/-- The client `c` can receive from `name` along the chain that starts at `ck0`
under the ratchet key `dhPub`: it trusts `name` and either holds a session that
follows the chain, or holds no session yet and its first DH ratchet step on
`dhPub` will derive `ck0`. -/
def ReceiverReady [DecidableEq J] (L : Lib K B J) (name : String) (dhPub ck0 : K)
    (D : List Nat) (c : MessengerClient K B J) : Prop :=
  ∃ cert, c.certs name = some cert ∧
    ((∃ s, c.conns name = some s ∧ Synced L dhPub ck0 D s) ∨
      (D = [] ∧ c.conns name = none ∧ ∃ eg, c.EGKeyPair = some eg ∧
        (L.HKDF (L.computeDH eg.sec cert.publicKey) (L.computeDH eg.sec dhPub) "ratchet").2
          = ck0))

/-- The messages `ms` are the ones sent for the plaintexts `ps` at the positions
`a`, `a + 1`, ... of the chain, each announcing the previous chain length `pn`. -/
def ChainMessages (L : Lib K B J) (dhPub ck0 : K) (pn : Nat) :
    Nat → List String → List (Header K B × B) → Prop
  | _, [], [] => True
  | a, p :: ps, m :: ms =>
    ChainMessage L dhPub ck0 a p m ∧ m.1.pn = pn ∧ ChainMessages L dhPub ck0 pn (a + 1) ps ms
  | _, _, _ => False

/-- The client `c` trusts `name` and its session for `name` sends under the
ratchet key `dhPub`, its sending chain standing at position `a` of the chain
that starts at `ck0`. -/
def SenderAt (L : Lib K B J) (name : String) (dhPub ck0 : K) (pn a : Nat)
    (c : MessengerClient K B J) : Prop :=
  ∃ cert s, c.certs name = some cert ∧ c.conns name = some s ∧ s.DHs.pub = dhPub ∧
    s.CKs = some (chainKey L ck0 a) ∧ s.Ns = a ∧ s.PN = pn

/-- Two fresh clients, `alice` named `nameA` and `bob` named `nameB`: each was
constructed, generated its certificate and accepted the certificate of the
other, and did nothing else. -/
def FreshPair (L : Lib K B J) (nameA nameB : String) (alice bob : MessengerClient K B J) :
    Prop :=
  ∃ (caA govA caB govB : K) (seedA seedB : Nat) (sigA sigB : B),
    MessengerClient.receiveCertificate L
        (MessengerClient.generateCertificate L (MessengerClient.new caA govA) nameA seedA).2
        (MessengerClient.generateCertificate L (MessengerClient.new caB govB) nameB seedB).1 sigB
      = (.ok (), alice) ∧
    MessengerClient.receiveCertificate L
        (MessengerClient.generateCertificate L (MessengerClient.new caB govB) nameB seedB).2
        (MessengerClient.generateCertificate L (MessengerClient.new caA govA) nameA seedA).1 sigA
      = (.ok (), bob)

/-- The header carries the session's current peer ratchet key: the JWK texts
of `header.dh` and of `DHr` are equal. -/
def SameRatchetKey (L : Lib K B J) (s : Session K B J) (header : Header K B) : Prop :=
  ∃ dhr, s.DHr = some dhr ∧ L.cryptoKeyToJSON header.dh = L.cryptoKeyToJSON dhr

/-- The header carries a new ratchet key: `DHr` is absent or its JWK text
differs from that of `header.dh`. -/
def NewRatchetKey (L : Lib K B J) (s : Session K B J) (header : Header K B) : Prop :=
  s.DHr = none ∨ ∃ dhr, s.DHr = some dhr ∧ L.cryptoKeyToJSON header.dh ≠ L.cryptoKeyToJSON dhr

/-- The session `sR` is what step 2 of `receiveMessage` makes of `s` when it does
not throw: `s` itself for the current ratchet key, and for a new one `s` after
the skip to `header.pn` and the DH ratchet step. -/
def RatchetOutcome [DecidableEq J] (L : Lib K B J) (s : Session K B J) (header : Header K B)
    (seed : Nat) (sR : Session K B J) : Prop :=
  (SameRatchetKey L s header ∧ sR = s) ∨
  (NewRatchetKey L s header ∧ ∃ sP, MessengerClient._skipMessageKeys L s header.pn = (.ok (), sP) ∧
    sR = MessengerClient._doDHRatchet L sP header.dh seed)

/-- The session `receiveMessage(name, ·)` works on: the stored one, or the one
RatchetInitBob builds when none is stored. -/
def ReceiveSession (L : Lib K B J) (c : MessengerClient K B J) (name : String)
    (s0 : Session K B J) : Prop :=
  ∃ cert, c.certs name = some cert ∧
    (c.conns name = some s0 ∨ (c.conns name = none ∧ ratchetInitBob L c cert = some s0))

/-- The session `sendMessage(name, ·)` works on: the stored one, or the one
RatchetInitAlice builds when none is stored. -/
def SendSession (L : Lib K B J) (c : MessengerClient K B J) (name : String) (e : SendEntropy)
    (s0 : Session K B J) : Prop :=
  ∃ cert, c.certs name = some cert ∧
    (c.conns name = some s0 ∨ (c.conns name = none ∧ ratchetInitAlice L c cert e = some s0))

/-- The header key `key` is recorded as received in the session of `c` for the
trusted peer `name`. -/
def Recorded [DecidableEq J] (c : MessengerClient K B J) (name : String) (key : HeaderKey J) :
    Prop :=
  c.certs name ≠ none ∧ ∃ s, c.conns name = some s ∧ s.receivedSet.has key = true

/-- What the receiving-chain branch of `receiveMessage` makes of the result of
`decryptWithGCM` (messenger.js lines 310-318). -/
def chainDecryptOutcome (L : Lib K B J) : Option B → Except Thrown String
  | some buf => .ok (L.bufferToString buf)
  | none => .error (.str "Decryption failed or tampering detected")

/-- What the skipped-key branch of `receiveMessage` makes of the result of
`decryptWithGCM` (messenger.js lines 277-279): the exception of the primitive
is not caught there. -/
def skippedDecryptOutcome (L : Lib K B J) : Option B → Except Thrown String
  | some buf => .ok (L.bufferToString buf)
  | none => .error .native

/-- The replay guard of the session of `c` for `name`; empty while no session
is stored (a new session starts with an empty `receivedSet`). -/
def receivedSetOf (c : MessengerClient K B J) (name : String) : JsSet (HeaderKey J) :=
  match c.conns name with
  | some s => s.receivedSet
  | none => []

/-- One message from `sender` to `receiver`: `sender.sendMessage(toName, p)` and, if
it returned a message, `receiver.receiveMessage(fromName, message)`.  The result
of the receive (or the error of the send) with the two clients afterwards. -/
def deliver [DecidableEq J] (L : Lib K B J) (sender receiver : MessengerClient K B J)
    (toName fromName plaintext : String) (e : SendEntropy) (seed : Nat) :
    Except Thrown String × MessengerClient K B J × MessengerClient K B J :=
  match sender.sendMessage L toName plaintext e with
  | (.ok message, sender1) =>
    let r := receiver.receiveMessage L fromName message seed
    (r.1, sender1, r.2)
  | (.error err, sender1) => (.error err, sender1, receiver)

/-- The exchange `alice` sends `p1`, `bob` receives it; `bob` sends `p2`, `alice`
receives it; `alice` sends `p3`, `bob` receives it.  The results of the three
`receiveMessage` calls, then `alice` and `bob` afterwards. -/
def bidirectionalExchange [DecidableEq J] (L : Lib K B J) (alice bob : MessengerClient K B J)
    (nameA nameB p1 p2 p3 : String) (e1 e2 e3 : SendEntropy) (r1 r2 r3 : Nat) :
    List (Except Thrown String) × MessengerClient K B J × MessengerClient K B J :=
  let t1 := deliver L alice bob nameB nameA p1 e1 r1
  let t2 := deliver L t1.2.2 t1.2.1 nameA nameB p2 e2 r2
  let t3 := deliver L t2.2.2 t2.2.1 nameB nameA p3 e3 r3
  ([t1.1, t2.1, t3.1], t3.2.1, t3.2.2)

/-! ## A symbolic instance of the primitives

Used to run the embedding on concrete inputs: keys and buffers are terms, every
primitive builds the term that names its result, and GCM decryption accepts a
ciphertext exactly under the key, nonce and associated data it was made with. -/

/-- Symbolic keys and buffers. -/
inductive Term where
  | pub (n : Nat)
  | sec (n : Nat)
  | shared (a b : Nat)
  | aesKey (k : Term) (label : String)
  | hmacKey (k : Term) (label : String)
  | hkdf (first : Bool) (k salt : Term) (info : String)
  | salt (seed len : Nat)
  | utf8 (s : String)
  | sealed (k body iv : Term) (hdr : Option (Nat × Nat)) (ivGov receiverIV : Term)
  | signed (ca : Nat) (username : String) (jwk : Nat)
  | junk
  deriving DecidableEq, Repr

/-- The bytes GCM encrypts for a `plaintext` argument. -/
def Term.ofPlain : Plain Term → Term
  | .text s => .utf8 s
  | .buffer b => b

/-- The numbers of the associated data, if it is a serialised header. -/
def Term.adNumbers : AuthData Term → Option (Nat × Nat)
  | .empty => none
  | .headerJSON pn n _ _ => some (pn, n)

/-- The first buffer of the associated data. -/
def Term.adIvGov : AuthData Term → Term
  | .empty => .junk
  | .headerJSON _ _ ivGov _ => ivGov

/-- The second buffer of the associated data. -/
def Term.adReceiverIV : AuthData Term → Term
  | .empty => .junk
  | .headerJSON _ _ _ receiverIV => receiverIV

/-- The symbolic primitives. -/
def symbolicLib : Lib Term Term Nat where
  bufferToString := fun b => match b with
    | .utf8 s => s
    | _ => ""
  genRandomSalt := fun seed len => .salt seed len
  generateEG := fun seed => { pub := .pub seed, sec := .sec seed }
  computeDH := fun sk pk => match sk, pk with
    | .sec a, .pub b => .shared (min a b) (max a b)
    | _, _ => .junk
  verifyWithECDSA := fun ca cert sig => match ca with
    | .pub a => decide (sig = .signed a cert.username cert.pub)
    | _ => false
  HMACtoAESKey := fun k label => .aesKey k label
  HMACtoHMACKey := fun k label => .hmacKey k label
  HKDF := fun k salt info => (.hkdf true k salt info, .hkdf false k salt info)
  encryptWithGCM := fun k p iv ad =>
    .sealed k (Term.ofPlain p) iv (Term.adNumbers ad) (Term.adIvGov ad) (Term.adReceiverIV ad)
  decryptWithGCM := fun k c iv ad => match c with
    | .sealed k0 body iv0 hdr a b =>
      if k0 = k ∧ iv0 = iv ∧ hdr = Term.adNumbers ad ∧ a = Term.adIvGov ad
          ∧ b = Term.adReceiverIV ad then some body else none
    | _ => none
  cryptoKeyToJSON := fun k => match k with
    | .pub n => n + 1
    | _ => 0
  govEncryptionDataStr := "AES-GENERATION"
  importKeyJwk := fun j => if j = 0 then none else some (.pub (j - 1))
  exportKeyRaw := fun k => k
  importKeyRaw := fun b => b

/-! ## A concrete scenario over the symbolic primitives -/

/-- The messages among the results of a run of `sendMessage` calls. -/
def okMessages : List (Except Thrown (Header K B × B)) → List (Header K B × B)
  | [] => []
  | .ok m :: rest => m :: okMessages rest
  | .error _ :: rest => okMessages rest

/-- The client of `alice`: constructed, certificate generated, certificate of
`bob` accepted. -/
def demoAlice : MessengerClient Term Term Nat :=
  (MessengerClient.receiveCertificate symbolicLib
    (MessengerClient.generateCertificate symbolicLib
      (MessengerClient.new (.pub 100) (.pub 200)) "alice" 1).2
    (MessengerClient.generateCertificate symbolicLib
      (MessengerClient.new (.pub 100) (.pub 200)) "bob" 2).1 (.signed 100 "bob" 3)).2

/-- The client of `bob`: constructed, certificate generated, certificate of
`alice` accepted. -/
def demoBob : MessengerClient Term Term Nat :=
  (MessengerClient.receiveCertificate symbolicLib
    (MessengerClient.generateCertificate symbolicLib
      (MessengerClient.new (.pub 100) (.pub 200)) "bob" 2).2
    (MessengerClient.generateCertificate symbolicLib
      (MessengerClient.new (.pub 100) (.pub 200)) "alice" 1).1 (.signed 100 "alice" 2)).2

/-- Three plaintexts with the entropy of their `sendMessage` calls. -/
def demoSends : List (String × SendEntropy) :=
  [("one", ⟨10, 11, 12, 13⟩), ("two", ⟨20, 21, 22, 23⟩), ("three", ⟨30, 31, 32, 33⟩)]

/-- The three messages `alice` sends to `bob`. -/
def demoMessages : List (Header Term Term × Term) :=
  okMessages (sendAll symbolicLib demoAlice "bob" demoSends).1


/-- The three messages paired with their plaintexts, in the order third, first,
second. -/
def demoDelivery : List ((Header Term Term × Term) × String) :=
  match demoMessages with
  | [m1, m2, m3] => [(m3, "three"), (m1, "one"), (m2, "two")]
  | _ => []

/-- The first of the three messages. -/
def demoFirst : Header Term Term × Term :=
  match demoMessages with
  | m :: _ => m
  | [] => (⟨.junk, 0, 0, .junk, .junk, .junk, .junk⟩, .junk)

/-- A session of `bob` in which the receiving chain under the ratchet key
`pub 10` stands at position 0 while the message with counter 3000 of that key
is recorded as received (as after the peer returned to an earlier ratchet
key). -/
def demoReplaySession : Session Term Term Nat :=
  { DHs := { pub := .pub 2, sec := .sec 2 }
    DHr := some (.pub 10)
    RK := .junk
    CKs := none
    CKr := some .junk
    Ns := 0
    Nr := 0
    PN := 0
    MKSKIPPED := []
    receivedSet := [(some 11, 3000)] }

/-- A header under the ratchet key `pub 10` with counter `n`. -/
def demoHeader (n : Nat) : Header Term Term :=
  { dh := .pub 10, pn := 0, n := n, vGov := .junk, cGov := .junk, ivGov := .junk,
    receiverIV := .junk }

/-- The second of the three messages. -/
def demoSecond : Header Term Term × Term :=
  match demoMessages with
  | _ :: m :: _ => m
  | _ => (⟨.junk, 0, 0, .junk, .junk, .junk, .junk⟩, .junk)

/-- The client of `bob` after it has received the first message. -/
def demoBobAfterFirst : MessengerClient Term Term Nat :=
  (MessengerClient.receiveMessage symbolicLib demoBob "alice" demoFirst 40).2

/-- The responder session RatchetInitBob builds for `bob`. -/
def demoBobInit : Session Term Term Nat :=
  { DHs := { pub := .pub 2, sec := .sec 2 }
    DHr := none
    RK := .shared 1 2
    CKs := none
    CKr := none
    Ns := 0
    Nr := 0
    PN := 0
    MKSKIPPED := []
    receivedSet := [] }

/-- The session `bob` holds for `alice` after the first message. -/
def demoBobSession : Session Term Term Nat :=
  match demoBobAfterFirst.conns "alice" with
  | some s => s
  | none => demoBobInit

/-- Calls `bob` makes after the first message: a reply to `alice`. -/
def demoCalls : List (Call Term Term Nat) :=
  [.sendMessage "alice" "reply" ⟨50, 51, 52, 53⟩]

/-- A header under the new ratchet key `pub 77` with counter 5000. -/
def demoFarHeader : Header Term Term :=
  { dh := .pub 77, pn := 0, n := 5000, vGov := .junk, cGov := .junk, ivGov := .junk,
    receiverIV := .junk }

/-- Two messages handed to `bob` under the ratchet key `pub 10`, with counters
2000 and 2002 and a ciphertext that does not authenticate. -/
def demoFlood : List (Call Term Term Nat) :=
  [.receiveMessage "alice" (demoHeader 2000, .junk) 40,
    .receiveMessage "alice" (demoHeader 2002, .junk) 41]

/-- A header under the new ratchet key `pub 77` that announces a previous chain
of 5000 messages. -/
def demoFarPnHeader : Header Term Term :=
  { dh := .pub 77, pn := 5000, n := 0, vGov := .junk, cGov := .junk, ivGov := .junk,
    receiverIV := .junk }

/-- The client of `bob` after `receiveMessage` threw on `demoFarPnHeader` as the
first message from `alice`. -/
def demoBobStalled : MessengerClient Term Term Nat :=
  (MessengerClient.receiveMessage symbolicLib demoBob "alice" (demoFarPnHeader, .junk) 40).2

/-- A certificate signed by the authority whose `pub` field is not the JWK of a
key. -/
def demoBadCertificate : Certificate Nat := { username := "mallory", pub := 0 }

/-- A second certificate for `bob`, signed by the authority, with another key. -/
def demoSecondCertificate : Certificate Nat := { username := "bob", pub := 5 }

/-- The client of `bob` after the first message of `alice`, having then accepted
the certificate of `carol`. -/
def demoBobTwoPeers : MessengerClient Term Term Nat :=
  (MessengerClient.receiveCertificate symbolicLib demoBobAfterFirst
    { username := "carol", pub := 4 } (.signed 100 "carol" 4)).2

/-- The exchange of three messages between `alice` and `bob`. -/
def demoExchange :
    List (Except Thrown String) × MessengerClient Term Term Nat × MessengerClient Term Term Nat :=
  bidirectionalExchange symbolicLib demoAlice demoBob "alice" "bob" "one" "two" "three"
    ⟨10, 11, 12, 13⟩ ⟨20, 21, 22, 23⟩ ⟨30, 31, 32, 33⟩ 40 50 60

/-- The root key of the session of `c` for `name`, if there is one. -/
def rootKeyOf (c : MessengerClient K B J) (name : String) : Option K :=
  (c.conns name).map (fun s => s.RK)

/-- The calls of `alice` up to her first message to `bob`. -/
def demoAliceCalls : List (Call Term Term Nat) :=
  [.generateCertificate "alice" 1,
    .receiveCertificate { username := "bob", pub := 3 } (.signed 100 "bob" 3),
    .sendMessage "bob" "one" ⟨10, 11, 12, 13⟩]

/-- The client of `alice` after those calls. -/
def demoAliceAfterFirst : MessengerClient Term Term Nat :=
  MessengerClient.run symbolicLib (MessengerClient.new (.pub 100) (.pub 200)) demoAliceCalls

/-- The session `alice` holds for `bob` after her first message. -/
def demoAliceSession : Session Term Term Nat :=
  match demoAliceAfterFirst.conns "bob" with
  | some s => s
  | none => demoBobInit

/-! ## Lemmas on maps, sets and the client record -/

section MapLemmas

variable {α β : Type} [DecidableEq α]

theorem JsMap.has_eq_true_iff (m : JsMap α β) (k : α) :
    m.has k = true ↔ ∃ e ∈ m, e.1 = k := by
  simp [JsMap.has]

theorem JsMap.has_eq_false_iff (m : JsMap α β) (k : α) :
    m.has k = false ↔ ∀ e ∈ m, e.1 ≠ k := by
  simp [JsMap.has]

theorem JsMap.has_nil (k : α) : JsMap.has ([] : JsMap α β) k = false := rfl

theorem JsMap.get_nil (k : α) : JsMap.get ([] : JsMap α β) k = none := rfl

theorem JsMap.has_of_get {m : JsMap α β} {k : α} {v : β} (h : m.get k = some v) :
    m.has k = true := by
  induction m with
  | nil => simp [JsMap.get] at h
  | cons e m ih =>
    by_cases hk : e.1 = k
    · simp [JsMap.has, hk]
    · have h2 : JsMap.get m k = some v := by
        simpa [JsMap.get, List.find?_cons, hk] using h
      have := ih h2
      simp only [JsMap.has, List.any_cons] at this ⊢
      simp [this]

theorem JsMap.get_isSome_of_has {m : JsMap α β} {k : α} (h : m.has k = true) :
    ∃ v, m.get k = some v := by
  induction m with
  | nil => simp [JsMap.has] at h
  | cons e m ih =>
    by_cases hk : e.1 = k
    · exact ⟨e.2, by simp [JsMap.get, List.find?_cons, hk]⟩
    · have h2 : JsMap.has m k = true := by
        simpa [JsMap.has, hk] using h
      obtain ⟨v, hv⟩ := ih h2
      refine ⟨v, ?_⟩
      simpa [JsMap.get, List.find?_cons, hk] using hv

theorem JsMap.has_set (m : JsMap α β) (k : α) (v : β) (k1 : α) :
    (m.set k v).has k1 = (m.has k1 || decide (k1 = k)) := by
  unfold JsMap.set
  split
  · rename_i hk
    by_cases h1 : k1 = k
    · subst h1
      have : JsMap.has (List.map (fun e => if e.1 = k1 then (k1, v) else e) m) k1 = true := by
        rw [JsMap.has_eq_true_iff] at hk ⊢
        obtain ⟨e, he, hek⟩ := hk
        exact ⟨(k1, v), List.mem_map.mpr ⟨e, he, by simp [hek]⟩, rfl⟩
      simp [this]
    · have : JsMap.has (List.map (fun e => if e.1 = k then (k, v) else e) m) k1 = m.has k1 := by
        simp only [JsMap.has, List.any_map]
        congr 1
        funext e
        by_cases hek : e.1 = k
        · have hne : ¬ e.1 = k1 := fun h => h1 (h.symm.trans hek)
          have hne2 : ¬ k = k1 := fun h => h1 h.symm
          simp [hek, hne2]
        · simp [hek]
      simp [this, h1]
  · simp only [JsMap.has, List.any_append, List.any_cons, List.any_nil, Bool.or_false]
    congr 1
    by_cases h1 : k1 = k
    · simp [h1]
    · have : ¬ k = k1 := fun h => h1 h.symm
      simp [h1, this]

theorem JsMap.get_cons (e : α × β) (m : JsMap α β) (k : α) :
    JsMap.get (e :: m) k = if e.1 = k then some e.2 else JsMap.get m k := by
  by_cases hek : e.1 = k <;> simp [JsMap.get, List.find?_cons, hek]

theorem JsMap.has_cons (e : α × β) (m : JsMap α β) (k : α) :
    JsMap.has (e :: m) k = (decide (e.1 = k) || JsMap.has m k) := by
  simp [JsMap.has]

theorem JsMap.get_map_self (m : JsMap α β) (k : α) (v : β) (h : m.has k = true) :
    JsMap.get (List.map (fun e => if e.1 = k then (k, v) else e) m) k = some v := by
  induction m with
  | nil => simp [JsMap.has] at h
  | cons e m ih =>
    rw [List.map_cons, JsMap.get_cons]
    by_cases hek : e.1 = k
    · simp [hek]
    · have h2 : JsMap.has m k = true := by
        simpa [JsMap.has, hek] using h
      simp only [hek, if_false]
      exact ih h2

theorem JsMap.get_map_ne (m : JsMap α β) (k : α) (v : β) {k1 : α} (h : k1 ≠ k) :
    JsMap.get (List.map (fun e => if e.1 = k then (k, v) else e) m) k1 = JsMap.get m k1 := by
  have hne2 : ¬ k = k1 := fun h2 => h h2.symm
  induction m with
  | nil => rfl
  | cons e m ih =>
    rw [List.map_cons, JsMap.get_cons, JsMap.get_cons, ih]
    by_cases hek : e.1 = k
    · have hne : ¬ e.1 = k1 := fun h2 => h (h2.symm.trans hek)
      simp [hek, hne, hne2]
    · simp [hek]

theorem JsMap.get_set_self (m : JsMap α β) (k : α) (v : β) : (m.set k v).get k = some v := by
  unfold JsMap.set
  split
  · rename_i hk
    exact JsMap.get_map_self m k v hk
  · rename_i hk
    have hk2 : m.has k = false := by simpa using hk
    rw [JsMap.has_eq_false_iff] at hk2
    have : List.find? (fun e => decide (e.1 = k)) m = none := by
      rw [List.find?_eq_none]
      intro e he
      simpa using hk2 e he
    simp [JsMap.get, List.find?_append, this]

theorem JsMap.get_set_ne (m : JsMap α β) (k : α) (v : β) {k1 : α} (h : k1 ≠ k) :
    (m.set k v).get k1 = m.get k1 := by
  unfold JsMap.set
  split
  · exact JsMap.get_map_ne m k v h
  · have hne2 : ¬ k = k1 := fun h2 => h h2.symm
    simp only [JsMap.get, List.find?_append]
    cases hf : List.find? (fun e => decide (e.1 = k1)) m with
    | none => simp [List.find?_cons, hne2]
    | some e => simp

theorem JsMap.length_set (m : JsMap α β) (k : α) (v : β) :
    (m.set k v).length = if m.has k then m.length else m.length + 1 := by
  unfold JsMap.set
  split <;> simp

theorem JsMap.has_delete (m : JsMap α β) (k k1 : α) :
    (m.delete k).has k1 = (m.has k1 && !decide (k1 = k)) := by
  induction m with
  | nil => simp [JsMap.delete, JsMap.has]
  | cons e m ih =>
    simp only [JsMap.delete, JsMap.has] at ih ⊢
    by_cases hek : e.1 = k
    · by_cases h1 : k1 = k
      · simp [List.filter_cons, hek, ih, h1]
      · have hne : ¬ k = k1 := fun h => h1 h.symm
        simp [List.filter_cons, hek, ih, h1, hne]
    · by_cases hek1 : e.1 = k1
      · have h1 : ¬ k1 = k := fun h => hek (hek1.trans h)
        simp [List.filter_cons, hek, hek1, h1]
      · simp [List.filter_cons, hek, hek1, ih]

theorem JsMap.delete_cons (e : α × β) (m : JsMap α β) (k : α) :
    JsMap.delete (e :: m) k = if e.1 = k then JsMap.delete m k else e :: JsMap.delete m k := by
  by_cases hek : e.1 = k <;> simp [JsMap.delete, List.filter_cons, hek]

theorem JsMap.get_delete_ne (m : JsMap α β) (k : α) {k1 : α} (h : k1 ≠ k) :
    (m.delete k).get k1 = m.get k1 := by
  induction m with
  | nil => rfl
  | cons e m ih =>
    rw [JsMap.delete_cons, JsMap.get_cons]
    by_cases hek : e.1 = k
    · have hne : ¬ e.1 = k1 := fun h2 => h (h2.symm.trans hek)
      simp only [hek, if_true]
      rw [ih]
      have hne2 : ¬ k = k1 := fun h2 => h h2.symm
      simp [hne2]
    · simp only [hek, if_false]
      rw [JsMap.get_cons, ih]

theorem JsMap.length_delete_le (m : JsMap α β) (k : α) : (m.delete k).length ≤ m.length := by
  simpa [JsMap.delete] using List.length_filter_le _ m

theorem JsSet.has_empty (a : α) : JsSet.has ([] : JsSet α) a = false := rfl

theorem JsSet.has_add (s : JsSet α) (a b : α) :
    (s.add a).has b = (s.has b || decide (b = a)) := by
  unfold JsSet.add
  split
  · rename_i h
    by_cases hb : b = a
    · subst hb
      simp [h]
    · simp [hb]
  · simp only [JsSet.has, List.any_append, List.any_cons, List.any_nil, Bool.or_false]
    congr 1
    by_cases hb : b = a
    · simp [hb]
    · have : ¬ a = b := fun h => hb h.symm
      simp [hb, this]

end MapLemmas

theorem MessengerClient.setConn_self (c : MessengerClient K B J) (name : String)
    (state : Session K B J) (h : c.conns name = some state) : c.setConn name state = c := by
  cases c with
  | mk ca gov conns certs eg =>
    simp only [MessengerClient.setConn, MessengerClient.mk.injEq, true_and, and_true]
    funext x
    by_cases hx : x = name
    · subst hx
      simpa using h.symm
    · simp [hx]

theorem MessengerClient.setConn_conns_self (c : MessengerClient K B J) (name : String)
    (state : Session K B J) : (c.setConn name state).conns name = some state := by
  simp [MessengerClient.setConn]

theorem MessengerClient.setConn_conns_ne (c : MessengerClient K B J) (name : String)
    (state : Session K B J) {other : String} (h : other ≠ name) :
    (c.setConn name state).conns other = c.conns other := by
  simp [MessengerClient.setConn, h]

theorem MessengerClient.setConn_setConn (c : MessengerClient K B J) (name : String)
    (s1 s2 : Session K B J) : (c.setConn name s1).setConn name s2 = c.setConn name s2 := by
  simp only [MessengerClient.setConn, MessengerClient.mk.injEq, true_and, and_true]
  funext x
  by_cases hx : x = name <;> simp [hx]

/-! ## The skip loop -/

section Chain

variable (L : Lib K B J)

theorem chainKey_zero (ck : K) : chainKey L ck 0 = ck := rfl

theorem chainKey_succ (ck : K) (i : Nat) :
    chainKey L ck (i + 1) = chainKey L (L.HMACtoHMACKey ck "ck") i := rfl

theorem chainKey_succ_outer (ck : K) (i : Nat) :
    chainKey L ck (i + 1) = L.HMACtoHMACKey (chainKey L ck i) "ck" := by
  simp only [chainKey]
  exact Function.iterate_succ_apply' _ i ck

theorem chainKey_add (ck : K) (i j : Nat) :
    chainKey L (chainKey L ck i) j = chainKey L ck (i + j) := by
  simp only [chainKey]
  rw [Nat.add_comm, Function.iterate_add_apply]

end Chain

section Skip

variable [DecidableEq J] (L : Lib K B J)

theorem skipLoop_frame (u fuel : Nat) (s : Session K B J) :
    (skipLoop L u fuel s).DHr = s.DHr ∧ (skipLoop L u fuel s).DHs = s.DHs ∧
    (skipLoop L u fuel s).RK = s.RK ∧ (skipLoop L u fuel s).CKs = s.CKs ∧
    (skipLoop L u fuel s).Ns = s.Ns ∧ (skipLoop L u fuel s).PN = s.PN ∧
    (skipLoop L u fuel s).receivedSet = s.receivedSet := by
  induction fuel generalizing s with
  | zero => simp [skipLoop]
  | succ fuel ih =>
    simp only [skipLoop]
    split
    · split
      · simp
      · rename_i ckr hck
        have := ih (skipStep L s ckr)
        simpa [skipStep] using this
    · simp

theorem skipLoop_position (u : Nat) :
    ∀ (fuel : Nat) (s : Session K B J) (ck : K), s.CKr = some ck → u - s.Nr ≤ fuel →
      (skipLoop L u fuel s).Nr = max s.Nr u ∧
      (skipLoop L u fuel s).CKr = some (chainKey L ck (u - s.Nr)) := by
  intro fuel
  induction fuel with
  | zero =>
    intro s ck hck hfuel
    have h0 : u - s.Nr = 0 := Nat.le_zero.mp hfuel
    have hle : u ≤ s.Nr := Nat.sub_eq_zero_iff_le.mp h0
    simp [skipLoop, h0, hck, chainKey_zero, Nat.max_eq_left hle]
  | succ fuel ih =>
    intro s ck hck hfuel
    simp only [skipLoop]
    by_cases hlt : s.Nr < u
    · simp only [hlt, if_true, hck]
      have h1 : (skipStep L s ck).CKr = some (L.HMACtoHMACKey ck "ck") := rfl
      have h2 : (skipStep L s ck).Nr = s.Nr + 1 := rfl
      have := ih (skipStep L s ck) _ h1 (by rw [h2]; omega)
      rw [h2] at this
      have hsub : u - s.Nr = (u - (s.Nr + 1)) + 1 := by omega
      rw [hsub, chainKey_succ]
      refine ⟨?_, this.2⟩
      rw [this.1]
      omega
    · have hle : u ≤ s.Nr := Nat.le_of_not_lt hlt
      have h0 : u - s.Nr = 0 := Nat.sub_eq_zero_iff_le.mpr hle
      simp [hlt, h0, hck, chainKey_zero, Nat.max_eq_left hle]

theorem skipLoop_get (u : Nat) :
    ∀ (fuel : Nat) (s : Session K B J) (ck : K), s.CKr = some ck → u - s.Nr ≤ fuel →
      ∀ key : HeaderKey J,
        (skipLoop L u fuel s).MKSKIPPED.get key =
          if key.1 = MessengerClient._pubKeyToStr L s.DHr ∧ s.Nr ≤ key.2 ∧ key.2 < u then
            some (L.exportKeyRaw (messageKey L ck (key.2 - s.Nr)))
          else s.MKSKIPPED.get key := by
  intro fuel
  induction fuel with
  | zero =>
    intro s ck hck hfuel key
    have h0 : u - s.Nr = 0 := Nat.le_zero.mp hfuel
    have hle : u ≤ s.Nr := Nat.sub_eq_zero_iff_le.mp h0
    have : ¬ (key.1 = MessengerClient._pubKeyToStr L s.DHr ∧ s.Nr ≤ key.2 ∧ key.2 < u) := by
      intro h
      omega
    simp [skipLoop, this]
  | succ fuel ih =>
    intro s ck hck hfuel key
    simp only [skipLoop]
    by_cases hlt : s.Nr < u
    · simp only [hlt, if_true, hck]
      have h1 : (skipStep L s ck).CKr = some (L.HMACtoHMACKey ck "ck") := rfl
      have h2 : (skipStep L s ck).Nr = s.Nr + 1 := rfl
      have h3 : (skipStep L s ck).DHr = s.DHr := rfl
      have h4 : (skipStep L s ck).MKSKIPPED
          = s.MKSKIPPED.set (MessengerClient._pubKeyToStr L s.DHr, s.Nr)
              (L.exportKeyRaw (L.HMACtoAESKey ck "msg")) := rfl
      rw [ih (skipStep L s ck) _ h1 (by rw [h2]; omega) key, h2, h3, h4]
      by_cases hk : key = (MessengerClient._pubKeyToStr L s.DHr, s.Nr)
      · subst hk
        have hneg : ¬ (s.Nr + 1 ≤ s.Nr) := by omega
        simp [hneg, hlt, JsMap.get_set_self, messageKey, chainKey_zero]
      · rw [JsMap.get_set_ne _ _ _ hk]
        by_cases hd : key.1 = MessengerClient._pubKeyToStr L s.DHr
        · have hne : key.2 ≠ s.Nr := by
            intro h
            apply hk
            exact Prod.ext hd h
          by_cases hin : s.Nr ≤ key.2 ∧ key.2 < u
          · have hin2 : s.Nr + 1 ≤ key.2 ∧ key.2 < u := ⟨by omega, hin.2⟩
            have hsub : key.2 - s.Nr = (key.2 - (s.Nr + 1)) + 1 := by omega
            simp only [hd, hin, hin2, and_self, if_true, true_and]
            rw [hsub]
            simp only [messageKey, chainKey_succ]
          · have hin2 : ¬ (s.Nr + 1 ≤ key.2 ∧ key.2 < u) := by
              intro h
              exact hin ⟨by omega, h.2⟩
            simp [hin, hin2]
        · simp [hd]
    · have hle : u ≤ s.Nr := Nat.le_of_not_lt hlt
      have : ¬ (key.1 = MessengerClient._pubKeyToStr L s.DHr ∧ s.Nr ≤ key.2 ∧ key.2 < u) := by
        intro h
        omega
      simp [hlt, this]

theorem skipLoop_has (u : Nat) :
    ∀ (fuel : Nat) (s : Session K B J) (ck : K), s.CKr = some ck → u - s.Nr ≤ fuel →
      ∀ key : HeaderKey J,
        (skipLoop L u fuel s).MKSKIPPED.has key =
          (s.MKSKIPPED.has key ||
            decide (key.1 = MessengerClient._pubKeyToStr L s.DHr ∧ s.Nr ≤ key.2 ∧ key.2 < u)) := by
  intro fuel
  induction fuel with
  | zero =>
    intro s ck hck hfuel key
    have h0 : u - s.Nr = 0 := Nat.le_zero.mp hfuel
    have hle : u ≤ s.Nr := Nat.sub_eq_zero_iff_le.mp h0
    have : ¬ (key.1 = MessengerClient._pubKeyToStr L s.DHr ∧ s.Nr ≤ key.2 ∧ key.2 < u) := by
      intro h
      omega
    simp [skipLoop, this]
  | succ fuel ih =>
    intro s ck hck hfuel key
    simp only [skipLoop]
    by_cases hlt : s.Nr < u
    · simp only [hlt, if_true, hck]
      have h1 : (skipStep L s ck).CKr = some (L.HMACtoHMACKey ck "ck") := rfl
      have h2 : (skipStep L s ck).Nr = s.Nr + 1 := rfl
      have h3 : (skipStep L s ck).DHr = s.DHr := rfl
      have h4 : (skipStep L s ck).MKSKIPPED
          = s.MKSKIPPED.set (MessengerClient._pubKeyToStr L s.DHr, s.Nr)
              (L.exportKeyRaw (L.HMACtoAESKey ck "msg")) := rfl
      rw [ih (skipStep L s ck) _ h1 (by rw [h2]; omega) key, h2, h3, h4, JsMap.has_set]
      by_cases hd : key.1 = MessengerClient._pubKeyToStr L s.DHr
      · by_cases hn : key.2 = s.Nr
        · have hk : key = (MessengerClient._pubKeyToStr L s.DHr, s.Nr) := Prod.ext hd hn
          have hin : s.Nr ≤ key.2 ∧ key.2 < u := ⟨by omega, by omega⟩
          simp [hk, hlt]
        · have hk : ¬ key = (MessengerClient._pubKeyToStr L s.DHr, s.Nr) := by
            intro h
            exact hn (congrArg Prod.snd h)
          have hiff : (s.Nr + 1 ≤ key.2 ∧ key.2 < u) ↔ (s.Nr ≤ key.2 ∧ key.2 < u) := by
            constructor
            · intro h
              exact ⟨by omega, h.2⟩
            · intro h
              exact ⟨by omega, h.2⟩
          simp [hk, hd, hiff]
      · have hk : ¬ key = (MessengerClient._pubKeyToStr L s.DHr, s.Nr) := by
          intro h
          exact hd (congrArg Prod.fst h)
        simp [hk, hd]
    · have hle : u ≤ s.Nr := Nat.le_of_not_lt hlt
      have : ¬ (key.1 = MessengerClient._pubKeyToStr L s.DHr ∧ s.Nr ≤ key.2 ∧ key.2 < u) := by
        intro h
        omega
      simp [hlt, this]

end Skip

/-! ## Receiving along a chain -/

section Receive

variable [DecidableEq J] (L : Lib K B J)

theorem skipMessageKeys_throw (s : Session K B J) (u : Nat) (h : s.Nr + MAX_SKIP < u) :
    MessengerClient._skipMessageKeys L s u = (.error (.str "Too many skipped messages"), s) := by
  simp [MessengerClient._skipMessageKeys, h]

theorem skipMessageKeys_absent (s : Session K B J) (u : Nat) (h : ¬ s.Nr + MAX_SKIP < u)
    (hck : s.CKr = none) : MessengerClient._skipMessageKeys L s u = (.ok (), s) := by
  simp [MessengerClient._skipMessageKeys, h, hck]

theorem skipMessageKeys_loop (s : Session K B J) (u : Nat) (h : ¬ s.Nr + MAX_SKIP < u)
    (ck : K) (hck : s.CKr = some ck) :
    MessengerClient._skipMessageKeys L s u = (.ok (), skipLoop L u (u - s.Nr) s) := by
  simp [MessengerClient._skipMessageKeys, h, hck]

/-- The chain branch of `receiveMessage` once the skip has succeeded. -/
theorem receiveOnChain_of_skip (s s1 : Session K B J) (header : Header K B) (ciphertext : B)
    (ckr : K) (hskip : MessengerClient._skipMessageKeys L s header.n = (.ok (), s1))
    (hck : s1.CKr = some ckr) :
    receiveOnChain L s header ciphertext =
      match L.decryptWithGCM (L.HMACtoAESKey ckr "msg") ciphertext header.receiverIV
          (stringifyHeader header) with
      | some buf =>
        (.ok (L.bufferToString buf),
          { s1 with
            CKr := some (L.HMACtoHMACKey ckr "ck")
            Nr := s1.Nr + 1
            receivedSet :=
              s1.receivedSet.add (MessengerClient._pubKeyToStr L (some header.dh), header.n) })
      | none =>
        (.error (.str "Decryption failed or tampering detected"),
          { s1 with CKr := some (L.HMACtoHMACKey ckr "ck"), Nr := s1.Nr + 1 }) := by
  simp only [receiveOnChain, hskip, hck]

theorem receiveOnChain_synced (hAead : AeadRoundTrip L) (dhPub ck0 : K) (D : List Nat)
    (s : Session K B J) (hs : Synced L dhPub ck0 D s) (i : Nat) (p : String)
    (m : Header K B × B) (hm : ChainMessage L dhPub ck0 i p m) (hge : s.Nr ≤ i)
    (hbound : i ≤ s.Nr + MAX_SKIP) :
    ∃ s1, receiveOnChain L s m.1 m.2 = (.ok p, s1) ∧ Synced L dhPub ck0 (i :: D) s1 := by
  obtain ⟨hdhr, hckr, hD, hrecv, hget, hhas, hlast⟩ := hs
  obtain ⟨hmdh, hmn, hmc⟩ := hm
  subst hmn
  have hnot : ¬ s.Nr + MAX_SKIP < m.1.n := by omega
  have hskip := skipMessageKeys_loop L s m.1.n hnot _ hckr
  have hpos := skipLoop_position L m.1.n (m.1.n - s.Nr) s _ hckr (Nat.le_refl _)
  have hfr := skipLoop_frame L m.1.n (m.1.n - s.Nr) s
  have hgetL := skipLoop_get L m.1.n (m.1.n - s.Nr) s _ hckr (Nat.le_refl _)
  have hhasL := skipLoop_has L m.1.n (m.1.n - s.Nr) s _ hckr (Nat.le_refl _)
  have hckr1 : (skipLoop L m.1.n (m.1.n - s.Nr) s).CKr = some (chainKey L ck0 m.1.n) := by
    rw [hpos.2, chainKey_add]
    congr 2
    omega
  have hNr1 : (skipLoop L m.1.n (m.1.n - s.Nr) s).Nr = m.1.n := by
    rw [hpos.1]
    exact Nat.max_eq_right hge
  rw [receiveOnChain_of_skip L s _ m.1 m.2 _ hskip hckr1]
  obtain ⟨buf, hdec, hbuf⟩ :=
    hAead.1 (messageKey L ck0 m.1.n) p m.1.receiverIV (stringifyHeader m.1)
  have hdec2 : L.decryptWithGCM (L.HMACtoAESKey (chainKey L ck0 m.1.n) "msg") m.2 m.1.receiverIV
      (stringifyHeader m.1) = some buf := by
    rw [hmc]
    exact hdec
  rw [hdec2]
  dsimp only
  rw [hbuf]
  refine ⟨_, rfl, ?_⟩
  have hstr : MessengerClient._pubKeyToStr L s.DHr = some (L.cryptoKeyToJSON dhPub) := by
    rw [hdhr]
    rfl
  refine ⟨?_, ?_, ?_, ?_, ?_, ?_, ?_⟩
  · show (skipLoop L m.1.n (m.1.n - s.Nr) s).DHr = some dhPub
    rw [hfr.1, hdhr]
  · show some (L.HMACtoHMACKey (chainKey L ck0 m.1.n) "ck")
        = some (chainKey L ck0 ((skipLoop L m.1.n (m.1.n - s.Nr) s).Nr + 1))
    rw [hNr1, chainKey_succ_outer]
  · intro j hj
    show j < (skipLoop L m.1.n (m.1.n - s.Nr) s).Nr + 1
    rw [hNr1]
    rcases List.mem_cons.mp hj with h | h
    · omega
    · have := hD j h
      omega
  · intro j hj
    have hj2 : ((skipLoop L m.1.n (m.1.n - s.Nr) s).receivedSet.add
        (MessengerClient._pubKeyToStr L (some m.1.dh), m.1.n)).has
        (some (L.cryptoKeyToJSON dhPub), j) = true := hj
    rw [JsSet.has_add, hfr.2.2.2.2.2.2, Bool.or_eq_true] at hj2
    rcases hj2 with h | h
    · exact List.mem_cons_of_mem _ (hrecv j h)
    · have h2 := of_decide_eq_true h
      have h3 : j = m.1.n := congrArg Prod.snd h2
      rw [h3]
      exact List.mem_cons_self _ _
  · intro j hj hjD
    have hj1 : j < (skipLoop L m.1.n (m.1.n - s.Nr) s).Nr + 1 := hj
    rw [hNr1] at hj1
    have hji : j ≠ m.1.n := fun h => hjD (h ▸ List.mem_cons_self _ _)
    have hjD2 : j ∉ D := fun h => hjD (List.mem_cons_of_mem _ h)
    show (skipLoop L m.1.n (m.1.n - s.Nr) s).MKSKIPPED.get (some (L.cryptoKeyToJSON dhPub), j) = _
    rw [hgetL, hstr]
    by_cases hlow : s.Nr ≤ j
    · have hlt : j < m.1.n := by omega
      simp only [hlow, hlt, and_self, if_true]
      have e : s.Nr + (j - s.Nr) = j := by omega
      simp only [messageKey, chainKey_add, e]
    · simp only [hlow, false_and, and_false, if_false]
      exact hget j (by omega) hjD2
  · intro j hj
    have hj1 : (skipLoop L m.1.n (m.1.n - s.Nr) s).Nr + 1 ≤ j := hj
    rw [hNr1] at hj1
    show (skipLoop L m.1.n (m.1.n - s.Nr) s).MKSKIPPED.has (some (L.cryptoKeyToJSON dhPub), j) = false
    rw [hhasL, hhas j (by omega)]
    have : ¬ j < m.1.n := by omega
    simp [this]
  · intro _
    show (skipLoop L m.1.n (m.1.n - s.Nr) s).Nr + 1 - 1 ∈ m.1.n :: D
    rw [hNr1]
    simp

theorem trySkipped_miss (s : Session K B J) (header : Header K B)
    (h : s.MKSKIPPED.has (some (L.cryptoKeyToJSON header.dh), header.n) = false) :
    MessengerClient._trySkippedMessageKeys L s header = (none, s) := by
  simp [MessengerClient._trySkippedMessageKeys, MessengerClient._pubKeyToStr, h]

theorem trySkipped_hit (s : Session K B J) (header : Header K B)
    (h : s.MKSKIPPED.has (some (L.cryptoKeyToJSON header.dh), header.n) = true) :
    MessengerClient._trySkippedMessageKeys L s header =
      (s.MKSKIPPED.get (some (L.cryptoKeyToJSON header.dh), header.n),
        { s with MKSKIPPED := s.MKSKIPPED.delete (some (L.cryptoKeyToJSON header.dh), header.n) })
    := by
  simp [MessengerClient._trySkippedMessageKeys, MessengerClient._pubKeyToStr, h]

theorem ratchetIfNew_same (s : Session K B J) (header : Header K B) (seed : Nat) (dhr : K)
    (hdhr : s.DHr = some dhr) (hsame : L.cryptoKeyToJSON header.dh = L.cryptoKeyToJSON dhr) :
    ratchetIfNew L s header seed = (.ok (), s) := by
  simp [ratchetIfNew, MessengerClient._pubKeyToStr, hdhr, hsame]

theorem receiveOnSession_replay (s : Session K B J) (header : Header K B) (ciphertext : B)
    (seed : Nat) (h : s.receivedSet.has (some (L.cryptoKeyToJSON header.dh), header.n) = true) :
    receiveOnSession L s header ciphertext seed = (.error (.str "Replay detected"), s) := by
  simp [receiveOnSession, MessengerClient._pubKeyToStr, h]

/-- The skipped-key branch of `receiveMessage`. -/
theorem receiveOnSession_hit (s : Session K B J) (header : Header K B) (ciphertext : B)
    (seed : Nat) (mk : B)
    (hnew : s.receivedSet.has (some (L.cryptoKeyToJSON header.dh), header.n) = false)
    (hget : s.MKSKIPPED.get (some (L.cryptoKeyToJSON header.dh), header.n) = some mk) :
    receiveOnSession L s header ciphertext seed =
      match L.decryptWithGCM (L.importKeyRaw mk) ciphertext header.receiverIV
          (stringifyHeader header) with
      | none =>
        (.error .native,
          { s with
            MKSKIPPED := s.MKSKIPPED.delete (some (L.cryptoKeyToJSON header.dh), header.n) })
      | some buf =>
        (.ok (L.bufferToString buf),
          { s with
            MKSKIPPED := s.MKSKIPPED.delete (some (L.cryptoKeyToJSON header.dh), header.n)
            receivedSet := s.receivedSet.add (some (L.cryptoKeyToJSON header.dh), header.n) }) := by
  have hhas := JsMap.has_of_get hget
  simp only [receiveOnSession, MessengerClient._pubKeyToStr, Option.map_some', hnew,
    Bool.false_eq_true, if_false]
  rw [trySkipped_hit L s header hhas, hget]

/-- The branch of `receiveMessage` taken when the key is not cached. -/
theorem receiveOnSession_miss (s : Session K B J) (header : Header K B) (ciphertext : B)
    (seed : Nat)
    (hnew : s.receivedSet.has (some (L.cryptoKeyToJSON header.dh), header.n) = false)
    (hmiss : s.MKSKIPPED.has (some (L.cryptoKeyToJSON header.dh), header.n) = false) :
    receiveOnSession L s header ciphertext seed =
      match ratchetIfNew L s header seed with
      | (.error err, state) => (.error err, state)
      | (.ok _, state) => receiveOnChain L state header ciphertext := by
  simp only [receiveOnSession, MessengerClient._pubKeyToStr, Option.map_some', hnew,
    Bool.false_eq_true, if_false]
  rw [trySkipped_miss L s header hmiss]

theorem receiveOnSession_synced (hAead : AeadRoundTrip L) (dhPub ck0 : K) (D : List Nat)
    (s : Session K B J) (hs : Synced L dhPub ck0 D s) (i : Nat) (p : String)
    (m : Header K B × B) (hm : ChainMessage L dhPub ck0 i p m) (hi : i ∉ D)
    (hbound : i ≤ s.Nr + MAX_SKIP) (hRaw : i < s.Nr → RawKeyRoundTrip L) (seed : Nat) :
    ∃ s1, receiveOnSession L s m.1 m.2 seed = (.ok p, s1) ∧ Synced L dhPub ck0 (i :: D) s1 := by
  have hs0 := hs
  obtain ⟨hdhr, hckr, hD, hrecv, hget, hhas, hlast⟩ := hs
  have hm0 := hm
  obtain ⟨hmdh, hmn, hmc⟩ := hm
  have hnew : s.receivedSet.has (some (L.cryptoKeyToJSON m.1.dh), m.1.n) = false := by
    rw [hmdh, hmn]
    cases hh : s.receivedSet.has (some (L.cryptoKeyToJSON dhPub), i) with
    | false => rfl
    | true => exact absurd (hrecv i hh) hi
  by_cases hlt : i < s.Nr
  · have hg : s.MKSKIPPED.get (some (L.cryptoKeyToJSON m.1.dh), m.1.n)
        = some (L.exportKeyRaw (messageKey L ck0 i)) := by
      rw [hmdh, hmn]
      exact hget i hlt hi
    rw [receiveOnSession_hit L s m.1 m.2 seed _ hnew hg, hRaw hlt]
    obtain ⟨buf, hdec, hbuf⟩ :=
      hAead.1 (messageKey L ck0 i) p m.1.receiverIV (stringifyHeader m.1)
    rw [hmc, hdec]
    dsimp only
    rw [hbuf]
    refine ⟨_, rfl, ?_⟩
    rw [hmdh, hmn]
    refine ⟨hdhr, hckr, ?_, ?_, ?_, ?_, ?_⟩
    · intro j hj
      rcases List.mem_cons.mp hj with h | h
      · rw [h]
        exact hlt
      · exact hD j h
    · intro j hj
      have hj2 : (s.receivedSet.add (some (L.cryptoKeyToJSON dhPub), i)).has
          (some (L.cryptoKeyToJSON dhPub), j) = true := hj
      rw [JsSet.has_add, Bool.or_eq_true] at hj2
      rcases hj2 with h | h
      · exact List.mem_cons_of_mem _ (hrecv j h)
      · have h3 : j = i := congrArg Prod.snd (of_decide_eq_true h)
        rw [h3]
        exact List.mem_cons_self _ _
    · intro j hj hjD
      have hji : j ≠ i := fun h => hjD (h ▸ List.mem_cons_self _ _)
      have hjD2 : j ∉ D := fun h => hjD (List.mem_cons_of_mem _ h)
      show (s.MKSKIPPED.delete (some (L.cryptoKeyToJSON dhPub), i)).get
        (some (L.cryptoKeyToJSON dhPub), j) = _
      rw [JsMap.get_delete_ne]
      · exact hget j hj hjD2
      · intro h
        exact hji (congrArg Prod.snd h)
    · intro j hj
      show (s.MKSKIPPED.delete (some (L.cryptoKeyToJSON dhPub), i)).has
        (some (L.cryptoKeyToJSON dhPub), j) = false
      rw [JsMap.has_delete, hhas j hj]
      rfl
    · intro h0
      exact List.mem_cons_of_mem _ (hlast h0)
  · have hge : s.Nr ≤ i := Nat.le_of_not_lt hlt
    have hmiss : s.MKSKIPPED.has (some (L.cryptoKeyToJSON m.1.dh), m.1.n) = false := by
      rw [hmdh, hmn]
      exact hhas i hge
    rw [receiveOnSession_miss L s m.1 m.2 seed hnew hmiss,
      ratchetIfNew_same L s m.1 seed dhPub hdhr (by rw [hmdh])]
    exact receiveOnChain_synced L hAead dhPub ck0 D s hs0 i p m hm0 hge hbound

/-- The first message on a session just created by `receiveMessage`: the DH
ratchet step runs and the chain branch follows. -/
theorem receiveOnSession_fresh (s : Session K B J) (header : Header K B) (ciphertext : B)
    (seed : Nat) (hdhr : s.DHr = none) (hckr : s.CKr = none) (hNr : s.Nr = 0)
    (hmap : s.MKSKIPPED = []) (hset : s.receivedSet = []) (hpn : header.pn ≤ MAX_SKIP) :
    receiveOnSession L s header ciphertext seed =
      receiveOnChain L (MessengerClient._doDHRatchet L s header.dh seed) header ciphertext := by
  have hnew : s.receivedSet.has (some (L.cryptoKeyToJSON header.dh), header.n) = false := by
    rw [hset]
    rfl
  have hmiss : s.MKSKIPPED.has (some (L.cryptoKeyToJSON header.dh), header.n) = false := by
    rw [hmap]
    rfl
  rw [receiveOnSession_miss L s header ciphertext seed hnew hmiss]
  have hnot : ¬ s.Nr + MAX_SKIP < header.pn := by omega
  simp [ratchetIfNew, hdhr, skipMessageKeys_absent L s header.pn hnot hckr]

theorem synced_after_ratchet (s : Session K B J) (dhPub ck0 : K) (seed : Nat)
    (hmap : s.MKSKIPPED = []) (hset : s.receivedSet = [])
    (hck : (L.HKDF s.RK (L.computeDH s.DHs.sec dhPub) "ratchet").2 = ck0) :
    Synced L dhPub ck0 [] (MessengerClient._doDHRatchet L s dhPub seed) := by
  refine ⟨rfl, ?_, ?_, ?_, ?_, ?_, ?_⟩
  · show some (L.HKDF s.RK (L.computeDH s.DHs.sec dhPub) "ratchet").2 = _
    rw [hck]
    rfl
  · intro i hi
    simp at hi
  · intro i hi
    have : (s.receivedSet).has (some (L.cryptoKeyToJSON dhPub), i) = true := hi
    rw [hset] at this
    simp [JsSet.has] at this
  · intro i hi
    have : i < 0 := hi
    omega
  · intro i _
    show s.MKSKIPPED.has (some (L.cryptoKeyToJSON dhPub), i) = false
    rw [hmap]
    rfl
  · intro h
    have : 0 < 0 := h
    omega

theorem receiveMessage_ready (hAead : AeadRoundTrip L) (name : String) (dhPub ck0 : K)
    (D : List Nat) (c : MessengerClient K B J) (hready : ReceiverReady L name dhPub ck0 D c)
    (i : Nat) (p : String) (m : Header K B × B) (hm : ChainMessage L dhPub ck0 i p m)
    (hpn : m.1.pn ≤ MAX_SKIP) (hi : i ∉ D)
    (hbound : i ≤ MAX_SKIP ∨ ∃ j ∈ D, i ≤ j + 1 + MAX_SKIP)
    (hRaw : RawKeyRoundTrip L ∨ ∀ j ∈ D, j < i) (seed : Nat) :
    ∃ c1, c.receiveMessage L name m seed = (.ok p, c1) ∧
      ReceiverReady L name dhPub ck0 (i :: D) c1 := by
  obtain ⟨cert, hcert, hconn⟩ := hready
  rcases hconn with ⟨s, hs, hsync⟩ | ⟨hD, hnone, eg, heg, hck⟩
  · have hb : i ≤ s.Nr + MAX_SKIP := by
      rcases hbound with h | ⟨j, hj, h⟩
      · omega
      · have := hsync.2.2.1 j hj
        omega
    have hr : i < s.Nr → RawKeyRoundTrip L := by
      intro hlt
      rcases hRaw with h | h
      · exact h
      · have h1 := hsync.2.2.2.2.2.2 (by omega)
        have := h _ h1
        omega
    obtain ⟨s1, hrecv, hs1⟩ :=
      receiveOnSession_synced L hAead dhPub ck0 D s hsync i p m hm hi hb hr seed
    refine ⟨c.setConn name s1, ?_, cert, hcert, Or.inl ⟨s1, ?_, hs1⟩⟩
    · simp only [MessengerClient.receiveMessage, hcert, hs, hrecv]
    · exact MessengerClient.setConn_conns_self c name s1
  · subst hD
    have hb : i ≤ MAX_SKIP := by
      rcases hbound with h | ⟨j, hj, _⟩
      · exact h
      · simp at hj
    have hinit : ratchetInitBob L c cert =
        some
          { DHs := eg
            DHr := none
            RK := L.computeDH eg.sec cert.publicKey
            CKs := none
            CKr := none
            Ns := 0
            Nr := 0
            PN := 0
            MKSKIPPED := []
            receivedSet := [] } := by
      simp [ratchetInitBob, heg]
    have hfresh := receiveOnSession_fresh L
      ({ DHs := eg
         DHr := none
         RK := L.computeDH eg.sec cert.publicKey
         CKs := none
         CKr := none
         Ns := 0
         Nr := 0
         PN := 0
         MKSKIPPED := []
         receivedSet := [] } : Session K B J) m.1 m.2 seed rfl rfl rfl rfl rfl hpn
    have hsync := synced_after_ratchet L
      ({ DHs := eg
         DHr := none
         RK := L.computeDH eg.sec cert.publicKey
         CKs := none
         CKr := none
         Ns := 0
         Nr := 0
         PN := 0
         MKSKIPPED := []
         receivedSet := [] } : Session K B J) dhPub ck0 seed rfl rfl hck
    rw [hm.1] at hfresh
    obtain ⟨s1, hrecv, hs1⟩ := receiveOnChain_synced L hAead dhPub ck0 [] _ hsync i p m hm
      (Nat.zero_le _) (by show i ≤ 0 + MAX_SKIP; omega)
    refine ⟨c.setConn name s1, ?_, cert, hcert, Or.inl ⟨s1, ?_, hs1⟩⟩
    · simp only [MessengerClient.receiveMessage, hcert, hnone, hinit, hfresh, hrecv]
    · exact MessengerClient.setConn_conns_self c name s1

theorem receiveAll_chain (hAead : AeadRoundTrip L) (name : String) (dhPub ck0 : K) :
    ∀ (del : List ((Header K B × B) × String)) (seeds : List Nat) (D : List Nat)
      (c : MessengerClient K B J), seeds.length = del.length →
      ReceiverReady L name dhPub ck0 D c →
      (∀ x ∈ del, ChainMessage L dhPub ck0 x.1.1.n x.2 x.1 ∧ x.1.1.pn ≤ MAX_SKIP) →
      Deliverable D (del.map (fun x => x.1.1.n)) →
      (RawKeyRoundTrip L ∨ Ascending D (del.map (fun x => x.1.1.n))) →
      (receiveAll L c name ((del.map Prod.fst).zip seeds)).1 = del.map (fun x => Except.ok x.2) := by
  intro del
  induction del with
  | nil =>
    intro seeds D c _ _ _ _ _
    rfl
  | cons x del ih =>
    intro seeds D c hlen hready hmsgs hdel hraw
    cases seeds with
    | nil => simp at hlen
    | cons seed seeds =>
      have hx := hmsgs x (List.mem_cons_self _ _)
      obtain ⟨hnew, hbound, hrest⟩ := hdel
      have hraw1 : RawKeyRoundTrip L ∨ ∀ j ∈ D, j < x.1.1.n := by
        rcases hraw with h | h
        · exact Or.inl h
        · exact Or.inr h.1
      have hraw2 : RawKeyRoundTrip L ∨
          Ascending (x.1.1.n :: D) (del.map (fun x => x.1.1.n)) := by
        rcases hraw with h | h
        · exact Or.inl h
        · exact Or.inr h.2
      obtain ⟨c1, hrecv, hready1⟩ := receiveMessage_ready L hAead name dhPub ck0 D c hready
        x.1.1.n x.2 x.1 hx.1 hx.2 hnew hbound hraw1 seed
      have hih := ih seeds (x.1.1.n :: D) c1 (by simpa using hlen) hready1
        (fun y hy => hmsgs y (List.mem_cons_of_mem _ hy)) hrest hraw2
      show (receiveAll L c name ((x.1, seed) :: (del.map Prod.fst).zip seeds)).1 = _
      simp only [receiveAll, hrecv, hih, List.map_cons]

end Receive

/-! ## Sending along a chain -/

section Send

variable (L : Lib K B J)

/-- What `sendMessage` does on a session that has a sending chain. -/
theorem sendOnSession_ok (gov : K) (s : Session K B J) (p : String) (e : SendEntropy) (cks : K)
    (hck : s.CKs = some cks) :
    sendOnSession L gov s p e =
      (.ok
        ({ dh := s.DHs.pub
           pn := s.PN
           n := s.Ns
           vGov := (L.generateEG e.govEphemeral).pub
           cGov :=
             L.encryptWithGCM
               (L.HMACtoAESKey (L.computeDH (L.generateEG e.govEphemeral).sec gov)
                 L.govEncryptionDataStr)
               (.buffer (L.exportKeyRaw (L.HMACtoAESKey cks "msg")))
               (L.genRandomSalt e.ivGov 12) .empty
           ivGov := L.genRandomSalt e.ivGov 12
           receiverIV := L.genRandomSalt e.receiverIV 12 },
         L.encryptWithGCM (L.HMACtoAESKey cks "msg") (.text p) (L.genRandomSalt e.receiverIV 12)
           (.headerJSON s.PN s.Ns (L.genRandomSalt e.ivGov 12)
             (L.genRandomSalt e.receiverIV 12))),
        { s with CKs := some (L.HMACtoHMACKey cks "ck"), Ns := s.Ns + 1 }) := by
  simp [sendOnSession, hck, stringifyHeader]

theorem sendMessage_at (name : String) (dhPub ck0 : K) (pn a : Nat)
    (c : MessengerClient K B J) (hc : SenderAt L name dhPub ck0 pn a c) (p : String)
    (e : SendEntropy) :
    ∃ m c1, c.sendMessage L name p e = (.ok m, c1) ∧ ChainMessage L dhPub ck0 a p m ∧
      m.1.pn = pn ∧ SenderAt L name dhPub ck0 pn (a + 1) c1 := by
  obtain ⟨cert, s, hcert, hs, hdh, hck, hNs, hPN⟩ := hc
  have hsend : c.sendMessage L name p e =
      ((sendOnSession L c.govPublicKey s p e).1,
        c.setConn name (sendOnSession L c.govPublicKey s p e).2) := by
    simp only [MessengerClient.sendMessage, hcert, hs]
  rw [sendOnSession_ok L _ s p e _ hck] at hsend
  refine ⟨_, _, hsend, ?_, ?_, ?_⟩
  · exact ⟨hdh, hNs, by simp [messageKey, stringifyHeader, hNs]⟩
  · exact hPN
  · refine ⟨cert, _, hcert, MessengerClient.setConn_conns_self c name _, hdh, ?_, ?_, hPN⟩
    · show some (L.HMACtoHMACKey (chainKey L ck0 a) "ck") = _
      rw [chainKey_succ_outer]
    · show s.Ns + 1 = a + 1
      rw [hNs]

theorem sendAll_at (name : String) (dhPub ck0 : K) (pn : Nat) :
    ∀ (sends : List (String × SendEntropy)) (a : Nat) (c : MessengerClient K B J),
      SenderAt L name dhPub ck0 pn a c →
      ∃ ms, (sendAll L c name sends).1 = ms.map Except.ok ∧
        ChainMessages L dhPub ck0 pn a (sends.map Prod.fst) ms := by
  intro sends
  induction sends with
  | nil =>
    intro a c _
    exact ⟨[], rfl, trivial⟩
  | cons x sends ih =>
    intro a c hc
    obtain ⟨m, c1, hsend, hm, hpn, hc1⟩ := sendMessage_at L name dhPub ck0 pn a c hc x.1 x.2
    obtain ⟨ms, hms, hchain⟩ := ih (a + 1) c1 hc1
    refine ⟨m :: ms, ?_, hm, hpn, hchain⟩
    show (sendAll L c name ((x.1, x.2) :: sends)).1 = _
    simp only [sendAll, hsend, hms, List.map_cons]

/-- The first `sendMessage` to a peer first stores the session of
RatchetInitAlice and then proceeds as on any stored session. -/
theorem sendMessage_init (c : MessengerClient K B J) (name : String) (cert : CertEntry K J)
    (s0 : Session K B J) (p : String) (e : SendEntropy) (hcert : c.certs name = some cert)
    (hnone : c.conns name = none) (hinit : ratchetInitAlice L c cert e = some s0) :
    c.sendMessage L name p e = (c.setConn name s0).sendMessage L name p e := by
  have h1 : (c.setConn name s0).certs name = some cert := hcert
  have h2 : (c.setConn name s0).conns name = some s0 :=
    MessengerClient.setConn_conns_self c name s0
  have h3 : (c.setConn name s0).govPublicKey = c.govPublicKey := rfl
  simp only [MessengerClient.sendMessage, hcert, hnone, hinit, h1, h2, h3,
    MessengerClient.setConn_setConn]

theorem chainMessages_length (dhPub ck0 : K) (pn : Nat) :
    ∀ (ps : List String) (ms : List (Header K B × B)) (a : Nat),
      ChainMessages L dhPub ck0 pn a ps ms → ms.length = ps.length := by
  intro ps
  induction ps with
  | nil =>
    intro ms a h
    cases ms with
    | nil => rfl
    | cons m ms => exact absurd h (by simp [ChainMessages])
  | cons p ps ih =>
    intro ms a h
    cases ms with
    | nil => exact absurd h (by simp [ChainMessages])
    | cons m ms =>
      simp only [List.length_cons]
      rw [ih ms (a + 1) h.2.2]

theorem chainMessages_mem (dhPub ck0 : K) (pn : Nat) :
    ∀ (ps : List String) (ms : List (Header K B × B)) (a : Nat),
      ChainMessages L dhPub ck0 pn a ps ms →
      ∀ x ∈ ms.zip ps, ChainMessage L dhPub ck0 x.1.1.n x.2 x.1 ∧ x.1.1.pn = pn := by
  intro ps
  induction ps with
  | nil =>
    intro ms a _ x hx
    simp at hx
  | cons p ps ih =>
    intro ms a h x hx
    cases ms with
    | nil => simp at hx
    | cons m ms =>
      rw [List.zip_cons_cons] at hx
      rcases List.mem_cons.mp hx with hx1 | hx1
      · subst hx1
        refine ⟨?_, h.2.1⟩
        have := h.1
        rw [← this.2.1] at this
        exact this
      · exact ih ms (a + 1) h.2.2 x hx1

theorem chainMessages_counters (dhPub ck0 : K) (pn : Nat) :
    ∀ (ps : List String) (ms : List (Header K B × B)) (a : Nat),
      ChainMessages L dhPub ck0 pn a ps ms →
      (ms.zip ps).map (fun x => x.1.1.n) = List.range' a ps.length := by
  intro ps
  induction ps with
  | nil =>
    intro ms a _
    simp
  | cons p ps ih =>
    intro ms a h
    cases ms with
    | nil => exact absurd h (by simp [ChainMessages])
    | cons m ms =>
      rw [List.zip_cons_cons, List.map_cons, ih ms (a + 1) h.2.2, List.length_cons,
        List.range'_succ]
      rw [h.1.2.1]

end Send

/-! ## Delivery orders -/

theorem deliverable_of_nodup :
    ∀ (l D : List Nat), l.Nodup → (∀ i ∈ l, i ≤ MAX_SKIP) → (∀ i ∈ l, i ∉ D) →
      Deliverable D l := by
  intro l
  induction l with
  | nil =>
    intro D _ _ _
    trivial
  | cons i l ih =>
    intro D hnd hle hD
    have hnd2 := List.nodup_cons.mp hnd
    refine ⟨hD i (List.mem_cons_self _ _), Or.inl (hle i (List.mem_cons_self _ _)), ?_⟩
    apply ih (i :: D) hnd2.2 (fun j hj => hle j (List.mem_cons_of_mem _ hj))
    intro j hj hjD
    rcases List.mem_cons.mp hjD with h | h
    · subst h
      exact hnd2.1 hj
    · exact hD j (List.mem_cons_of_mem _ hj) h

theorem deliverable_range :
    ∀ (k a : Nat) (D : List Nat), (∀ j, j < a → j ∈ D) → (∀ j ∈ D, j < a) →
      Deliverable D (List.range' a k) ∧ Ascending D (List.range' a k) := by
  intro k
  induction k with
  | zero =>
    intro a D _ _
    exact ⟨trivial, trivial⟩
  | succ k ih =>
    intro a D hall hlt
    rw [List.range'_succ]
    have hrec := ih (a + 1) (a :: D)
      (fun j hj => by
        by_cases h : j = a
        · subst h
          exact List.mem_cons_self _ _
        · exact List.mem_cons_of_mem _ (hall j (by omega)))
      (fun j hj => by
        rcases List.mem_cons.mp hj with h | h
        · omega
        · have := hlt j h
          omega)
    refine ⟨⟨?_, ?_, hrec.1⟩, hlt, hrec.2⟩
    · intro h
      have := hlt a h
      omega
    · by_cases h0 : a = 0
      · left
        rw [h0]
        exact Nat.zero_le _
      · right
        exact ⟨a - 1, hall (a - 1) (by omega), by omega⟩

/-! ## Certificates and fresh clients -/

section Setup

variable (L : Lib K B J)

theorem receiveCertificate_ok (c c1 : MessengerClient K B J) (certificate : Certificate J)
    (signature : B) (h : c.receiveCertificate L certificate signature = (.ok (), c1)) :
    L.verifyWithECDSA c.caPublicKey certificate signature = true ∧
    ∃ theirPub, L.importKeyJwk certificate.pub = some theirPub ∧
      c1 = { c with certs := fun x =>
              if x = certificate.username then
                some { certificate := certificate, publicKey := theirPub }
              else c.certs x } := by
  unfold MessengerClient.receiveCertificate at h
  cases hv : L.verifyWithECDSA c.caPublicKey certificate signature with
  | false => simp [hv] at h
  | true =>
    cases hi : L.importKeyJwk certificate.pub with
    | none => simp [hv, hi] at h
    | some theirPub =>
      simp only [hv, hi, Bool.not_true, Bool.false_eq_true, if_false, Prod.mk.injEq,
        true_and] at h
      exact ⟨rfl, theirPub, rfl, h.symm⟩

theorem freshPair_setup (hJwk : JwkRoundTrip L) (nameA nameB : String)
    (alice bob : MessengerClient K B J) (h : FreshPair L nameA nameB alice bob) :
    ∃ (seedA seedB : Nat) (certA certB : CertEntry K J),
      alice.EGKeyPair = some (L.generateEG seedA) ∧ alice.certs nameB = some certB ∧
      certB.publicKey = (L.generateEG seedB).pub ∧ (∀ x, alice.conns x = none) ∧
      bob.EGKeyPair = some (L.generateEG seedB) ∧ bob.certs nameA = some certA ∧
      certA.publicKey = (L.generateEG seedA).pub ∧ (∀ x, bob.conns x = none) := by
  obtain ⟨caA, govA, caB, govB, seedA, seedB, sigA, sigB, hA, hB⟩ := h
  obtain ⟨_, kB, hkB, hA1⟩ := receiveCertificate_ok L _ _ _ _ hA
  obtain ⟨_, kA, hkA, hB1⟩ := receiveCertificate_ok L _ _ _ _ hB
  have hkB2 : kB = (L.generateEG seedB).pub := by
    have := hJwk seedB
    simp only [MessengerClient.generateCertificate] at hkB
    rw [this] at hkB
    exact (Option.some.inj hkB).symm
  have hkA2 : kA = (L.generateEG seedA).pub := by
    have := hJwk seedA
    simp only [MessengerClient.generateCertificate] at hkA
    rw [this] at hkA
    exact (Option.some.inj hkA).symm
  refine ⟨seedA, seedB,
    { certificate := { username := nameA, pub := L.cryptoKeyToJSON (L.generateEG seedA).pub }
      publicKey := kA },
    { certificate := { username := nameB, pub := L.cryptoKeyToJSON (L.generateEG seedB).pub }
      publicKey := kB }, ?_, ?_, hkB2, ?_, ?_, ?_, hkA2, ?_⟩
  · rw [hA1]
    rfl
  · rw [hA1]
    simp [MessengerClient.generateCertificate]
  · intro x
    rw [hA1]
    rfl
  · rw [hB1]
    rfl
  · rw [hB1]
    simp [MessengerClient.generateCertificate]
  · intro x
    rw [hB1]
    rfl

end Setup

/-! ## The symbolic primitives satisfy the contracts -/

theorem symbolicLib_dh : DHSymmetric symbolicLib := by
  intro a b
  show Term.shared (min a b) (max a b) = Term.shared (min b a) (max b a)
  rw [Nat.min_comm, Nat.max_comm]

theorem symbolicLib_jwk : JwkRoundTrip symbolicLib := by
  intro a
  show (if a + 1 = 0 then none else some (Term.pub (a + 1 - 1))) = some (Term.pub a)
  simp

theorem symbolicLib_raw : RawKeyRoundTrip symbolicLib := fun _ => rfl

theorem symbolicLib_aead : AeadRoundTrip symbolicLib := by
  refine ⟨fun k s iv ad => ⟨Term.utf8 s, ?_, rfl⟩, fun k b iv ad => ?_⟩
  · simp [symbolicLib, Term.ofPlain]
  · simp [symbolicLib, Term.ofPlain]

theorem symbolicLib_binding : AeadBinding symbolicLib := by
  intro k p iv ad k1 iv1 ad1 h
  simp only [symbolicLib] at h
  by_cases hc : k = k1 ∧ iv = iv1 ∧ Term.adNumbers ad = Term.adNumbers ad1 ∧
      Term.adIvGov ad = Term.adIvGov ad1 ∧ Term.adReceiverIV ad = Term.adReceiverIV ad1
  · obtain ⟨h1, h2, h3, h4, h5⟩ := hc
    refine ⟨h1.symm, h2.symm, ?_⟩
    cases ad <;> cases ad1 <;> simp_all [Term.adNumbers, Term.adIvGov, Term.adReceiverIV]
  · simp [hc] at h

/-! ## Exchanges between two fresh clients -/

section Exchange

variable [DecidableEq J] (L : Lib K B J)

/-- Between two fresh clients, whatever `alice` sends to `bob` forms one chain
that `bob` is ready to receive. -/
theorem fresh_exchange (hDH : DHSymmetric L) (hJwk : JwkRoundTrip L) (nameA nameB : String)
    (alice bob : MessengerClient K B J) (hpair : FreshPair L nameA nameB alice bob)
    (sends : List (String × SendEntropy)) :
    ∃ (ms : List (Header K B × B)) (dhPub ck0 : K),
      (sendAll L alice nameB sends).1 = ms.map Except.ok ∧
      ChainMessages L dhPub ck0 0 0 (sends.map Prod.fst) ms ∧
      ReceiverReady L nameA dhPub ck0 [] bob := by
  obtain ⟨seedA, seedB, certA, certB, hegA, hcB, hpkB, hconnA, hegB, hcA, hpkA, hconnB⟩ :=
    freshPair_setup L hJwk nameA nameB alice bob hpair
  cases sends with
  | nil =>
    exact ⟨[], (L.generateEG 0).pub, _, rfl, trivial, certA, hcA,
      Or.inr ⟨rfl, hconnB nameA, _, hegB, rfl⟩⟩
  | cons x sends =>
    have hinit : ratchetInitAlice L alice certB x.2 =
        some
          { DHs := L.generateEG x.2.ratchet
            DHr := some certB.publicKey
            RK := (L.HKDF (L.computeDH (L.generateEG seedA).sec certB.publicKey)
              (L.computeDH (L.generateEG x.2.ratchet).sec certB.publicKey) "ratchet").1
            CKs := some (L.HKDF (L.computeDH (L.generateEG seedA).sec certB.publicKey)
              (L.computeDH (L.generateEG x.2.ratchet).sec certB.publicKey) "ratchet").2
            CKr := none
            Ns := 0
            Nr := 0
            PN := 0
            MKSKIPPED := []
            receivedSet := [] } := by
      simp [ratchetInitAlice, hegA]
    have hfirst := sendMessage_init L alice nameB certB _ x.1 x.2 hcB (hconnA nameB) hinit
    have hat : SenderAt L nameB (L.generateEG x.2.ratchet).pub
        (L.HKDF (L.computeDH (L.generateEG seedA).sec certB.publicKey)
          (L.computeDH (L.generateEG x.2.ratchet).sec certB.publicKey) "ratchet").2 0 0
        (alice.setConn nameB
          { DHs := L.generateEG x.2.ratchet
            DHr := some certB.publicKey
            RK := (L.HKDF (L.computeDH (L.generateEG seedA).sec certB.publicKey)
              (L.computeDH (L.generateEG x.2.ratchet).sec certB.publicKey) "ratchet").1
            CKs := some (L.HKDF (L.computeDH (L.generateEG seedA).sec certB.publicKey)
              (L.computeDH (L.generateEG x.2.ratchet).sec certB.publicKey) "ratchet").2
            CKr := none
            Ns := 0
            Nr := 0
            PN := 0
            MKSKIPPED := []
            receivedSet := [] }) :=
      ⟨certB, _, hcB, MessengerClient.setConn_conns_self alice nameB _, rfl, rfl, rfl, rfl⟩
    obtain ⟨ms, hms, hchain⟩ := sendAll_at L nameB _ _ 0 (x :: sends) 0 _ hat
    refine ⟨ms, _, _, ?_, hchain, certA, hcA, Or.inr ⟨rfl, hconnB nameA, _, hegB, ?_⟩⟩
    · rw [← hms]
      show (sendAll L alice nameB ((x.1, x.2) :: sends)).1
        = (sendAll L _ nameB ((x.1, x.2) :: sends)).1
      simp only [sendAll, hfirst]
    · rw [hpkA, hpkB, hDH seedB seedA, hDH seedB x.2.ratchet]

theorem okMessages_map_ok (ms : List (Header K B × B)) :
    okMessages (ms.map Except.ok) = ms := by
  induction ms with
  | nil => rfl
  | cons m ms ih => simp [okMessages, ih]

/-- C1 (round trip, in order).  Two fresh clients have accepted each other's
certificates; `alice` calls `sendMessage(bob, p)` for each plaintext of a list
and `bob` calls `receiveMessage(alice, ·)` on the results in the same order.
Every send returns a message and the i-th receive returns the i-th plaintext,
for every list of plaintexts and all entropy, given that Diffie-Hellman is
symmetric, JWK import inverts JWK export on generated keys and GCM decryption
inverts GCM encryption.  The two clients share no state, so the sends and
the receives may be interleaved in any way without changing either result. -/
theorem round_trip_in_order (hDH : DHSymmetric L) (hJwk : JwkRoundTrip L)
    (hAead : AeadRoundTrip L) (nameA nameB : String) (alice bob : MessengerClient K B J)
    (hpair : FreshPair L nameA nameB alice bob) (sends : List (String × SendEntropy))
    (seeds : List Nat) (hlen : seeds.length = sends.length) :
    ∃ ms : List (Header K B × B),
      (sendAll L alice nameB sends).1 = ms.map Except.ok ∧
      (receiveAll L bob nameA (ms.zip seeds)).1 = sends.map (fun x => Except.ok x.1) := by
  obtain ⟨ms, dhPub, ck0, hsend, hchain, hready⟩ :=
    fresh_exchange L hDH hJwk nameA nameB alice bob hpair sends
  refine ⟨ms, hsend, ?_⟩
  have hl := chainMessages_length L dhPub ck0 0 _ _ 0 hchain
  have hcount := chainMessages_counters L dhPub ck0 0 _ _ 0 hchain
  have hmem := chainMessages_mem L dhPub ck0 0 _ _ 0 hchain
  have hord := deliverable_range (sends.map Prod.fst).length 0 []
    (fun j hj => absurd hj (Nat.not_lt_zero j)) (fun j hj => by simp at hj)
  rw [← hcount] at hord
  have hmain := receiveAll_chain L hAead nameA dhPub ck0 (ms.zip (sends.map Prod.fst)) seeds []
    bob (by simp [hl, hlen]) hready
    (fun x hx => ⟨(hmem x hx).1, by rw [(hmem x hx).2]; exact Nat.zero_le _⟩) hord.1
    (Or.inr hord.2)
  rw [List.map_fst_zip _ _ (Nat.le_of_eq hl)] at hmain
  rw [hmain]
  have h2 : (ms.zip (sends.map Prod.fst)).map (fun x => (Except.ok x.2 : Except Thrown String))
      = ((ms.zip (sends.map Prod.fst)).map Prod.snd).map Except.ok := by
    rw [List.map_map]
    rfl
  rw [h2, List.map_snd_zip _ _ (Nat.le_of_eq hl.symm), List.map_map]
  rfl

/-- A header whose key is cached in `MKSKIPPED` (and is no replay) is decrypted
with the cached key, imported as an AES key. -/
theorem receiveMessage_cached (c : MessengerClient K B J) (name : String)
    (s : Session K B J) (header : Header K B) (ciphertext : B) (seed : Nat) (mk : B)
    (hcert : c.certs name ≠ none) (hconn : c.conns name = some s)
    (hnew : s.receivedSet.has (some (L.cryptoKeyToJSON header.dh), header.n) = false)
    (hget : s.MKSKIPPED.get (some (L.cryptoKeyToJSON header.dh), header.n) = some mk) :
    (c.receiveMessage L name (header, ciphertext) seed).1 =
      skippedDecryptOutcome L
        (L.decryptWithGCM (L.importKeyRaw mk) ciphertext header.receiverIV
          (stringifyHeader header)) := by
  obtain ⟨cert, hcert2⟩ := Option.ne_none_iff_exists'.mp hcert
  simp only [MessengerClient.receiveMessage, hcert2, hconn,
    receiveOnSession_hit L s header ciphertext seed mk hnew hget]
  cases L.decryptWithGCM (L.importKeyRaw mk) ciphertext header.receiverIV
    (stringifyHeader header) <;> rfl

/-- C6 (out-of-order delivery).  Between two fresh clients, `alice` sends
`n` messages in a row with `n - 1 ≤ MAX_SKIP`; whatever the order in which
`bob` receives them, each once, every `receiveMessage` returns the plaintext
of the message it was given.  A message whose key is cached in `MKSKIPPED`,
as happens to one that was skipped over, is decrypted with the cached key.
Contracts assumed: Diffie-Hellman symmetry, JWK and raw-key import inverting
export, GCM decryption inverting encryption. -/
theorem out_of_order_delivery (hDH : DHSymmetric L) (hJwk : JwkRoundTrip L)
    (hAead : AeadRoundTrip L) (hRaw : RawKeyRoundTrip L) (nameA nameB : String)
    (alice bob : MessengerClient K B J) (hpair : FreshPair L nameA nameB alice bob)
    (sends : List (String × SendEntropy)) (hn : sends.length - 1 ≤ MAX_SKIP) :
    (∃ ms : List (Header K B × B),
      (sendAll L alice nameB sends).1 = ms.map Except.ok ∧
      ∀ (delivery : List ((Header K B × B) × String)) (seeds : List Nat),
        delivery.Perm (ms.zip (sends.map Prod.fst)) → seeds.length = delivery.length →
        (receiveAll L bob nameA ((delivery.map Prod.fst).zip seeds)).1
          = delivery.map (fun x => Except.ok x.2)) ∧
    ∀ (c : MessengerClient K B J) (name : String) (s : Session K B J) (header : Header K B)
      (ciphertext : B) (seed : Nat) (mk : B), c.certs name ≠ none → c.conns name = some s →
      s.receivedSet.has (some (L.cryptoKeyToJSON header.dh), header.n) = false →
      s.MKSKIPPED.get (some (L.cryptoKeyToJSON header.dh), header.n) = some mk →
      (c.receiveMessage L name (header, ciphertext) seed).1 =
        skippedDecryptOutcome L
          (L.decryptWithGCM (L.importKeyRaw mk) ciphertext header.receiverIV
            (stringifyHeader header)) := by
  refine ⟨?_, fun c name s header ciphertext seed mk hcert hconn hnew hget =>
    receiveMessage_cached L c name s header ciphertext seed mk hcert hconn hnew hget⟩
  obtain ⟨ms, dhPub, ck0, hsend, hchain, hready⟩ :=
    fresh_exchange L hDH hJwk nameA nameB alice bob hpair sends
  refine ⟨ms, hsend, ?_⟩
  intro delivery seeds hperm hlen
  have hcount := chainMessages_counters L dhPub ck0 0 _ _ 0 hchain
  have hmem := chainMessages_mem L dhPub ck0 0 _ _ 0 hchain
  have hpermN := hperm.map (fun x => x.1.1.n)
  rw [hcount] at hpermN
  have hnodup : (delivery.map (fun x => x.1.1.n)).Nodup :=
    hpermN.nodup_iff.mpr (List.nodup_range' 0 _)
  have hsmall : ∀ i ∈ delivery.map (fun x => x.1.1.n), i ≤ MAX_SKIP := by
    intro i hi
    have := (List.mem_range'_1.mp (hpermN.mem_iff.mp hi)).2
    simp only [List.length_map] at this
    omega
  exact receiveAll_chain L hAead nameA dhPub ck0 delivery seeds [] bob hlen hready
    (fun x hx => ⟨(hmem x (hperm.mem_iff.mp hx)).1, by
      rw [(hmem x (hperm.mem_iff.mp hx)).2]
      exact Nat.zero_le _⟩)
    (deliverable_of_nodup _ [] hnodup hsmall (fun i _ h => by simp at h)) (Or.inl hRaw)

theorem demo_pair : FreshPair symbolicLib "alice" "bob" demoAlice demoBob :=
  ⟨.pub 100, .pub 200, .pub 100, .pub 200, 1, 2, .signed 100 "alice" 2, .signed 100 "bob" 3,
    rfl, rfl⟩

/-- Witness of C1: three messages from `alice` to `bob`, received in order. -/
theorem round_trip_in_order_witness :
    ∃ ms : List (Header Term Term × Term),
      (sendAll symbolicLib demoAlice "bob" demoSends).1 = ms.map Except.ok ∧
      (receiveAll symbolicLib demoBob "alice" (ms.zip [40, 41, 42])).1
        = [.ok "one", .ok "two", .ok "three"] :=
  round_trip_in_order symbolicLib symbolicLib_dh symbolicLib_jwk symbolicLib_aead "alice" "bob"
    demoAlice demoBob demo_pair demoSends [40, 41, 42] rfl

/-- Witness of C6: three messages delivered in the order 3, 1, 2. -/
theorem out_of_order_delivery_witness :
    (receiveAll symbolicLib demoBob "alice" ((demoDelivery.map Prod.fst).zip [40, 41, 42])).1
      = [.ok "three", .ok "one", .ok "two"] := by
  obtain ⟨ms, hms, h⟩ := (out_of_order_delivery symbolicLib symbolicLib_dh symbolicLib_jwk
    symbolicLib_aead symbolicLib_raw "alice" "bob" demoAlice demoBob demo_pair demoSends
    (by decide)).1
  have hms2 : ms = demoMessages := by
    have := congrArg okMessages hms
    rw [okMessages_map_ok] at this
    exact this.symm
  subst hms2
  have hperm : demoDelivery.Perm (demoMessages.zip (demoSends.map Prod.fst)) :=
    (List.Perm.swap _ _ _).trans (List.Perm.cons _ (List.Perm.swap _ _ _))
  exact h demoDelivery [40, 41, 42] hperm rfl

end Exchange

/-! ## Escrow -/

section Escrow

variable (L : Lib K B J)

/-- A `sendMessage` call that returns has run the send step on a session with a
sending chain: the stored one, or the one RatchetInitAlice has just built. -/
theorem sendMessage_ok_inv (c c1 : MessengerClient K B J) (name p : String) (e : SendEntropy)
    (m : Header K B × B) (h : c.sendMessage L name p e = (.ok m, c1)) :
    ∃ s cks s1, s.CKs = some cks ∧ sendOnSession L c.govPublicKey s p e = (.ok m, s1) ∧
      c1 = c.setConn name s1 ∧
      (c.conns name = some s ∨
        (c.conns name = none ∧ ∃ cert, c.certs name = some cert ∧
          ratchetInitAlice L c cert e = some s)) := by
  unfold MessengerClient.sendMessage at h
  cases hcert : c.certs name with
  | none => simp [hcert] at h
  | some cert =>
    cases hconn : c.conns name with
    | some s =>
      simp only [hcert, hconn, Prod.mk.injEq] at h
      cases hck : s.CKs with
      | none =>
        have : (sendOnSession L c.govPublicKey s p e).1
            = .error (.str "Sending chain key missing") := by
          simp [sendOnSession, hck]
        rw [this] at h
        exact absurd h.1 (by simp)
      | some cks =>
        exact ⟨s, cks, _, hck, Prod.ext h.1 rfl, h.2.symm, Or.inl rfl⟩
    | none =>
      cases hinit : ratchetInitAlice L c cert e with
      | none => simp [hcert, hconn, hinit] at h
      | some s =>
        simp only [hcert, hconn, hinit, Prod.mk.injEq] at h
        cases hck : s.CKs with
        | none =>
          have : (sendOnSession L c.govPublicKey s p e).1
              = .error (.str "Sending chain key missing") := by
            simp [sendOnSession, hck]
          rw [this] at h
          exact absurd h.1 (by simp)
        | some cks =>
          exact ⟨s, cks, _, hck, Prod.ext h.1 rfl, h.2.symm, Or.inr ⟨rfl, cert, rfl, hinit⟩⟩

/-- C10 (escrow correctness).  For every message `(header, ciphertext)` that
`sendMessage` returns, on a client whose `govPublicKey` is the public key of the
escrow key pair: the escrow authority computes DH of its private key with
`header.vGov`, derives the AES key with the escrow label and decrypts
`header.cGov` with nonce `header.ivGov`; importing the raw bytes it obtains
gives the key under which the payload was encrypted, and decrypting
`ciphertext` with that key, `header.receiverIV` and the serialised header
returns the plaintext.  Contracts assumed: Diffie-Hellman symmetry, GCM round
trip, raw-key import inverting export. -/
theorem escrow_correctness (hDH : DHSymmetric L) (hAead : AeadRoundTrip L)
    (hRaw : RawKeyRoundTrip L) (c c1 : MessengerClient K B J) (g : Nat)
    (hgov : c.govPublicKey = (L.generateEG g).pub) (name p : String) (e : SendEntropy)
    (header : Header K B) (ciphertext : B)
    (hsend : c.sendMessage L name p e = (.ok (header, ciphertext), c1)) :
    ∃ raw buf,
      L.decryptWithGCM
          (L.HMACtoAESKey (L.computeDH (L.generateEG g).sec header.vGov) L.govEncryptionDataStr)
          header.cGov header.ivGov .empty = some raw ∧
      ciphertext = L.encryptWithGCM (L.importKeyRaw raw) (.text p) header.receiverIV
          (stringifyHeader header) ∧
      L.decryptWithGCM (L.importKeyRaw raw) ciphertext header.receiverIV
          (stringifyHeader header) = some buf ∧
      L.bufferToString buf = p := by
  obtain ⟨s, cks, s1, hck, hs, _, _⟩ := sendMessage_ok_inv L c c1 name p e _ hsend
  rw [sendOnSession_ok L _ s p e cks hck] at hs
  have hm := (Prod.mk.inj (Except.ok.inj (Prod.mk.inj hs).1))
  obtain ⟨hh, hc⟩ := hm
  subst hh
  subst hc
  obtain ⟨buf, hdec, hbuf⟩ := hAead.1 (L.HMACtoAESKey cks "msg") p
    (L.genRandomSalt e.receiverIV 12)
    (.headerJSON s.PN s.Ns (L.genRandomSalt e.ivGov 12) (L.genRandomSalt e.receiverIV 12))
  refine ⟨L.exportKeyRaw (L.HMACtoAESKey cks "msg"), buf, ?_, ?_, ?_, hbuf⟩
  · show L.decryptWithGCM
        (L.HMACtoAESKey (L.computeDH (L.generateEG g).sec (L.generateEG e.govEphemeral).pub)
          L.govEncryptionDataStr) _ _ _ = _
    rw [hDH g e.govEphemeral, hgov]
    exact hAead.2 _ _ _ _
  · rw [hRaw]
    rfl
  · rw [hRaw]
    exact hdec

/-- Witness of C10: the first message `alice` sends to `bob`; the escrow key
pair is the one generated from entropy 200. -/
theorem escrow_correctness_witness :
    ∃ raw buf,
      symbolicLib.decryptWithGCM
          (symbolicLib.HMACtoAESKey
            (symbolicLib.computeDH (symbolicLib.generateEG 200).sec demoFirst.1.vGov)
            symbolicLib.govEncryptionDataStr)
          demoFirst.1.cGov demoFirst.1.ivGov .empty = some raw ∧
      demoFirst.2 = symbolicLib.encryptWithGCM (symbolicLib.importKeyRaw raw) (.text "one")
          demoFirst.1.receiverIV (stringifyHeader demoFirst.1) ∧
      symbolicLib.decryptWithGCM (symbolicLib.importKeyRaw raw) demoFirst.2
          demoFirst.1.receiverIV (stringifyHeader demoFirst.1) = some buf ∧
      symbolicLib.bufferToString buf = "one" :=
  escrow_correctness symbolicLib symbolicLib_dh symbolicLib_aead symbolicLib_raw demoAlice
    (MessengerClient.sendMessage symbolicLib demoAlice "bob" "one" ⟨10, 11, 12, 13⟩).2 200 rfl
    "bob" "one" ⟨10, 11, 12, 13⟩ demoFirst.1 demoFirst.2 rfl

end Escrow

/-! ## The skip bound -/

section SkipBound

variable [DecidableEq J] (L : Lib K B J)

theorem skipMessageKeys_error_iff (s : Session K B J) (u : Nat) :
    (∃ err, (MessengerClient._skipMessageKeys L s u).1 = .error err) ↔ MAX_SKIP < u - s.Nr := by
  unfold MessengerClient._skipMessageKeys
  by_cases h : s.Nr + MAX_SKIP < u
  · simp only [h, if_true]
    constructor
    · intro _
      omega
    · intro _
      exact ⟨_, rfl⟩
  · simp only [h, if_false]
    constructor
    · intro ⟨err, herr⟩
      cases hck : s.CKr <;> simp [hck] at herr
    · intro h2
      omega

/-- The skip bound reaches `receiveMessage` unless an earlier guard answers
first. -/
theorem receiveMessage_skip_bound (c : MessengerClient K B J) (name : String)
    (s : Session K B J) (header : Header K B) (ciphertext : B) (seed : Nat) (dhr : K)
    (hcert : c.certs name ≠ none) (hconn : c.conns name = some s) (hdhr : s.DHr = some dhr)
    (hsame : L.cryptoKeyToJSON header.dh = L.cryptoKeyToJSON dhr)
    (hfar : s.Nr + MAX_SKIP < header.n)
    (hnew : s.receivedSet.has (some (L.cryptoKeyToJSON header.dh), header.n) = false)
    (hmiss : s.MKSKIPPED.has (some (L.cryptoKeyToJSON header.dh), header.n) = false) :
    c.receiveMessage L name (header, ciphertext) seed
      = (.error (.str "Too many skipped messages"), c) := by
  obtain ⟨cert, hcert2⟩ := Option.ne_none_iff_exists'.mp hcert
  have hr : receiveOnSession L s header ciphertext seed
      = (.error (.str "Too many skipped messages"), s) := by
    rw [receiveOnSession_miss L s header ciphertext seed hnew hmiss,
      ratchetIfNew_same L s header seed dhr hdhr hsame]
    simp only [receiveOnChain, skipMessageKeys_throw L s header.n hfar]
  simp only [MessengerClient.receiveMessage, hcert2, hconn, hr]
  rw [MessengerClient.setConn_self c name s hconn]

/-- C7 (skip bound), as amended.  For every session state and target counter,
`_skipMessageKeys(state, until)` throws if and only if `until - state.Nr`
exceeds `MAX_SKIP` = 2000, what it throws is 'Too many skipped messages' and the
state is untouched; a gap of exactly 2000 is accepted.  `receiveMessage` on a
header that carries the session's current ratchet key and a counter above
`Nr + 2000` raises that error and leaves the client as it was, provided the
header is not first rejected as a replay or served from the skipped-key cache. -/
theorem skip_bound (s : Session K B J) (until_ : Nat) :
    ((∃ err, (MessengerClient._skipMessageKeys L s until_).1 = .error err)
      ↔ MAX_SKIP < until_ - s.Nr) ∧
    (MAX_SKIP < until_ - s.Nr →
      MessengerClient._skipMessageKeys L s until_
        = (.error (.str "Too many skipped messages"), s)) ∧
    (until_ - s.Nr = MAX_SKIP → (MessengerClient._skipMessageKeys L s until_).1 = .ok ()) ∧
    MAX_SKIP = 2000 ∧
    ∀ (c : MessengerClient K B J) (name : String) (header : Header K B) (ciphertext : B)
      (seed : Nat) (dhr : K), c.certs name ≠ none → c.conns name = some s →
      s.DHr = some dhr → L.cryptoKeyToJSON header.dh = L.cryptoKeyToJSON dhr →
      s.Nr + MAX_SKIP < header.n →
      s.receivedSet.has (some (L.cryptoKeyToJSON header.dh), header.n) = false →
      s.MKSKIPPED.has (some (L.cryptoKeyToJSON header.dh), header.n) = false →
      c.receiveMessage L name (header, ciphertext) seed
        = (.error (.str "Too many skipped messages"), c) := by
  refine ⟨skipMessageKeys_error_iff L s until_, ?_, ?_, rfl, ?_⟩
  · intro h
    exact skipMessageKeys_throw L s until_ (by omega)
  · intro h
    have hnot : ¬ s.Nr + MAX_SKIP < until_ := by omega
    cases hck : s.CKr with
    | none => rw [skipMessageKeys_absent L s until_ hnot hck]
    | some ck => rw [skipMessageKeys_loop L s until_ hnot ck hck]
  · intro c name header ciphertext seed dhr hcert hconn hdhr hsame hfar hnew hmiss
    exact receiveMessage_skip_bound L c name s header ciphertext seed dhr hcert hconn hdhr
      hsame hfar hnew hmiss

end SkipBound

/-- Witness of C7 as amended: `bob`, whose chain under the ratchet key `pub 10`
stands at `Nr = 1`, is handed a header of that key with counter 5000. -/
theorem skip_bound_witness :
    demoBobAfterFirst.receiveMessage symbolicLib "alice" (demoHeader 5000, .junk) 41
      = (.error (.str "Too many skipped messages"), demoBobAfterFirst) :=
  (skip_bound symbolicLib demoBobSession 0).2.2.2.2 demoBobAfterFirst "alice" (demoHeader 5000)
    .junk 41 (.pub 10)
    (by rw [show demoBobAfterFirst.certs "alice" = some ⟨⟨"alice", 2⟩, .pub 1⟩ from rfl]; simp)
    rfl rfl rfl (by decide) rfl rfl

/-- Counterexample to C7 as stated: the session's ratchet key is the header's and
the header's counter 3000 exceeds `Nr + 2000` = 2000, yet `receiveMessage`
raises 'Replay detected', not 'Too many skipped messages', because the replay
check comes first. -/
theorem skip_bound_counterexample :
    demoReplaySession.DHr = some (demoHeader 3000).dh ∧
    demoReplaySession.Nr + MAX_SKIP < (demoHeader 3000).n ∧
    (MessengerClient.receiveMessage symbolicLib (demoBob.setConn "alice" demoReplaySession)
      "alice" (demoHeader 3000, .junk) 0).1 = .error (.str "Replay detected") :=
  ⟨rfl, by decide, rfl⟩

/-! ## Case analysis of `receiveMessage` -/

section Cases

variable [DecidableEq J] (L : Lib K B J)

theorem sameRatchetKey_or_new (s : Session K B J) (header : Header K B) :
    SameRatchetKey L s header ∨ NewRatchetKey L s header := by
  cases hd : s.DHr with
  | none => exact Or.inr (Or.inl hd)
  | some dhr =>
    by_cases h : L.cryptoKeyToJSON header.dh = L.cryptoKeyToJSON dhr
    · exact Or.inl ⟨dhr, hd, h⟩
    · exact Or.inr (Or.inr ⟨dhr, hd, h⟩)

omit [DecidableEq J] in
theorem not_same_of_new (s : Session K B J) (header : Header K B)
    (hnew : NewRatchetKey L s header) : ¬ SameRatchetKey L s header := by
  intro ⟨dhr, hd, hs⟩
  rcases hnew with h | ⟨dhr2, hd2, hne⟩
  · rw [h] at hd
    exact Option.noConfusion hd
  · rw [hd] at hd2
    have := Option.some.inj hd2
    subst this
    exact hne hs

theorem ratchetIfNew_new (s : Session K B J) (header : Header K B) (seed : Nat)
    (hnew : NewRatchetKey L s header) :
    ratchetIfNew L s header seed =
      match MessengerClient._skipMessageKeys L s header.pn with
      | (.error err, state) => (.error err, state)
      | (.ok _, state) => (.ok (), MessengerClient._doDHRatchet L state header.dh seed) := by
  rcases hnew with h | ⟨dhr, hd, hne⟩
  · simp [ratchetIfNew, h]
  · simp [ratchetIfNew, hd, MessengerClient._pubKeyToStr, hne]

/-- The outcomes of step 2 of `receiveMessage`. -/
theorem ratchetIfNew_cases (s : Session K B J) (header : Header K B) (seed : Nat) :
    (NewRatchetKey L s header ∧ s.Nr + MAX_SKIP < header.pn ∧
      ratchetIfNew L s header seed = (.error (.str "Too many skipped messages"), s)) ∨
    ∃ sR, RatchetOutcome L s header seed sR ∧ ratchetIfNew L s header seed = (.ok (), sR) := by
  rcases sameRatchetKey_or_new L s header with ⟨dhr, hd, hs⟩ | hnew
  · exact Or.inr ⟨s, Or.inl ⟨⟨dhr, hd, hs⟩, rfl⟩, ratchetIfNew_same L s header seed dhr hd hs⟩
  · rw [ratchetIfNew_new L s header seed hnew]
    by_cases hfar : s.Nr + MAX_SKIP < header.pn
    · left
      refine ⟨hnew, hfar, ?_⟩
      rw [skipMessageKeys_throw L s header.pn hfar]
    · right
      cases hck : s.CKr with
      | none =>
        refine ⟨_, Or.inr ⟨hnew, s, skipMessageKeys_absent L s header.pn hfar hck, rfl⟩, ?_⟩
        rw [skipMessageKeys_absent L s header.pn hfar hck]
      | some ck =>
        refine ⟨_, Or.inr ⟨hnew, _, skipMessageKeys_loop L s header.pn hfar ck hck, rfl⟩, ?_⟩
        rw [skipMessageKeys_loop L s header.pn hfar ck hck]

/-- The outcomes of steps 3 and 4 of `receiveMessage` and of the decryption. -/
theorem receiveOnChain_cases (s : Session K B J) (header : Header K B) (ciphertext : B) :
    (s.Nr + MAX_SKIP < header.n ∧
      receiveOnChain L s header ciphertext = (.error (.str "Too many skipped messages"), s)) ∨
    (¬ s.Nr + MAX_SKIP < header.n ∧ s.CKr = none ∧
      receiveOnChain L s header ciphertext
        = (.error (.str "Receiving chain key missing after ratchet"), s)) ∨
    (¬ s.Nr + MAX_SKIP < header.n ∧ ∃ ck, s.CKr = some ck ∧
      ((L.decryptWithGCM (messageKey L ck (header.n - s.Nr)) ciphertext header.receiverIV
            (stringifyHeader header) = none ∧
          receiveOnChain L s header ciphertext =
            (.error (.str "Decryption failed or tampering detected"),
              { skipLoop L header.n (header.n - s.Nr) s with
                CKr := some (chainKey L ck (header.n - s.Nr + 1))
                Nr := max s.Nr header.n + 1 })) ∨
        ∃ buf, L.decryptWithGCM (messageKey L ck (header.n - s.Nr)) ciphertext
            header.receiverIV (stringifyHeader header) = some buf ∧
          receiveOnChain L s header ciphertext =
            (.ok (L.bufferToString buf),
              { skipLoop L header.n (header.n - s.Nr) s with
                CKr := some (chainKey L ck (header.n - s.Nr + 1))
                Nr := max s.Nr header.n + 1
                receivedSet :=
                  s.receivedSet.add (some (L.cryptoKeyToJSON header.dh), header.n) }))) := by
  by_cases hfar : s.Nr + MAX_SKIP < header.n
  · left
    refine ⟨hfar, ?_⟩
    simp only [receiveOnChain, skipMessageKeys_throw L s header.n hfar]
  · right
    cases hck : s.CKr with
    | none =>
      left
      refine ⟨hfar, rfl, ?_⟩
      simp only [receiveOnChain, skipMessageKeys_absent L s header.n hfar hck, hck]
    | some ck =>
      right
      refine ⟨hfar, ck, rfl, ?_⟩
      have hskip := skipMessageKeys_loop L s header.n hfar ck hck
      have hpos := skipLoop_position L header.n (header.n - s.Nr) s ck hck (Nat.le_refl _)
      have hfr := skipLoop_frame L header.n (header.n - s.Nr) s
      rw [receiveOnChain_of_skip L s _ header ciphertext _ hskip hpos.2]
      have hmk : L.HMACtoAESKey (chainKey L ck (header.n - s.Nr)) "msg"
          = messageKey L ck (header.n - s.Nr) := rfl
      rw [hmk]
      cases hdec : L.decryptWithGCM (messageKey L ck (header.n - s.Nr)) ciphertext
          header.receiverIV (stringifyHeader header) with
      | none =>
        left
        refine ⟨rfl, ?_⟩
        simp only [hpos.1, chainKey_succ_outer]
      | some buf =>
        right
        refine ⟨buf, rfl, ?_⟩
        simp only [hpos.1, chainKey_succ_outer, hfr.2.2.2.2.2.2, MessengerClient._pubKeyToStr,
          Option.map_some']

/-- The outcomes of `receiveMessage` on a session. -/
theorem receiveOnSession_cases (s : Session K B J) (header : Header K B) (ciphertext : B)
    (seed : Nat) :
    (s.receivedSet.has (some (L.cryptoKeyToJSON header.dh), header.n) = true ∧
      receiveOnSession L s header ciphertext seed = (.error (.str "Replay detected"), s)) ∨
    (s.receivedSet.has (some (L.cryptoKeyToJSON header.dh), header.n) = false ∧
      ∃ mk, s.MKSKIPPED.get (some (L.cryptoKeyToJSON header.dh), header.n) = some mk ∧
        ((L.decryptWithGCM (L.importKeyRaw mk) ciphertext header.receiverIV
              (stringifyHeader header) = none ∧
            receiveOnSession L s header ciphertext seed =
              (.error .native,
                { s with
                  MKSKIPPED :=
                    s.MKSKIPPED.delete (some (L.cryptoKeyToJSON header.dh), header.n) })) ∨
          ∃ buf, L.decryptWithGCM (L.importKeyRaw mk) ciphertext header.receiverIV
              (stringifyHeader header) = some buf ∧
            receiveOnSession L s header ciphertext seed =
              (.ok (L.bufferToString buf),
                { s with
                  MKSKIPPED :=
                    s.MKSKIPPED.delete (some (L.cryptoKeyToJSON header.dh), header.n)
                  receivedSet :=
                    s.receivedSet.add (some (L.cryptoKeyToJSON header.dh), header.n) }))) ∨
    (s.receivedSet.has (some (L.cryptoKeyToJSON header.dh), header.n) = false ∧
      s.MKSKIPPED.has (some (L.cryptoKeyToJSON header.dh), header.n) = false ∧
      ((NewRatchetKey L s header ∧ s.Nr + MAX_SKIP < header.pn ∧
          receiveOnSession L s header ciphertext seed
            = (.error (.str "Too many skipped messages"), s)) ∨
        ∃ sR, RatchetOutcome L s header seed sR ∧
          receiveOnSession L s header ciphertext seed = receiveOnChain L sR header ciphertext))
    := by
  cases hrep : s.receivedSet.has (some (L.cryptoKeyToJSON header.dh), header.n) with
  | true => exact Or.inl ⟨rfl, receiveOnSession_replay L s header ciphertext seed hrep⟩
  | false =>
    right
    cases hhas : s.MKSKIPPED.has (some (L.cryptoKeyToJSON header.dh), header.n) with
    | true =>
      left
      obtain ⟨mk, hmk⟩ := JsMap.get_isSome_of_has hhas
      refine ⟨rfl, mk, hmk, ?_⟩
      rw [receiveOnSession_hit L s header ciphertext seed mk hrep hmk]
      cases hdec : L.decryptWithGCM (L.importKeyRaw mk) ciphertext header.receiverIV
          (stringifyHeader header) with
      | none => exact Or.inl ⟨rfl, rfl⟩
      | some buf => exact Or.inr ⟨buf, rfl, rfl⟩
    | false =>
      right
      refine ⟨rfl, rfl, ?_⟩
      rw [receiveOnSession_miss L s header ciphertext seed hrep hhas]
      rcases ratchetIfNew_cases L s header seed with ⟨hnew, hfar, hr⟩ | ⟨sR, hout, hr⟩
      · left
        refine ⟨hnew, hfar, ?_⟩
        rw [hr]
      · right
        refine ⟨sR, hout, ?_⟩
        rw [hr]

end Cases

/-! ## What the calls leave untouched -/

section Frame

variable [DecidableEq J] (L : Lib K B J)

theorem skipMessageKeys_frame (s : Session K B J) (u : Nat) :
    (MessengerClient._skipMessageKeys L s u).2.DHr = s.DHr ∧
    (MessengerClient._skipMessageKeys L s u).2.DHs = s.DHs ∧
    (MessengerClient._skipMessageKeys L s u).2.RK = s.RK ∧
    (MessengerClient._skipMessageKeys L s u).2.CKs = s.CKs ∧
    (MessengerClient._skipMessageKeys L s u).2.Ns = s.Ns ∧
    (MessengerClient._skipMessageKeys L s u).2.PN = s.PN ∧
    (MessengerClient._skipMessageKeys L s u).2.receivedSet = s.receivedSet := by
  by_cases hfar : s.Nr + MAX_SKIP < u
  · rw [skipMessageKeys_throw L s u hfar]
    simp
  · cases hck : s.CKr with
    | none =>
      rw [skipMessageKeys_absent L s u hfar hck]
      simp
    | some ck =>
      rw [skipMessageKeys_loop L s u hfar ck hck]
      exact skipLoop_frame L u (u - s.Nr) s

theorem ratchetOutcome_receivedSet (s sR : Session K B J) (header : Header K B) (seed : Nat)
    (h : RatchetOutcome L s header seed sR) : sR.receivedSet = s.receivedSet := by
  rcases h with ⟨_, h⟩ | ⟨_, sP, hskip, h⟩
  · rw [h]
  · rw [h]
    have := (skipMessageKeys_frame L s header.pn).2.2.2.2.2.2
    rw [hskip] at this
    exact this

theorem receiveOnChain_receivedSet (s : Session K B J) (header : Header K B) (ciphertext : B) :
    (∀ p s1, receiveOnChain L s header ciphertext = (.ok p, s1) →
      s1.receivedSet = s.receivedSet.add (some (L.cryptoKeyToJSON header.dh), header.n)) ∧
    (∀ err s1, receiveOnChain L s header ciphertext = (.error err, s1) →
      s1.receivedSet = s.receivedSet) := by
  have hfr := skipLoop_frame L header.n (header.n - s.Nr) s
  rcases receiveOnChain_cases L s header ciphertext with
    ⟨_, hr⟩ | ⟨_, _, hr⟩ | ⟨_, ck, _, ⟨_, hr⟩ | ⟨buf, _, hr⟩⟩
  · rw [hr]
    exact ⟨fun p s1 h => absurd (Prod.mk.inj h).1 (by simp),
      fun err s1 h => by rw [← (Prod.mk.inj h).2]⟩
  · rw [hr]
    exact ⟨fun p s1 h => absurd (Prod.mk.inj h).1 (by simp),
      fun err s1 h => by rw [← (Prod.mk.inj h).2]⟩
  · rw [hr]
    exact ⟨fun p s1 h => absurd (Prod.mk.inj h).1 (by simp),
      fun err s1 h => by rw [← (Prod.mk.inj h).2]; exact hfr.2.2.2.2.2.2⟩
  · rw [hr]
    exact ⟨fun p s1 h => by rw [← (Prod.mk.inj h).2],
      fun err s1 h => absurd (Prod.mk.inj h).1 (by simp)⟩

/-- The replay guard after `receiveMessage` on a session: extended by the
header's key when a plaintext is returned, untouched when the call throws. -/
theorem receiveOnSession_receivedSet (s : Session K B J) (header : Header K B)
    (ciphertext : B) (seed : Nat) :
    (∀ p s1, receiveOnSession L s header ciphertext seed = (.ok p, s1) →
      s1.receivedSet = s.receivedSet.add (some (L.cryptoKeyToJSON header.dh), header.n)) ∧
    (∀ err s1, receiveOnSession L s header ciphertext seed = (.error err, s1) →
      s1.receivedSet = s.receivedSet) := by
  rcases receiveOnSession_cases L s header ciphertext seed with
    ⟨_, hr⟩ | ⟨_, mk, _, ⟨_, hr⟩ | ⟨buf, _, hr⟩⟩ | ⟨_, _, ⟨_, _, hr⟩ | ⟨sR, hout, hr⟩⟩
  · rw [hr]
    exact ⟨fun p s1 h => absurd (Prod.mk.inj h).1 (by simp),
      fun err s1 h => by rw [← (Prod.mk.inj h).2]⟩
  · rw [hr]
    exact ⟨fun p s1 h => absurd (Prod.mk.inj h).1 (by simp),
      fun err s1 h => by rw [← (Prod.mk.inj h).2]⟩
  · rw [hr]
    exact ⟨fun p s1 h => by rw [← (Prod.mk.inj h).2],
      fun err s1 h => absurd (Prod.mk.inj h).1 (by simp)⟩
  · rw [hr]
    exact ⟨fun p s1 h => absurd (Prod.mk.inj h).1 (by simp),
      fun err s1 h => by rw [← (Prod.mk.inj h).2]⟩
  · rw [hr]
    have hR := ratchetOutcome_receivedSet L s sR header seed hout
    have hc := receiveOnChain_receivedSet L sR header ciphertext
    rw [hR] at hc
    exact hc

theorem receiveOnSession_receivedSet_mono (s : Session K B J) (header : Header K B)
    (ciphertext : B) (seed : Nat) (key : HeaderKey J) (h : s.receivedSet.has key = true) :
    (receiveOnSession L s header ciphertext seed).2.receivedSet.has key = true := by
  have hs := receiveOnSession_receivedSet L s header ciphertext seed
  cases hr : receiveOnSession L s header ciphertext seed with
  | mk out s1 =>
    cases out with
    | ok p =>
      rw [hs.1 p s1 hr, JsSet.has_add, h]
      rfl
    | error err =>
      rw [hs.2 err s1 hr]
      exact h

end Frame

/-! ## The calls on the client -/

section ClientShape

variable [DecidableEq J] (L : Lib K B J)

/-- The three ways `receiveMessage` can go on the client. -/
theorem receiveMessage_shape (c : MessengerClient K B J) (name : String)
    (m : Header K B × B) (seed : Nat) :
    (c.certs name = none ∧
      c.receiveMessage L name m seed = (.error (.str "No certificate for sender"), c)) ∨
    (c.conns name = none ∧ c.receiveMessage L name m seed = (.error .native, c)) ∨
    ∃ s0, ReceiveSession L c name s0 ∧
      c.receiveMessage L name m seed =
        ((receiveOnSession L s0 m.1 m.2 seed).1,
          c.setConn name (receiveOnSession L s0 m.1 m.2 seed).2) := by
  cases hcert : c.certs name with
  | none => exact Or.inl ⟨rfl, by simp only [MessengerClient.receiveMessage, hcert]⟩
  | some cert =>
    right
    cases hconn : c.conns name with
    | some s =>
      exact Or.inr ⟨s, ⟨cert, hcert, Or.inl hconn⟩, by
        simp only [MessengerClient.receiveMessage, hcert, hconn]⟩
    | none =>
      cases hinit : ratchetInitBob L c cert with
      | none => exact Or.inl ⟨rfl, by simp only [MessengerClient.receiveMessage, hcert, hconn, hinit]⟩
      | some s =>
        exact Or.inr ⟨s, ⟨cert, hcert, Or.inr ⟨hconn, hinit⟩⟩, by
          simp only [MessengerClient.receiveMessage, hcert, hconn, hinit]⟩

omit [DecidableEq J] in
/-- The three ways `sendMessage` can go on the client. -/
theorem sendMessage_shape (c : MessengerClient K B J) (name p : String) (e : SendEntropy) :
    (c.certs name = none ∧
      c.sendMessage L name p e = (.error (.str "No certificate for recipient"), c)) ∨
    (c.conns name = none ∧ c.sendMessage L name p e = (.error .native, c)) ∨
    ∃ s0, SendSession L c name e s0 ∧
      c.sendMessage L name p e =
        ((sendOnSession L c.govPublicKey s0 p e).1,
          c.setConn name (sendOnSession L c.govPublicKey s0 p e).2) := by
  cases hcert : c.certs name with
  | none => exact Or.inl ⟨rfl, by simp only [MessengerClient.sendMessage, hcert]⟩
  | some cert =>
    right
    cases hconn : c.conns name with
    | some s =>
      exact Or.inr ⟨s, ⟨cert, hcert, Or.inl hconn⟩, by
        simp only [MessengerClient.sendMessage, hcert, hconn]⟩
    | none =>
      cases hinit : ratchetInitAlice L c cert e with
      | none => exact Or.inl ⟨rfl, by simp only [MessengerClient.sendMessage, hcert, hconn, hinit]⟩
      | some s =>
        exact Or.inr ⟨s, ⟨cert, hcert, Or.inr ⟨hconn, hinit⟩⟩, by
          simp only [MessengerClient.sendMessage, hcert, hconn, hinit]⟩

omit [DecidableEq J] in
/-- A send step changes the sending chain key and `Ns` only. -/
theorem sendOnSession_frame (gov : K) (s : Session K B J) (p : String) (e : SendEntropy) :
    (sendOnSession L gov s p e).2.DHs = s.DHs ∧ (sendOnSession L gov s p e).2.DHr = s.DHr ∧
    (sendOnSession L gov s p e).2.RK = s.RK ∧ (sendOnSession L gov s p e).2.CKr = s.CKr ∧
    (sendOnSession L gov s p e).2.Nr = s.Nr ∧ (sendOnSession L gov s p e).2.PN = s.PN ∧
    (sendOnSession L gov s p e).2.MKSKIPPED = s.MKSKIPPED ∧
    (sendOnSession L gov s p e).2.receivedSet = s.receivedSet := by
  cases hck : s.CKs with
  | none => simp [sendOnSession, hck]
  | some cks =>
    rw [sendOnSession_ok L gov s p e cks hck]
    simp

theorem receiveMessage_certs (c : MessengerClient K B J) (name : String) (m : Header K B × B)
    (seed : Nat) : (c.receiveMessage L name m seed).2.certs = c.certs := by
  rcases receiveMessage_shape L c name m seed with ⟨_, h⟩ | ⟨_, h⟩ | ⟨s0, _, h⟩
  · rw [h]
  · rw [h]
  · rw [h]
    rfl

omit [DecidableEq J] in
theorem sendMessage_certs (c : MessengerClient K B J) (name p : String) (e : SendEntropy) :
    (c.sendMessage L name p e).2.certs = c.certs := by
  rcases sendMessage_shape L c name p e with ⟨_, h⟩ | ⟨_, h⟩ | ⟨s0, _, h⟩
  · rw [h]
  · rw [h]
  · rw [h]
    rfl

theorem receiveMessage_conns_other (c : MessengerClient K B J) (name : String)
    (m : Header K B × B) (seed : Nat) (other : String) (hne : other ≠ name) :
    (c.receiveMessage L name m seed).2.conns other = c.conns other := by
  rcases receiveMessage_shape L c name m seed with ⟨_, h⟩ | ⟨_, h⟩ | ⟨s0, _, h⟩
  · rw [h]
  · rw [h]
  · rw [h]
    exact MessengerClient.setConn_conns_ne c name _ hne

omit [DecidableEq J] in
theorem sendMessage_conns_other (c : MessengerClient K B J) (name p : String)
    (e : SendEntropy) (other : String) (hne : other ≠ name) :
    (c.sendMessage L name p e).2.conns other = c.conns other := by
  rcases sendMessage_shape L c name p e with ⟨_, h⟩ | ⟨_, h⟩ | ⟨s0, _, h⟩
  · rw [h]
  · rw [h]
  · rw [h]
    exact MessengerClient.setConn_conns_ne c name _ hne

end ClientShape

/-! ## Replay -/

section Replay

variable [DecidableEq J] (L : Lib K B J)

theorem recorded_of_receive (c c1 : MessengerClient K B J) (name : String)
    (header : Header K B) (ciphertext : B) (seed : Nat) (p : String)
    (h : c.receiveMessage L name (header, ciphertext) seed = (.ok p, c1)) :
    Recorded c1 name (some (L.cryptoKeyToJSON header.dh), header.n) := by
  rcases receiveMessage_shape L c name (header, ciphertext) seed with
    ⟨_, hr⟩ | ⟨_, hr⟩ | ⟨s0, ⟨cert, hcert, _⟩, hr⟩
  · rw [hr] at h
    exact absurd (Prod.mk.inj h).1 (by simp)
  · rw [hr] at h
    exact absurd (Prod.mk.inj h).1 (by simp)
  · rw [hr] at h
    obtain ⟨h1, h2⟩ := Prod.mk.inj h
    have hset := (receiveOnSession_receivedSet L s0 header ciphertext seed).1 p _
      (Prod.ext h1 rfl)
    subst h2
    refine ⟨?_, (receiveOnSession L s0 header ciphertext seed).2,
      MessengerClient.setConn_conns_self c name _, ?_⟩
    · show c.certs name ≠ none
      rw [hcert]
      simp
    · rw [hset, JsSet.has_add]
      simp

theorem recorded_step (c : MessengerClient K B J) (name : String) (key : HeaderKey J)
    (h : Recorded c name key) (call : Call K B J) : Recorded (c.step L call) name key := by
  obtain ⟨hcert, s, hs, hkey⟩ := h
  cases call with
  | generateCertificate username seed => exact ⟨hcert, s, hs, hkey⟩
  | receiveCertificate certificate signature =>
    show Recorded (c.receiveCertificate L certificate signature).2 name key
    unfold MessengerClient.receiveCertificate
    cases hv : L.verifyWithECDSA c.caPublicKey certificate signature with
    | false => exact ⟨hcert, s, hs, hkey⟩
    | true =>
      cases hi : L.importKeyJwk certificate.pub with
      | none => exact ⟨hcert, s, hs, hkey⟩
      | some theirPub =>
        refine ⟨?_, s, hs, hkey⟩
        show (if name = certificate.username then
            some ({ certificate := certificate, publicKey := theirPub } : CertEntry K J)
          else c.certs name) ≠ none
        by_cases hn : name = certificate.username
        · simp [hn]
        · simpa [hn] using hcert
  | sendMessage name2 plaintext e =>
    show Recorded (c.sendMessage L name2 plaintext e).2 name key
    refine ⟨by rw [sendMessage_certs]; exact hcert, ?_⟩
    by_cases hn : name = name2
    · subst hn
      rcases sendMessage_shape L c name plaintext e with
        ⟨_, hr⟩ | ⟨_, hr⟩ | ⟨s0, ⟨cert, _, hs0⟩, hr⟩
      · rw [hr]
        exact ⟨s, hs, hkey⟩
      · rw [hr]
        exact ⟨s, hs, hkey⟩
      · rw [hr]
        have hs0' : s0 = s := by
          rcases hs0 with h1 | ⟨h1, _⟩
          · rw [hs] at h1
            exact (Option.some.inj h1).symm
          · rw [hs] at h1
            exact Option.noConfusion h1
        subst hs0'
        refine ⟨_, MessengerClient.setConn_conns_self c name _, ?_⟩
        rw [(sendOnSession_frame L c.govPublicKey s0 plaintext e).2.2.2.2.2.2.2]
        exact hkey
    · rw [sendMessage_conns_other L c name2 plaintext e name hn]
      exact ⟨s, hs, hkey⟩
  | receiveMessage name2 message seed =>
    show Recorded (c.receiveMessage L name2 message seed).2 name key
    refine ⟨by rw [receiveMessage_certs]; exact hcert, ?_⟩
    by_cases hn : name = name2
    · subst hn
      rcases receiveMessage_shape L c name message seed with
        ⟨_, hr⟩ | ⟨_, hr⟩ | ⟨s0, ⟨cert, _, hs0⟩, hr⟩
      · rw [hr]
        exact ⟨s, hs, hkey⟩
      · rw [hr]
        exact ⟨s, hs, hkey⟩
      · rw [hr]
        have hs0' : s0 = s := by
          rcases hs0 with h1 | ⟨h1, _⟩
          · rw [hs] at h1
            exact (Option.some.inj h1).symm
          · rw [hs] at h1
            exact Option.noConfusion h1
        subst hs0'
        exact ⟨_, MessengerClient.setConn_conns_self c name _,
          receiveOnSession_receivedSet_mono L s0 message.1 message.2 seed key hkey⟩
    · rw [receiveMessage_conns_other L c name2 message seed name hn]
      exact ⟨s, hs, hkey⟩

theorem recorded_run (name : String) (key : HeaderKey J) :
    ∀ (calls : List (Call K B J)) (c : MessengerClient K B J), Recorded c name key →
      Recorded (c.run L calls) name key := by
  intro calls
  induction calls with
  | nil =>
    intro c h
    exact h
  | cons call calls ih =>
    intro c h
    exact ih (c.step L call) (recorded_step L c name key h call)

/-- C3 (replay rejection).  Once `receiveMessage(name, (header, ciphertext))` has
returned a plaintext, then after any further calls on the client (certificate,
send and receive calls, returning or throwing), every `receiveMessage(name, ·)`
whose header carries the same ratchet key and the same counter throws 'Replay
detected' and leaves the whole client, hence every field of the session,
exactly as it was; consequently any message received after the rejected replay
is treated exactly as if the replay had not happened. -/
theorem replay_rejection (c c1 : MessengerClient K B J) (name : String) (header : Header K B)
    (ciphertext : B) (seed : Nat) (p : String)
    (hrecv : c.receiveMessage L name (header, ciphertext) seed = (.ok p, c1))
    (calls : List (Call K B J)) (header1 : Header K B) (ciphertext1 : B) (seed1 : Nat)
    (hdh : header1.dh = header.dh) (hn : header1.n = header.n) :
    (c1.run L calls).receiveMessage L name (header1, ciphertext1) seed1
        = (.error (.str "Replay detected"), c1.run L calls) ∧
    ∀ (m : Header K B × B) (seed2 : Nat),
      ((c1.run L calls).receiveMessage L name (header1, ciphertext1) seed1).2.receiveMessage
          L name m seed2
        = (c1.run L calls).receiveMessage L name m seed2 := by
  have hrec := recorded_run L name _ calls c1
    (recorded_of_receive L c c1 name header ciphertext seed p hrecv)
  obtain ⟨hcert, s, hs, hkey⟩ := hrec
  have hmain : (c1.run L calls).receiveMessage L name (header1, ciphertext1) seed1
      = (.error (.str "Replay detected"), c1.run L calls) := by
    rcases receiveMessage_shape L (c1.run L calls) name (header1, ciphertext1) seed1 with
      ⟨h0, _⟩ | ⟨h0, _⟩ | ⟨s0, ⟨cert, _, hs0⟩, hr⟩
    · exact absurd h0 hcert
    · rw [hs] at h0
      exact Option.noConfusion h0
    · have hs0' : s0 = s := by
        rcases hs0 with h1 | ⟨h1, _⟩
        · rw [hs] at h1
          exact (Option.some.inj h1).symm
        · rw [hs] at h1
          exact Option.noConfusion h1
      subst hs0'
      rw [hr]
      have : receiveOnSession L s0 header1 ciphertext1 seed1
          = (.error (.str "Replay detected"), s0) :=
        receiveOnSession_replay L s0 header1 ciphertext1 seed1 (by rw [hdh, hn]; exact hkey)
      show ((receiveOnSession L s0 header1 ciphertext1 seed1).1,
        (c1.run L calls).setConn name (receiveOnSession L s0 header1 ciphertext1 seed1).2) = _
      rw [this, MessengerClient.setConn_self _ name s0 hs]
  refine ⟨hmain, fun m seed2 => ?_⟩
  rw [hmain]

/-- Witness of C3: `bob` receives the first message of `alice`, replies, and is
then handed the same header again. -/
theorem replay_rejection_witness :
    (demoBobAfterFirst.run symbolicLib demoCalls).receiveMessage symbolicLib "alice"
        (demoFirst.1, .junk) 41
        = (.error (.str "Replay detected"), demoBobAfterFirst.run symbolicLib demoCalls) ∧
    ∀ (m : Header Term Term × Term) (seed2 : Nat),
      ((demoBobAfterFirst.run symbolicLib demoCalls).receiveMessage symbolicLib "alice"
          (demoFirst.1, .junk) 41).2.receiveMessage symbolicLib "alice" m seed2
        = (demoBobAfterFirst.run symbolicLib demoCalls).receiveMessage symbolicLib "alice" m seed2 :=
  replay_rejection symbolicLib demoBob demoBobAfterFirst "alice" demoFirst.1 demoFirst.2 40 "one"
    rfl demoCalls demoFirst.1 .junk 41 rfl rfl

end Replay

/-! ## Tampering -/

section Tamper

variable [DecidableEq J] (L : Lib K B J)

theorem receiveOnChain_ok_decrypt (s s1 : Session K B J) (header : Header K B)
    (ciphertext : B) (p : String) (h : receiveOnChain L s header ciphertext = (.ok p, s1)) :
    ∃ k buf, L.decryptWithGCM k ciphertext header.receiverIV (stringifyHeader header) = some buf ∧
      p = L.bufferToString buf := by
  rcases receiveOnChain_cases L s header ciphertext with
    ⟨_, hr⟩ | ⟨_, _, hr⟩ | ⟨_, ck, _, ⟨_, hr⟩ | ⟨buf, hdec, hr⟩⟩
  · rw [hr] at h
    exact absurd (Prod.mk.inj h).1 (by simp)
  · rw [hr] at h
    exact absurd (Prod.mk.inj h).1 (by simp)
  · rw [hr] at h
    exact absurd (Prod.mk.inj h).1 (by simp)
  · rw [hr] at h
    exact ⟨_, buf, hdec, (Except.ok.inj (Prod.mk.inj h).1).symm⟩

theorem receiveOnSession_ok_decrypt (s s1 : Session K B J) (header : Header K B)
    (ciphertext : B) (seed : Nat) (p : String)
    (h : receiveOnSession L s header ciphertext seed = (.ok p, s1)) :
    ∃ k buf, L.decryptWithGCM k ciphertext header.receiverIV (stringifyHeader header) = some buf ∧
      p = L.bufferToString buf := by
  rcases receiveOnSession_cases L s header ciphertext seed with
    ⟨_, hr⟩ | ⟨_, mk, _, ⟨_, hr⟩ | ⟨buf, hdec, hr⟩⟩ | ⟨_, _, ⟨_, _, hr⟩ | ⟨sR, _, hr⟩⟩
  · rw [hr] at h
    exact absurd (Prod.mk.inj h).1 (by simp)
  · rw [hr] at h
    exact absurd (Prod.mk.inj h).1 (by simp)
  · rw [hr] at h
    exact ⟨_, buf, hdec, (Except.ok.inj (Prod.mk.inj h).1).symm⟩
  · rw [hr] at h
    exact absurd (Prod.mk.inj h).1 (by simp)
  · rw [hr] at h
    exact receiveOnChain_ok_decrypt L sR s1 header ciphertext p h

/-- A plaintext returned by `receiveMessage` comes out of a GCM decryption of the
given ciphertext under the header's `receiverIV` and the serialised header. -/
theorem receiveMessage_ok_decrypt (c : MessengerClient K B J) (name : String)
    (header : Header K B) (ciphertext : B) (seed : Nat) (p : String)
    (h : (c.receiveMessage L name (header, ciphertext) seed).1 = .ok p) :
    ∃ k buf, L.decryptWithGCM k ciphertext header.receiverIV (stringifyHeader header) = some buf ∧
      p = L.bufferToString buf := by
  rcases receiveMessage_shape L c name (header, ciphertext) seed with
    ⟨_, hr⟩ | ⟨_, hr⟩ | ⟨s0, _, hr⟩
  · rw [hr] at h
    exact absurd h (by simp)
  · rw [hr] at h
    exact absurd h (by simp)
  · rw [hr] at h
    exact receiveOnSession_ok_decrypt L s0 _ header ciphertext seed p (Prod.ext h rfl)

/-- `receiveMessage` never reads the escrow fields `vGov` and `cGov` of the
header, and the serialised header does not depend on them: replacing them
changes neither the outcome nor the state. -/
theorem receiveMessage_ignores_escrow_fields (c : MessengerClient K B J) (name : String)
    (header : Header K B) (ciphertext : B) (seed : Nat) (vGov : K) (cGov : B) :
    c.receiveMessage L name ({ header with vGov := vGov, cGov := cGov }, ciphertext) seed
      = c.receiveMessage L name (header, ciphertext) seed := rfl

/-- C2 (tamper detection), as amended.  (1) Whatever the client state, a
plaintext that `receiveMessage` returns is the result of a successful GCM
decryption of the given ciphertext under the header's `receiverIV` and the
serialised header.  (2) Assuming that a GCM ciphertext authenticates only under
the key, nonce and associated data it was made with: for every
`(header, ciphertext)` returned by `sendMessage` and every copy of the header
modified in `pn`, `n`, `ivGov` or `receiverIV`, `receiveMessage` on the modified
copy throws, on every client and in every state, and never returns a
plaintext. -/
theorem tamper_detection (hBind : AeadBinding L) :
    (∀ (c : MessengerClient K B J) (name : String) (header : Header K B) (ciphertext : B)
        (seed : Nat) (p : String),
        (c.receiveMessage L name (header, ciphertext) seed).1 = .ok p →
        ∃ k buf, L.decryptWithGCM k ciphertext header.receiverIV (stringifyHeader header)
            = some buf ∧ p = L.bufferToString buf) ∧
    ∀ (sender sender1 : MessengerClient K B J) (peer p : String) (e : SendEntropy)
      (header : Header K B) (ciphertext : B),
      sender.sendMessage L peer p e = (.ok (header, ciphertext), sender1) →
      ∀ (header1 : Header K B),
        (header1.pn ≠ header.pn ∨ header1.n ≠ header.n ∨ header1.ivGov ≠ header.ivGov ∨
          header1.receiverIV ≠ header.receiverIV) →
        ∀ (c : MessengerClient K B J) (name : String) (seed : Nat),
          ∃ err, (c.receiveMessage L name (header1, ciphertext) seed).1 = .error err := by
  refine ⟨receiveMessage_ok_decrypt L, ?_⟩
  intro sender sender1 peer p e header ciphertext hsend header1 hmod c name seed
  cases hres : (c.receiveMessage L name (header1, ciphertext) seed).1 with
  | error err => exact ⟨err, rfl⟩
  | ok p1 =>
    exfalso
    obtain ⟨k, buf, hdec, _⟩ := receiveMessage_ok_decrypt L c name header1 ciphertext seed p1 hres
    obtain ⟨s, cks, s1, hck, hs, _, _⟩ := sendMessage_ok_inv L sender sender1 peer p e _ hsend
    rw [sendOnSession_ok L _ s p e cks hck] at hs
    obtain ⟨hh, hc⟩ := Prod.mk.inj (Except.ok.inj (Prod.mk.inj hs).1)
    subst hh
    subst hc
    have hb := hBind _ _ _ _ k header1.receiverIV (stringifyHeader header1)
      (by rw [hdec]; simp)
    obtain ⟨_, hiv, had⟩ := hb
    simp only [stringifyHeader, AuthData.headerJSON.injEq] at had
    rcases hmod with h | h | h | h
    · exact h had.1
    · exact h had.2.1
    · exact h had.2.2.1
    · exact h hiv

/-- Witness of C2 as amended: the first message of `alice`, its counter changed
to 1, handed to `bob`. -/
theorem tamper_detection_witness :
    ∃ err, (demoBob.receiveMessage symbolicLib "alice"
      ({ demoFirst.1 with n := 1 }, demoFirst.2) 40).1 = .error err :=
  (tamper_detection symbolicLib symbolicLib_binding).2 demoAlice
    (demoAlice.sendMessage symbolicLib "bob" "one" ⟨10, 11, 12, 13⟩).2 "bob" "one"
    ⟨10, 11, 12, 13⟩ demoFirst.1 demoFirst.2 rfl { demoFirst.1 with n := 1 }
    (Or.inr (Or.inl (by decide))) demoBob "alice" 40

/-- Counterexample to C2 as stated: the first message of `alice` with the
counter `n` of its header changed to 5000 makes `receiveMessage` of `bob` throw
'Too many skipped messages', which is not the decryption-failure error. -/
theorem tamper_detection_counterexample :
    (demoAlice.sendMessage symbolicLib "bob" "one" ⟨10, 11, 12, 13⟩).1 = .ok demoFirst ∧
    (demoBob.receiveMessage symbolicLib "alice"
      ({ demoFirst.1 with n := 5000 }, demoFirst.2) 40).1
      = .error (.str "Too many skipped messages") :=
  ⟨rfl, rfl⟩

end Tamper

/-! ## Size and content of the skipped-key cache -/

section Cache

variable [DecidableEq J] (L : Lib K B J)

theorem skipLoop_length_le (u : Nat) :
    ∀ (fuel : Nat) (s : Session K B J),
      (skipLoop L u fuel s).MKSKIPPED.length ≤ s.MKSKIPPED.length + fuel := by
  intro fuel
  induction fuel with
  | zero =>
    intro s
    simp [skipLoop]
  | succ fuel ih =>
    intro s
    simp only [skipLoop]
    split
    · split
      · omega
      · rename_i ckr _
        have h1 := ih (skipStep L s ckr)
        have h2 : (skipStep L s ckr).MKSKIPPED.length ≤ s.MKSKIPPED.length + 1 := by
          show (s.MKSKIPPED.set _ _).length ≤ _
          rw [JsMap.length_set]
          split <;> omega
        omega
    · omega

theorem skipLoop_length (u : Nat) (d : Option J) :
    ∀ (fuel : Nat) (s : Session K B J), MessengerClient._pubKeyToStr L s.DHr = d →
      s.CKr ≠ none → fuel ≤ u - s.Nr →
      (∀ j, s.Nr ≤ j → s.MKSKIPPED.has (d, j) = false) →
      (skipLoop L u fuel s).MKSKIPPED.length = s.MKSKIPPED.length + fuel := by
  intro fuel
  induction fuel with
  | zero =>
    intro s _ _ _ _
    simp [skipLoop]
  | succ fuel ih =>
    intro s hd hck hfuel hfresh
    obtain ⟨ck, hck2⟩ := Option.ne_none_iff_exists'.mp hck
    have hlt : s.Nr < u := by omega
    simp only [skipLoop, hlt, if_true, hck2]
    have hM : (skipStep L s ck).MKSKIPPED
        = s.MKSKIPPED.set (d, s.Nr) (L.exportKeyRaw (L.HMACtoAESKey ck "msg")) := by
      show s.MKSKIPPED.set (MessengerClient._pubKeyToStr L s.DHr, s.Nr) _ = _
      rw [hd]
    have hNr : (skipStep L s ck).Nr = s.Nr + 1 := rfl
    rw [ih (skipStep L s ck) hd (by show some _ ≠ none; simp) (by rw [hNr]; omega) ?_]
    · rw [hM, JsMap.length_set, hfresh s.Nr (Nat.le_refl _)]
      simp only [Bool.false_eq_true, if_false]
      omega
    · intro j hj
      rw [hNr] at hj
      rw [hM, JsMap.has_set, hfresh j (by omega)]
      have : ¬ ((d, j) = (d, s.Nr)) := by
        intro h
        have := congrArg Prod.snd h
        simp at this
        omega
      simp [this]

theorem skipMessageKeys_length_le (s : Session K B J) (u : Nat) :
    (MessengerClient._skipMessageKeys L s u).2.MKSKIPPED.length
      ≤ s.MKSKIPPED.length + MAX_SKIP := by
  by_cases hfar : s.Nr + MAX_SKIP < u
  · rw [skipMessageKeys_throw L s u hfar]
    exact Nat.le_add_right _ _
  · cases hck : s.CKr with
    | none =>
      rw [skipMessageKeys_absent L s u hfar hck]
      exact Nat.le_add_right _ _
    | some ck =>
      rw [skipMessageKeys_loop L s u hfar ck hck]
      have := skipLoop_length_le L u (u - s.Nr) s
      have h2 : u - s.Nr ≤ MAX_SKIP := by omega
      exact Nat.le_trans this (Nat.add_le_add_left h2 _)

/-- A successful skip caches nothing under a key string other than that of the
session's `DHr`. -/
theorem skipMessageKeys_has_other (s sP : Session K B J) (u : Nat) (key : HeaderKey J)
    (h : MessengerClient._skipMessageKeys L s u = (.ok (), sP))
    (hne : key.1 ≠ MessengerClient._pubKeyToStr L s.DHr) :
    sP.MKSKIPPED.has key = s.MKSKIPPED.has key := by
  by_cases hfar : s.Nr + MAX_SKIP < u
  · rw [skipMessageKeys_throw L s u hfar] at h
    exact absurd (Prod.mk.inj h).1 (by simp)
  · cases hck : s.CKr with
    | none =>
      rw [skipMessageKeys_absent L s u hfar hck] at h
      rw [← (Prod.mk.inj h).2]
    | some ck =>
      rw [skipMessageKeys_loop L s u hfar ck hck] at h
      rw [← (Prod.mk.inj h).2, skipLoop_has L u (u - s.Nr) s ck hck (Nat.le_refl _)]
      simp [hne]

theorem ratchetOutcome_same (s sR : Session K B J) (header : Header K B) (seed : Nat)
    (h : RatchetOutcome L s header seed sR) : SameRatchetKey L sR header := by
  rcases h with ⟨hsame, h⟩ | ⟨_, sP, _, h⟩
  · rw [h]
    exact hsame
  · rw [h]
    exact ⟨header.dh, rfl, rfl⟩

theorem ratchetOutcome_has (s sR : Session K B J) (header : Header K B) (seed : Nat)
    (h : RatchetOutcome L s header seed sR) :
    sR.MKSKIPPED.has (some (L.cryptoKeyToJSON header.dh), header.n)
      = s.MKSKIPPED.has (some (L.cryptoKeyToJSON header.dh), header.n) := by
  rcases h with ⟨_, h⟩ | ⟨hnew, sP, hskip, h⟩
  · rw [h]
  · rw [h]
    show sP.MKSKIPPED.has _ = _
    apply skipMessageKeys_has_other L s sP header.pn _ hskip
    rcases hnew with h0 | ⟨dhr, hd, hne⟩
    · rw [h0]
      simp [MessengerClient._pubKeyToStr]
    · rw [hd]
      simp only [MessengerClient._pubKeyToStr, Option.map_some', ne_eq, Option.some.injEq]
      exact hne

theorem ratchetOutcome_length_le (s sR : Session K B J) (header : Header K B) (seed : Nat)
    (h : RatchetOutcome L s header seed sR) :
    sR.MKSKIPPED.length ≤ s.MKSKIPPED.length + MAX_SKIP := by
  rcases h with ⟨_, h⟩ | ⟨_, sP, hskip, h⟩
  · rw [h]
    exact Nat.le_add_right _ _
  · rw [h]
    have := skipMessageKeys_length_le L s header.pn
    rw [hskip] at this
    exact this

end Cache

/-! ## Failed decryption -/

section Failure

variable [DecidableEq J] (L : Lib K B J)

/-- How `receiveMessage` comes to throw the decryption-failure error: the header
was neither a replay nor cached, step 2 left the session `sR`, the skip to
`header.n` went through and the key of that position did not authenticate. The
state keeps all of it. -/
theorem receiveOnSession_decryptFailed (s s1 : Session K B J) (header : Header K B)
    (ciphertext : B) (seed : Nat)
    (h : receiveOnSession L s header ciphertext seed
      = (.error (.str "Decryption failed or tampering detected"), s1)) :
    ∃ sR ck, RatchetOutcome L s header seed sR ∧ ¬ sR.Nr + MAX_SKIP < header.n ∧
      sR.CKr = some ck ∧
      s.receivedSet.has (some (L.cryptoKeyToJSON header.dh), header.n) = false ∧
      s.MKSKIPPED.has (some (L.cryptoKeyToJSON header.dh), header.n) = false ∧
      L.decryptWithGCM (messageKey L ck (header.n - sR.Nr)) ciphertext header.receiverIV
        (stringifyHeader header) = none ∧
      s1 = { skipLoop L header.n (header.n - sR.Nr) sR with
             CKr := some (chainKey L ck (header.n - sR.Nr + 1))
             Nr := max sR.Nr header.n + 1 } := by
  rcases receiveOnSession_cases L s header ciphertext seed with
    ⟨_, hr⟩ | ⟨_, mk, _, ⟨_, hr⟩ | ⟨buf, _, hr⟩⟩ | ⟨hnew, hmiss, ⟨_, _, hr⟩ | ⟨sR, hout, hr⟩⟩
  · rw [hr] at h
    simp at h
  · rw [hr] at h
    simp at h
  · rw [hr] at h
    simp at h
  · rw [hr] at h
    simp at h
  · rw [hr] at h
    rcases receiveOnChain_cases L sR header ciphertext with
      ⟨_, hc⟩ | ⟨_, _, hc⟩ | ⟨hfar, ck, hck, ⟨hdec, hc⟩ | ⟨buf, _, hc⟩⟩
    · rw [hc] at h
      simp at h
    · rw [hc] at h
      simp at h
    · rw [hc] at h
      exact ⟨sR, ck, hout, hfar, hck, hnew, hmiss, hdec, ((Prod.mk.inj h).2).symm⟩
    · rw [hc] at h
      simp at h

/-- The session a failed decryption on the receiving chain leaves behind. -/
theorem receiveOnSession_decryptFailed_state (s s1 : Session K B J) (header : Header K B)
    (ciphertext : B) (seed : Nat)
    (h : receiveOnSession L s header ciphertext seed
      = (.error (.str "Decryption failed or tampering detected"), s1)) :
    s1.receivedSet = s.receivedSet ∧
    s1.receivedSet.has (some (L.cryptoKeyToJSON header.dh), header.n) = false ∧
    s1.MKSKIPPED.has (some (L.cryptoKeyToJSON header.dh), header.n) = false ∧
    SameRatchetKey L s1 header ∧ header.n < s1.Nr ∧
    ∃ ck, L.decryptWithGCM (L.HMACtoAESKey ck "msg") ciphertext header.receiverIV
        (stringifyHeader header) = none ∧
      s1.CKr = some (L.HMACtoHMACKey ck "ck") := by
  obtain ⟨sR, ck, hout, hfar, hck, hnew, hmiss, hdec, hs1⟩ :=
    receiveOnSession_decryptFailed L s s1 header ciphertext seed h
  have hfr := skipLoop_frame L header.n (header.n - sR.Nr) sR
  have hRS := ratchetOutcome_receivedSet L s sR header seed hout
  have hrs : s1.receivedSet = s.receivedSet := by
    rw [hs1]
    show (skipLoop L header.n (header.n - sR.Nr) sR).receivedSet = _
    rw [hfr.2.2.2.2.2.2, hRS]
  obtain ⟨dhr, hdhr, hsame⟩ := ratchetOutcome_same L s sR header seed hout
  refine ⟨hrs, by rw [hrs]; exact hnew, ?_, ?_, ?_, chainKey L ck (header.n - sR.Nr), hdec, ?_⟩
  · rw [hs1]
    show (skipLoop L header.n (header.n - sR.Nr) sR).MKSKIPPED.has _ = false
    rw [skipLoop_has L header.n (header.n - sR.Nr) sR ck hck (Nat.le_refl _),
      ratchetOutcome_has L s sR header seed hout, hmiss]
    simp
  · refine ⟨dhr, ?_, hsame⟩
    rw [hs1]
    show (skipLoop L header.n (header.n - sR.Nr) sR).DHr = _
    rw [hfr.1, hdhr]
  · rw [hs1]
    show header.n < max sR.Nr header.n + 1
    omega
  · rw [hs1]
    show some (chainKey L ck (header.n - sR.Nr + 1)) = _
    rw [chainKey_succ_outer]

/-- C4 (atomicity on authentication failure), as amended.  When
`receiveMessage` fails because GCM does not authenticate, the replay guard
`receivedSet` is as before, but the session is not.  (1) On the receiving
chain (error 'Decryption failed or tampering detected') the client holds,
for the session `s0` it worked on (the stored one or the responder session it
has just created), a session with the `receivedSet` of `s0` whose chain has
moved past the header: `Nr` exceeds `header.n` and `DHr` is the header's ratchet
key. (2) In the skipped-key branch of a stored session (the exception of the
primitive propagates) the consumed entry has been deleted from `MKSKIPPED` and
nothing else has changed. -/
theorem auth_failure_state (c : MessengerClient K B J) (name : String) (header : Header K B)
    (ciphertext : B) (seed : Nat) :
    ((c.receiveMessage L name (header, ciphertext) seed).1
        = .error (.str "Decryption failed or tampering detected") →
      ∃ s0 s1, ReceiveSession L c name s0 ∧
        (c.receiveMessage L name (header, ciphertext) seed).2 = c.setConn name s1 ∧
        s1.receivedSet = s0.receivedSet ∧ header.n < s1.Nr ∧ SameRatchetKey L s1 header) ∧
    (∀ s0, c.conns name = some s0 →
      (c.receiveMessage L name (header, ciphertext) seed).1 = .error .native →
      s0.MKSKIPPED.has (some (L.cryptoKeyToJSON header.dh), header.n) = true ∧
      (c.receiveMessage L name (header, ciphertext) seed).2 =
        c.setConn name
          { s0 with
            MKSKIPPED := s0.MKSKIPPED.delete (some (L.cryptoKeyToJSON header.dh), header.n) }) := by
  constructor
  · intro hfail
    rcases receiveMessage_shape L c name (header, ciphertext) seed with
      ⟨_, hr⟩ | ⟨_, hr⟩ | ⟨s0, hs0, hr⟩
    · rw [hr] at hfail
      simp at hfail
    · rw [hr] at hfail
      simp at hfail
    · rw [hr] at hfail
      have hst := receiveOnSession_decryptFailed_state L s0 _ header ciphertext seed
        (Prod.ext hfail rfl)
      exact ⟨s0, _, hs0, by rw [hr], hst.1, hst.2.2.2.2.1, hst.2.2.2.1⟩
  · intro s0 hconn hfail
    rcases receiveMessage_shape L c name (header, ciphertext) seed with
      ⟨_, hr⟩ | ⟨hnone, _⟩ | ⟨s, ⟨cert, _, hs⟩, hr⟩
    · rw [hr] at hfail
      simp at hfail
    · rw [hconn] at hnone
      exact Option.noConfusion hnone
    · have hss : s = s0 := by
        rcases hs with h1 | ⟨h1, _⟩
        · rw [hconn] at h1
          exact (Option.some.inj h1).symm
        · rw [hconn] at h1
          exact Option.noConfusion h1
      subst hss
      rw [hr] at hfail ⊢
      rcases receiveOnSession_cases L s header ciphertext seed with
        ⟨_, hc⟩ | ⟨_, mk, hget, ⟨_, hc⟩ | ⟨buf, _, hc⟩⟩ | ⟨_, _, ⟨_, _, hc⟩ | ⟨sR, _, hc⟩⟩
      · rw [hc] at hfail
        simp at hfail
      · refine ⟨JsMap.has_of_get hget, ?_⟩
        show (_, c.setConn name (receiveOnSession L s header ciphertext seed).2).2 = _
        rw [hc]
      · rw [hc] at hfail
        simp at hfail
      · rw [hc] at hfail
        simp at hfail
      · exfalso
        change (receiveOnSession L s header ciphertext seed).1 = _ at hfail
        rw [hc] at hfail
        rcases receiveOnChain_cases L sR header ciphertext with
          ⟨_, hd⟩ | ⟨_, _, hd⟩ | ⟨_, ck, _, ⟨_, hd⟩ | ⟨buf, _, hd⟩⟩ <;>
        · rw [hd] at hfail
          simp at hfail

/-- Witness of C4 as amended: `bob`, having received the first message, is handed
the second one with a corrupted ciphertext. -/
theorem auth_failure_state_witness :
    ∃ s0 s1, ReceiveSession symbolicLib demoBobAfterFirst "alice" s0 ∧
      (demoBobAfterFirst.receiveMessage symbolicLib "alice" (demoSecond.1, .junk) 41).2
        = demoBobAfterFirst.setConn "alice" s1 ∧
      s1.receivedSet = s0.receivedSet ∧ demoSecond.1.n < s1.Nr ∧
      SameRatchetKey symbolicLib s1 demoSecond.1 :=
  (auth_failure_state symbolicLib demoBobAfterFirst "alice" demoSecond.1 .junk 41).1 rfl

/-- Counterexample to C4 as stated: `bob`, having received the first message, is
handed the second one with a corrupted ciphertext; the call throws the
decryption-failure error and `Nr` of the session has gone from 1 to 2. -/
theorem auth_failure_counterexample :
    (demoBobAfterFirst.receiveMessage symbolicLib "alice" (demoSecond.1, .junk) 41).1
      = .error (.str "Decryption failed or tampering detected") ∧
    (demoBobAfterFirst.conns "alice").map (fun s => s.Nr) = some 1 ∧
    ((demoBobAfterFirst.receiveMessage symbolicLib "alice" (demoSecond.1, .junk) 41).2.conns
      "alice").map (fun s => s.Nr) = some 2 :=
  ⟨rfl, rfl, rfl⟩

/-- C5 (retransmission after corruption), as amended.  When `receiveMessage` on
a copy `(header, c1)` fails with the decryption-failure error, the header is
not recorded in `receivedSet` and a following `receiveMessage` on `(header, c)`
is not rejected as a replay; but the failed call has advanced the receiving
chain, so `(header, c)` is decrypted under the message key of the chain key
that follows the one tried for `(header, c1)`: the call returns a plaintext
exactly when that later key authenticates `c`, and throws the
decryption-failure error otherwise. -/
theorem retransmission_after_corruption (c : MessengerClient K B J) (name : String)
    (header : Header K B) (c1 : B) (seed : Nat)
    (hfail : (c.receiveMessage L name (header, c1) seed).1
      = .error (.str "Decryption failed or tampering detected")) :
    ∃ ck, L.decryptWithGCM (L.HMACtoAESKey ck "msg") c1 header.receiverIV
        (stringifyHeader header) = none ∧
      ∀ (ciphertext : B) (seed2 : Nat),
        ((c.receiveMessage L name (header, c1) seed).2.receiveMessage L name
            (header, ciphertext) seed2).1 =
          chainDecryptOutcome L
            (L.decryptWithGCM (L.HMACtoAESKey (L.HMACtoHMACKey ck "ck") "msg") ciphertext
              header.receiverIV (stringifyHeader header)) := by
  rcases receiveMessage_shape L c name (header, c1) seed with
    ⟨_, hr⟩ | ⟨_, hr⟩ | ⟨s0, ⟨cert, hcert, _⟩, hr⟩
  · rw [hr] at hfail
    simp at hfail
  · rw [hr] at hfail
    simp at hfail
  · have hr2 : c.receiveMessage L name (header, c1) seed =
        ((receiveOnSession L s0 header c1 seed).1,
          c.setConn name (receiveOnSession L s0 header c1 seed).2) := hr
    rw [hr2] at hfail ⊢
    generalize hgen : receiveOnSession L s0 header c1 seed = r at hfail
    obtain ⟨out, s1⟩ := r
    have hout : out = .error (.str "Decryption failed or tampering detected") := hfail
    subst hout
    obtain ⟨_, hnew, hmiss, ⟨dhr, hdhr, hsame⟩, hlt, ck, hdec, hck⟩ :=
      receiveOnSession_decryptFailed_state L s0 s1 header c1 seed hgen
    refine ⟨ck, hdec, fun ciphertext seed2 => ?_⟩
    have hcert1 : (c.setConn name s1).certs name = some cert := hcert
    have hconn1 := MessengerClient.setConn_conns_self c name s1
    have hnot : ¬ s1.Nr + MAX_SKIP < header.n := by omega
    have hskip := skipMessageKeys_loop L s1 header.n hnot _ hck
    have hzero : header.n - s1.Nr = 0 := by omega
    rw [hzero] at hskip
    have hskip2 : MessengerClient._skipMessageKeys L s1 header.n = (.ok (), s1) := hskip
    have hchain := receiveOnChain_of_skip L s1 s1 header ciphertext _ hskip2 hck
    have hsess : receiveOnSession L s1 header ciphertext seed2
        = receiveOnChain L s1 header ciphertext := by
      rw [receiveOnSession_miss L s1 header ciphertext seed2 hnew hmiss,
        ratchetIfNew_same L s1 header seed2 dhr hdhr hsame]
    show (MessengerClient.receiveMessage L (c.setConn name s1) name (header, ciphertext)
      seed2).1 = _
    simp only [MessengerClient.receiveMessage, hcert1, hconn1, hsess, hchain]
    cases L.decryptWithGCM (L.HMACtoAESKey (L.HMACtoHMACKey ck "ck") "msg") ciphertext
      header.receiverIV (stringifyHeader header) <;> rfl

/-- Witness of C5 as amended: `bob`, having received the first message, is
handed the second one corrupted and then uncorrupted. -/
theorem retransmission_after_corruption_witness :
    ∃ ck, symbolicLib.decryptWithGCM (symbolicLib.HMACtoAESKey ck "msg") Term.junk
        demoSecond.1.receiverIV (stringifyHeader demoSecond.1) = none ∧
      ∀ (ciphertext : Term) (seed2 : Nat),
        ((demoBobAfterFirst.receiveMessage symbolicLib "alice" (demoSecond.1, .junk)
            41).2.receiveMessage symbolicLib "alice" (demoSecond.1, ciphertext) seed2).1 =
          chainDecryptOutcome symbolicLib
            (symbolicLib.decryptWithGCM
              (symbolicLib.HMACtoAESKey (symbolicLib.HMACtoHMACKey ck "ck") "msg") ciphertext
              demoSecond.1.receiverIV (stringifyHeader demoSecond.1)) :=
  retransmission_after_corruption symbolicLib demoBobAfterFirst "alice" demoSecond.1 .junk 41 rfl

/-- Counterexample to C5 as stated: `bob`, having received the first message,
would decrypt the second one; handed a corrupted copy first, which fails, it
then fails on the uncorrupted message as well. -/
theorem retransmission_counterexample :
    (demoBobAfterFirst.receiveMessage symbolicLib "alice" demoSecond 41).1 = .ok "two" ∧
    (demoBobAfterFirst.receiveMessage symbolicLib "alice" (demoSecond.1, .junk) 41).1
      = .error (.str "Decryption failed or tampering detected") ∧
    ((demoBobAfterFirst.receiveMessage symbolicLib "alice" (demoSecond.1, .junk)
        41).2.receiveMessage symbolicLib "alice" demoSecond 42).1
      = .error (.str "Decryption failed or tampering detected") :=
  ⟨rfl, rfl, rfl⟩

end Failure

/-! ## The state after a skip-bound error -/

section SkipError

variable [DecidableEq J] (L : Lib K B J)

/-- C8 (no partial success on a skip-bound error), as amended.  When
`receiveMessage` throws 'Too many skipped messages', with `s0` the session it
worked on (the stored one, or the responder session it has just created): the
client afterwards stores either `s0` itself, when the error came from the skip
that precedes any change, or, for a header with a new ratchet key whose skip to
`header.pn` went through, the result of the DH ratchet step on the session
after that skip.  In particular, for a stored session whose `DHr` is the
header's ratchet key the client is exactly as before the call. -/
theorem skip_error_state (c : MessengerClient K B J) (name : String) (header : Header K B)
    (ciphertext : B) (seed : Nat)
    (hthrow : (c.receiveMessage L name (header, ciphertext) seed).1
      = .error (.str "Too many skipped messages")) :
    (∃ s0, ReceiveSession L c name s0 ∧
      ((c.receiveMessage L name (header, ciphertext) seed).2 = c.setConn name s0 ∨
        (NewRatchetKey L s0 header ∧
          ∃ sP, MessengerClient._skipMessageKeys L s0 header.pn = (.ok (), sP) ∧
            (c.receiveMessage L name (header, ciphertext) seed).2
              = c.setConn name (MessengerClient._doDHRatchet L sP header.dh seed)))) ∧
    ∀ s, c.conns name = some s → SameRatchetKey L s header →
      (c.receiveMessage L name (header, ciphertext) seed).2 = c := by
  rcases receiveMessage_shape L c name (header, ciphertext) seed with
    ⟨_, hr⟩ | ⟨_, hr⟩ | ⟨s0, hs0, hr⟩
  · rw [hr] at hthrow
    simp at hthrow
  · rw [hr] at hthrow
    simp at hthrow
  · have hr2 : c.receiveMessage L name (header, ciphertext) seed =
        ((receiveOnSession L s0 header ciphertext seed).1,
          c.setConn name (receiveOnSession L s0 header ciphertext seed).2) := hr
    rw [hr2] at hthrow ⊢
    have key : (receiveOnSession L s0 header ciphertext seed).2 = s0 ∨
        (NewRatchetKey L s0 header ∧
          ∃ sP, MessengerClient._skipMessageKeys L s0 header.pn = (.ok (), sP) ∧
            (receiveOnSession L s0 header ciphertext seed).2
              = MessengerClient._doDHRatchet L sP header.dh seed) := by
      rcases receiveOnSession_cases L s0 header ciphertext seed with
        ⟨_, hc⟩ | ⟨_, mk, _, ⟨_, hc⟩ | ⟨buf, _, hc⟩⟩ | ⟨_, _, ⟨_, _, hc⟩ | ⟨sR, hout, hc⟩⟩
      · rw [hc]
        exact Or.inl rfl
      · rw [hc] at hthrow
        simp at hthrow
      · rw [hc] at hthrow
        simp at hthrow
      · rw [hc]
        exact Or.inl rfl
      · rw [hc] at hthrow ⊢
        rcases receiveOnChain_cases L sR header ciphertext with
          ⟨_, hd⟩ | ⟨_, _, hd⟩ | ⟨_, ck, _, ⟨_, hd⟩ | ⟨buf, _, hd⟩⟩
        · rw [hd]
          rcases hout with ⟨_, h⟩ | ⟨hnew, sP, hskip, h⟩
          · exact Or.inl h
          · exact Or.inr ⟨hnew, sP, hskip, h⟩
        · rw [hd] at hthrow
          simp at hthrow
        · rw [hd] at hthrow
          simp at hthrow
        · rw [hd] at hthrow
          simp at hthrow
    refine ⟨⟨s0, hs0, ?_⟩, ?_⟩
    · rcases key with h | ⟨hnew, sP, hskip, h⟩
      · left
        show c.setConn name (receiveOnSession L s0 header ciphertext seed).2 = _
        rw [h]
      · right
        refine ⟨hnew, sP, hskip, ?_⟩
        show c.setConn name (receiveOnSession L s0 header ciphertext seed).2 = _
        rw [h]
    · intro s hs hsame
      obtain ⟨cert, _, hs0'⟩ := hs0
      have hss : s0 = s := by
        rcases hs0' with h1 | ⟨h1, _⟩
        · rw [hs] at h1
          exact (Option.some.inj h1).symm
        · rw [hs] at h1
          exact Option.noConfusion h1
      subst hss
      show c.setConn name (receiveOnSession L s0 header ciphertext seed).2 = c
      rcases key with h | ⟨hnew, _⟩
      · rw [h]
        exact MessengerClient.setConn_self c name s0 hs
      · exact absurd hsame (not_same_of_new L s0 header hnew)

/-- Witness of C8 as amended: `bob`, holding no session yet, is handed the first
message of `alice` with the counter of its header changed to 5000. -/
theorem skip_error_state_witness :
    (∃ s0, ReceiveSession symbolicLib demoBob "alice" s0 ∧
      ((demoBob.receiveMessage symbolicLib "alice" ({ demoFirst.1 with n := 5000 }, demoFirst.2)
          40).2 = demoBob.setConn "alice" s0 ∨
        (NewRatchetKey symbolicLib s0 { demoFirst.1 with n := 5000 } ∧
          ∃ sP, MessengerClient._skipMessageKeys symbolicLib s0 0 = (.ok (), sP) ∧
            (demoBob.receiveMessage symbolicLib "alice"
                ({ demoFirst.1 with n := 5000 }, demoFirst.2) 40).2
              = demoBob.setConn "alice"
                  (MessengerClient._doDHRatchet symbolicLib sP (.pub 10) 40)))) ∧
    ∀ s, demoBob.conns "alice" = some s →
      SameRatchetKey symbolicLib s { demoFirst.1 with n := 5000 } →
      (demoBob.receiveMessage symbolicLib "alice" ({ demoFirst.1 with n := 5000 }, demoFirst.2)
        40).2 = demoBob :=
  skip_error_state symbolicLib demoBob "alice" { demoFirst.1 with n := 5000 } demoFirst.2 40 rfl

/-- Counterexample to C8 as stated: `bob`, having received the first message, is
handed a header with the new ratchet key `pub 77` and counter 5000; the call
throws 'Too many skipped messages' after the DH ratchet step has been applied:
`DHr` has changed from `pub 10` to `pub 77` and `Nr` from 1 to 0. -/
theorem skip_error_counterexample :
    (demoBobAfterFirst.receiveMessage symbolicLib "alice" (demoFarHeader, .junk) 41).1
      = .error (.str "Too many skipped messages") ∧
    (demoBobAfterFirst.conns "alice").map (fun s => (s.DHr, s.Nr)) = some (some (.pub 10), 1) ∧
    ((demoBobAfterFirst.receiveMessage symbolicLib "alice" (demoFarHeader, .junk) 41).2.conns
      "alice").map (fun s => (s.DHr, s.Nr)) = some (some (.pub 77), 0) :=
  ⟨rfl, rfl, rfl⟩

end SkipError

/-! ## Growth of the skipped-key cache -/

section Growth

variable [DecidableEq J] (L : Lib K B J)

theorem receiveOnChain_length_le (s : Session K B J) (header : Header K B) (ciphertext : B) :
    (receiveOnChain L s header ciphertext).2.MKSKIPPED.length
      ≤ s.MKSKIPPED.length + MAX_SKIP := by
  have hl := skipLoop_length_le L header.n (header.n - s.Nr) s
  rcases receiveOnChain_cases L s header ciphertext with
    ⟨_, hr⟩ | ⟨_, _, hr⟩ | ⟨hfar, ck, _, ⟨_, hr⟩ | ⟨buf, _, hr⟩⟩
  · rw [hr]
    exact Nat.le_add_right _ _
  · rw [hr]
    exact Nat.le_add_right _ _
  · rw [hr]
    show (skipLoop L header.n (header.n - s.Nr) s).MKSKIPPED.length ≤ _
    omega
  · rw [hr]
    show (skipLoop L header.n (header.n - s.Nr) s).MKSKIPPED.length ≤ _
    omega

theorem receiveOnSession_length_le (s : Session K B J) (header : Header K B) (ciphertext : B)
    (seed : Nat) :
    (receiveOnSession L s header ciphertext seed).2.MKSKIPPED.length
      ≤ s.MKSKIPPED.length + 2 * MAX_SKIP := by
  rcases receiveOnSession_cases L s header ciphertext seed with
    ⟨_, hr⟩ | ⟨_, mk, _, ⟨_, hr⟩ | ⟨buf, _, hr⟩⟩ | ⟨_, _, ⟨_, _, hr⟩ | ⟨sR, hout, hr⟩⟩
  · rw [hr]
    exact Nat.le_add_right _ _
  · rw [hr]
    exact Nat.le_trans (JsMap.length_delete_le _ _) (Nat.le_add_right _ _)
  · rw [hr]
    exact Nat.le_trans (JsMap.length_delete_le _ _) (Nat.le_add_right _ _)
  · rw [hr]
    exact Nat.le_add_right _ _
  · rw [hr]
    have h1 := ratchetOutcome_length_le L s sR header seed hout
    have h2 := receiveOnChain_length_le L sR header ciphertext
    omega

omit [DecidableEq J] in
theorem receiveSession_unique (c : MessengerClient K B J) (name : String)
    (s0 s1 : Session K B J) (h0 : ReceiveSession L c name s0) (h1 : ReceiveSession L c name s1) :
    s0 = s1 := by
  obtain ⟨cert0, hc0, h0⟩ := h0
  obtain ⟨cert1, hc1, h1⟩ := h1
  rw [hc0] at hc1
  have := Option.some.inj hc1
  subst this
  rcases h0 with a | ⟨a, a2⟩ <;> rcases h1 with b | ⟨b, b2⟩
  · rw [a] at b
    exact Option.some.inj b
  · rw [a] at b
    exact Option.noConfusion b
  · rw [a] at b
    exact Option.noConfusion b
  · rw [a2] at b2
    exact Option.some.inj b2

omit [DecidableEq J] in
theorem sendSession_unique (c : MessengerClient K B J) (name : String) (e : SendEntropy)
    (s0 s1 : Session K B J) (h0 : SendSession L c name e s0) (h1 : SendSession L c name e s1) :
    s0 = s1 := by
  obtain ⟨cert0, hc0, h0⟩ := h0
  obtain ⟨cert1, hc1, h1⟩ := h1
  rw [hc0] at hc1
  have := Option.some.inj hc1
  subst this
  rcases h0 with a | ⟨a, a2⟩ <;> rcases h1 with b | ⟨b, b2⟩
  · rw [a] at b
    exact Option.some.inj b
  · rw [a] at b
    exact Option.noConfusion b
  · rw [a] at b
    exact Option.noConfusion b
  · rw [a2] at b2
    exact Option.some.inj b2

/-- C9 (bounded skipped-key cache), as amended.  One run of `_skipMessageKeys`
adds at most `MAX_SKIP` entries to `MKSKIPPED`; hence one `receiveMessage`
call leaves at most `2 * MAX_SKIP` entries more than the session it worked on
had (one skip to `header.pn`, one to `header.n`), and `sendMessage` leaves
`MKSKIPPED` as it was.  No bound on the total is claimed. -/
theorem cache_growth :
    (∀ (s : Session K B J) (until_ : Nat),
      (MessengerClient._skipMessageKeys L s until_).2.MKSKIPPED.length
        ≤ s.MKSKIPPED.length + MAX_SKIP) ∧
    (∀ (c : MessengerClient K B J) (name : String) (m : Header K B × B) (seed : Nat)
      (s0 : Session K B J), ReceiveSession L c name s0 →
      ∃ s1, (c.receiveMessage L name m seed).2.conns name = some s1 ∧
        s1.MKSKIPPED.length ≤ s0.MKSKIPPED.length + 2 * MAX_SKIP) ∧
    ∀ (c : MessengerClient K B J) (name p : String) (e : SendEntropy) (s0 : Session K B J),
      SendSession L c name e s0 →
      ∃ s1, (c.sendMessage L name p e).2.conns name = some s1 ∧
        s1.MKSKIPPED = s0.MKSKIPPED := by
  refine ⟨skipMessageKeys_length_le L, ?_, ?_⟩
  · intro c name m seed s0 hs0
    rcases receiveMessage_shape L c name m seed with ⟨h0, _⟩ | ⟨h0, hr⟩ | ⟨s, hs, hr⟩
    · obtain ⟨cert, hc, _⟩ := hs0
      rw [hc] at h0
      exact Option.noConfusion h0
    · exfalso
      obtain ⟨cert, hc, h1⟩ := hs0
      rcases h1 with h1 | ⟨_, h1⟩
      · rw [h0] at h1
        exact Option.noConfusion h1
      · have : c.receiveMessage L name m seed
            = ((receiveOnSession L s0 m.1 m.2 seed).1,
                c.setConn name (receiveOnSession L s0 m.1 m.2 seed).2) := by
          simp only [MessengerClient.receiveMessage, hc, h0, h1]
        rw [this] at hr
        have h2 := congrArg (fun x => x.2.conns name) hr
        simp only [MessengerClient.setConn_conns_self, h0] at h2
        exact Option.noConfusion h2
    · have := receiveSession_unique L c name s s0 hs hs0
      subst this
      rw [hr]
      exact ⟨_, MessengerClient.setConn_conns_self c name _,
        receiveOnSession_length_le L s m.1 m.2 seed⟩
  · intro c name p e s0 hs0
    rcases sendMessage_shape L c name p e with ⟨h0, _⟩ | ⟨h0, hr⟩ | ⟨s, hs, hr⟩
    · obtain ⟨cert, hc, _⟩ := hs0
      rw [hc] at h0
      exact Option.noConfusion h0
    · exfalso
      obtain ⟨cert, hc, h1⟩ := hs0
      rcases h1 with h1 | ⟨_, h1⟩
      · rw [h0] at h1
        exact Option.noConfusion h1
      · have : c.sendMessage L name p e
            = ((sendOnSession L c.govPublicKey s0 p e).1,
                c.setConn name (sendOnSession L c.govPublicKey s0 p e).2) := by
          simp only [MessengerClient.sendMessage, hc, h0, h1]
        rw [this] at hr
        have h2 := congrArg (fun x => x.2.conns name) hr
        simp only [MessengerClient.setConn_conns_self, h0] at h2
        exact Option.noConfusion h2
    · have := sendSession_unique L c name e s s0 hs hs0
      subst this
      rw [hr]
      exact ⟨_, MessengerClient.setConn_conns_self c name _,
        (sendOnSession_frame L c.govPublicKey s p e).2.2.2.2.2.2.1⟩

/-- Witness of C9 as amended: the first `receiveMessage` of the fresh `bob`, with
counter 2000. -/
theorem cache_growth_witness :
    ∃ s1, (demoBob.receiveMessage symbolicLib "alice" (demoHeader 2000, .junk) 40).2.conns
        "alice" = some s1 ∧
      s1.MKSKIPPED.length ≤ demoBobInit.MKSKIPPED.length + 2 * MAX_SKIP :=
  (cache_growth symbolicLib).2.1 demoBob "alice" (demoHeader 2000, .junk) 40 demoBobInit
    ⟨⟨⟨"alice", 2⟩, .pub 1⟩, rfl, Or.inr ⟨rfl, rfl⟩⟩

/-- A header ahead of the receiving chain whose ciphertext authenticates under
no key: the keys of the positions in between are cached, the call fails. -/
theorem receiveOnChain_flood (s : Session K B J) (header : Header K B) (ciphertext : B)
    (ck : K) (hck : s.CKr = some ck) (hle : s.Nr ≤ header.n)
    (hbound : ¬ s.Nr + MAX_SKIP < header.n)
    (hfresh : ∀ j, s.Nr ≤ j → s.MKSKIPPED.has (MessengerClient._pubKeyToStr L s.DHr, j) = false)
    (hdec : ∀ k, L.decryptWithGCM k ciphertext header.receiverIV (stringifyHeader header)
      = none) :
    ∃ s1 ck1, receiveOnChain L s header ciphertext
        = (.error (.str "Decryption failed or tampering detected"), s1) ∧
      s1.DHr = s.DHr ∧ s1.CKr = some ck1 ∧ s1.Nr = header.n + 1 ∧
      s1.receivedSet = s.receivedSet ∧
      (∀ j, s1.Nr ≤ j → s1.MKSKIPPED.has (MessengerClient._pubKeyToStr L s.DHr, j) = false) ∧
      s1.MKSKIPPED.length = s.MKSKIPPED.length + (header.n - s.Nr) := by
  have hfr := skipLoop_frame L header.n (header.n - s.Nr) s
  rcases receiveOnChain_cases L s header ciphertext with
    ⟨h0, _⟩ | ⟨_, h0, _⟩ | ⟨_, ck2, _, ⟨_, hr⟩ | ⟨buf, h0, _⟩⟩
  · exact absurd h0 hbound
  · rw [hck] at h0
    exact Option.noConfusion h0
  · refine ⟨_, _, hr, hfr.1, rfl, ?_, hfr.2.2.2.2.2.2, ?_, ?_⟩
    · show max s.Nr header.n + 1 = header.n + 1
      rw [Nat.max_eq_right hle]
    · intro j hj
      have hj2 : max s.Nr header.n + 1 ≤ j := hj
      show (skipLoop L header.n (header.n - s.Nr) s).MKSKIPPED.has _ = false
      rw [skipLoop_has L header.n (header.n - s.Nr) s ck hck (Nat.le_refl _),
        hfresh j (by omega)]
      have : ¬ j < header.n := by omega
      simp [this]
    · show (skipLoop L header.n (header.n - s.Nr) s).MKSKIPPED.length = _
      exact skipLoop_length L header.n _ (header.n - s.Nr) s rfl (by rw [hck]; simp)
        (Nat.le_refl _) hfresh
  · rw [hdec] at h0
    exact Option.noConfusion h0

end Growth

/-- Counterexample to C9 as stated: starting from the fresh client of `bob`, two
`receiveMessage` calls with counters 2000 and 2002 (both fail to decrypt) leave
2001 entries in `MKSKIPPED`, more than `MAX_SKIP`. -/
theorem cache_bound_counterexample :
    ∃ s, (demoBob.run symbolicLib demoFlood).conns "alice" = some s ∧
      s.MKSKIPPED.length = 2001 ∧ MAX_SKIP < s.MKSKIPPED.length := by
  have hcert : demoBob.certs "alice" = some ⟨⟨"alice", 2⟩, .pub 1⟩ := rfl
  have hconn : demoBob.conns "alice" = none := rfl
  have hinit : ratchetInitBob symbolicLib demoBob ⟨⟨"alice", 2⟩, .pub 1⟩ = some demoBobInit := rfl
  have hdec : ∀ (n : Nat) (k : Term), symbolicLib.decryptWithGCM k Term.junk
      (demoHeader n).receiverIV (stringifyHeader (demoHeader n)) = none := fun _ _ => rfl
  -- first call: the session is created, ratcheted, and 2000 keys are cached
  have h1 : demoBob.receiveMessage symbolicLib "alice" (demoHeader 2000, .junk) 40 =
      ((receiveOnSession symbolicLib demoBobInit (demoHeader 2000) .junk 40).1,
        demoBob.setConn "alice"
          (receiveOnSession symbolicLib demoBobInit (demoHeader 2000) .junk 40).2) := by
    simp only [MessengerClient.receiveMessage, hcert, hconn, hinit]
  have hf := receiveOnSession_fresh symbolicLib demoBobInit (demoHeader 2000) .junk 40 rfl rfl
    rfl rfl rfl (by decide)
  obtain ⟨s1, ck1, hr1, hd1, hck1, hNr1, hrs1, hfresh1, hlen1⟩ :=
    receiveOnChain_flood symbolicLib
      (MessengerClient._doDHRatchet symbolicLib demoBobInit (.pub 10) 40) (demoHeader 2000)
      .junk _ rfl (Nat.zero_le _) (by decide) (fun j _ => rfl) (hdec 2000)
  have hs1 : receiveOnSession symbolicLib demoBobInit (demoHeader 2000) .junk 40
      = (.error (.str "Decryption failed or tampering detected"), s1) := hf.trans hr1
  rw [hs1] at h1
  have hdhr1 : s1.DHr = some (.pub 10) := hd1
  have hNr1b : s1.Nr = 2001 := hNr1
  have hrs1b : s1.receivedSet = [] := hrs1
  have hlen1b : s1.MKSKIPPED.length = 2000 := hlen1
  have hfresh1b : ∀ j, s1.Nr ≤ j →
      s1.MKSKIPPED.has (MessengerClient._pubKeyToStr symbolicLib s1.DHr, j) = false := by
    intro j hj
    rw [hdhr1]
    exact hfresh1 j hj
  -- second call: one more key is cached
  have hcert2 : (demoBob.setConn "alice" s1).certs "alice" = some ⟨⟨"alice", 2⟩, .pub 1⟩ := hcert
  have hconn2 := MessengerClient.setConn_conns_self demoBob "alice" s1
  have hnew2 : s1.receivedSet.has
      (some (symbolicLib.cryptoKeyToJSON (demoHeader 2002).dh), (demoHeader 2002).n) = false := by
    rw [hrs1b]
    rfl
  have hmiss2 : s1.MKSKIPPED.has
      (some (symbolicLib.cryptoKeyToJSON (demoHeader 2002).dh), (demoHeader 2002).n) = false := by
    have := hfresh1b 2002 (by rw [hNr1b]; decide)
    rw [hdhr1] at this
    exact this
  have hsess2 : receiveOnSession symbolicLib s1 (demoHeader 2002) .junk 41
      = receiveOnChain symbolicLib s1 (demoHeader 2002) .junk := by
    rw [receiveOnSession_miss symbolicLib s1 (demoHeader 2002) .junk 41 hnew2 hmiss2,
      ratchetIfNew_same symbolicLib s1 (demoHeader 2002) 41 (.pub 10) hdhr1 rfl]
  obtain ⟨s2, ck2, hr2, _, _, _, _, _, hlen2⟩ :=
    receiveOnChain_flood symbolicLib s1 (demoHeader 2002) .junk ck1 hck1
      (by rw [hNr1b]; decide) (by rw [hNr1b]; decide) hfresh1b (hdec 2002)
  have h2 : (demoBob.setConn "alice" s1).receiveMessage symbolicLib "alice"
      (demoHeader 2002, .junk) 41 =
      (.error (.str "Decryption failed or tampering detected"),
        (demoBob.setConn "alice" s1).setConn "alice" s2) := by
    simp only [MessengerClient.receiveMessage, hcert2, hconn2, hsess2, hr2]
  have hlen2b : s2.MKSKIPPED.length = 2001 := by
    rw [hlen2, hlen1b, hNr1b]
    rfl
  refine ⟨s2, ?_, hlen2b, ?_⟩
  · show ((demoBob.receiveMessage symbolicLib "alice" (demoHeader 2000, .junk) 40).2.receiveMessage
      symbolicLib "alice" (demoHeader 2002, .junk) 41).2.conns "alice" = some s2
    rw [h1]
    show ((demoBob.setConn "alice" s1).receiveMessage symbolicLib "alice"
      (demoHeader 2002, .junk) 41).2.conns "alice" = some s2
    rw [h2]
    exact MessengerClient.setConn_conns_self _ "alice" s2
  · rw [hlen2b]
    decide

/-! ## The DH ratchet step -/

section RatchetStep

variable (L : Lib K B J)

/-- C19: after `_doDHRatchet(state, headerDh)`, `PN` is the old `Ns`, `Ns` and `Nr`
are 0, `DHr` is `headerDh`, `CKr` and the intermediate root key are the two
outputs of `HKDF(old RK, DH(old DHs.sec, headerDh))`, `DHs` is the key pair
`generateEG()` returned, `RK` and `CKs` are the two outputs of
`HKDF(intermediate root key, DH(new DHs.sec, headerDh))`, and `MKSKIPPED` and
`receivedSet` are unchanged. -/
theorem dh_ratchet_postcondition (s : Session K B J) (headerDh : K) (seed : Nat) :
    (MessengerClient._doDHRatchet L s headerDh seed).PN = s.Ns ∧
    (MessengerClient._doDHRatchet L s headerDh seed).Ns = 0 ∧
    (MessengerClient._doDHRatchet L s headerDh seed).Nr = 0 ∧
    (MessengerClient._doDHRatchet L s headerDh seed).DHr = some headerDh ∧
    (MessengerClient._doDHRatchet L s headerDh seed).CKr
      = some (L.HKDF s.RK (L.computeDH s.DHs.sec headerDh) "ratchet").2 ∧
    (MessengerClient._doDHRatchet L s headerDh seed).DHs = L.generateEG seed ∧
    (MessengerClient._doDHRatchet L s headerDh seed).RK
      = (L.HKDF (L.HKDF s.RK (L.computeDH s.DHs.sec headerDh) "ratchet").1
          (L.computeDH (L.generateEG seed).sec headerDh) "ratchet").1 ∧
    (MessengerClient._doDHRatchet L s headerDh seed).CKs
      = some (L.HKDF (L.HKDF s.RK (L.computeDH s.DHs.sec headerDh) "ratchet").1
          (L.computeDH (L.generateEG seed).sec headerDh) "ratchet").2 ∧
    (MessengerClient._doDHRatchet L s headerDh seed).MKSKIPPED = s.MKSKIPPED ∧
    (MessengerClient._doDHRatchet L s headerDh seed).receivedSet = s.receivedSet :=
  ⟨rfl, rfl, rfl, rfl, rfl, rfl, rfl, rfl, rfl, rfl⟩

end RatchetStep

/-! ## Skipping without a receiving chain -/

section SkipAbsent

variable [DecidableEq J] (L : Lib K B J)

/-- C16 as stated fails: the responder session of `bob` has no receiving chain
key, yet `_skipMessageKeys` with the target 5000 throws
'Too many skipped messages', because the bound is tested before `CKr`. -/
theorem skip_without_chain_counterexample :
    demoBobInit.CKr = none ∧
    MessengerClient._skipMessageKeys symbolicLib demoBobInit 5000
      = (.error (.str "Too many skipped messages"), demoBobInit) :=
  ⟨rfl, rfl⟩

/-- C16 (amended): for a session without receiving chain key, `_skipMessageKeys`
returns without error when the target is at most `Nr + MAX_SKIP` and throws
'Too many skipped messages' when it is beyond; in both cases the session
(`Nr` and `MKSKIPPED` included) is unchanged. -/
theorem skip_without_chain (s : Session K B J) (until_ : Nat) (hck : s.CKr = none) :
    (¬ s.Nr + MAX_SKIP < until_ → MessengerClient._skipMessageKeys L s until_ = (.ok (), s)) ∧
    (s.Nr + MAX_SKIP < until_ →
      MessengerClient._skipMessageKeys L s until_
        = (.error (.str "Too many skipped messages"), s)) ∧
    (MessengerClient._skipMessageKeys L s until_).2 = s := by
  refine ⟨fun h => skipMessageKeys_absent L s until_ h hck,
    fun h => skipMessageKeys_throw L s until_ h, ?_⟩
  by_cases h : s.Nr + MAX_SKIP < until_
  · rw [skipMessageKeys_throw L s until_ h]
  · rw [skipMessageKeys_absent L s until_ h hck]

/-- Witness of C16 as amended: the responder session of `bob` and the target 7. -/
theorem skip_without_chain_witness :
    demoBobInit.CKr = none ∧
    MessengerClient._skipMessageKeys symbolicLib demoBobInit 7 = (.ok (), demoBobInit) :=
  ⟨rfl, (skip_without_chain symbolicLib demoBobInit 7 rfl).1 (by decide)⟩

end SkipAbsent

/-! ## The trust store -/

section TrustStore

variable (L : Lib K B J)

theorem receiveCertificate_invalid (c : MessengerClient K B J) (certificate : Certificate J)
    (signature : B) (h : L.verifyWithECDSA c.caPublicKey certificate signature = false) :
    c.receiveCertificate L certificate signature
      = (.error (.str "Invalid certificate signature"), c) := by
  simp [MessengerClient.receiveCertificate, h]

theorem receiveCertificate_import_fails (c : MessengerClient K B J)
    (certificate : Certificate J) (signature : B)
    (h : L.verifyWithECDSA c.caPublicKey certificate signature = true)
    (hk : L.importKeyJwk certificate.pub = none) :
    c.receiveCertificate L certificate signature = (.error .native, c) := by
  simp [MessengerClient.receiveCertificate, h, hk]

theorem receiveCertificate_valid (c : MessengerClient K B J) (certificate : Certificate J)
    (signature : B) (theirPub : K)
    (h : L.verifyWithECDSA c.caPublicKey certificate signature = true)
    (hk : L.importKeyJwk certificate.pub = some theirPub) :
    c.receiveCertificate L certificate signature =
      (.ok (),
        { c with certs := fun x =>
            if x = certificate.username then
              some { certificate := certificate, publicKey := theirPub }
            else c.certs x }) := by
  simp [MessengerClient.receiveCertificate, h, hk]

/-- C14 as stated fails: the certificate `demoBadCertificate` carries a valid
signature of the authority, but its `pub` field does not import as a key, so
`receiveCertificate` throws and the trust store has no entry for its
username. -/
theorem certificate_import_counterexample :
    symbolicLib.verifyWithECDSA (.pub 100) demoBadCertificate (.signed 100 "mallory" 0) = true ∧
    (MessengerClient.new (.pub 100) (.pub 200)).receiveCertificate symbolicLib
        demoBadCertificate (.signed 100 "mallory" 0)
      = (.error .native, MessengerClient.new (.pub 100) (.pub 200)) ∧
    (MessengerClient.new (.pub 100) (.pub 200) : MessengerClient Term Term Nat).certs "mallory"
      = none :=
  ⟨rfl, rfl, rfl⟩

/-- C14 (amended): if the signature does not verify, `receiveCertificate` throws
'Invalid certificate signature' and the client (its trust store included) is
unchanged; if it verifies and the certificate's `pub` imports as a key, the call
returns and the trust store maps `certificate.username` to the certificate and
the imported key, every other entry and the rest of the client being unchanged;
if it verifies and the import throws, the call throws and the client is
unchanged. -/
theorem certificate_verification (c : MessengerClient K B J) (certificate : Certificate J)
    (signature : B) :
    (L.verifyWithECDSA c.caPublicKey certificate signature = false →
      c.receiveCertificate L certificate signature
        = (.error (.str "Invalid certificate signature"), c)) ∧
    (L.verifyWithECDSA c.caPublicKey certificate signature = true →
      ∀ theirPub, L.importKeyJwk certificate.pub = some theirPub →
        (c.receiveCertificate L certificate signature).1 = .ok () ∧
        (c.receiveCertificate L certificate signature).2.certs certificate.username
          = some { certificate := certificate, publicKey := theirPub } ∧
        (∀ x, x ≠ certificate.username →
          (c.receiveCertificate L certificate signature).2.certs x = c.certs x) ∧
        (c.receiveCertificate L certificate signature).2.conns = c.conns ∧
        (c.receiveCertificate L certificate signature).2.EGKeyPair = c.EGKeyPair) ∧
    (L.verifyWithECDSA c.caPublicKey certificate signature = true →
      L.importKeyJwk certificate.pub = none →
        c.receiveCertificate L certificate signature = (.error .native, c)) := by
  refine ⟨receiveCertificate_invalid L c certificate signature, ?_,
    receiveCertificate_import_fails L c certificate signature⟩
  intro h theirPub hk
  rw [receiveCertificate_valid L c certificate signature theirPub h hk]
  refine ⟨rfl, ?_, ?_, rfl, rfl⟩
  · show (if certificate.username = certificate.username then _ else _) = _
    rw [if_pos rfl]
  · intro x hx
    show (if x = certificate.username then _ else _) = _
    rw [if_neg hx]

/-- C15 as stated fails: `alice` holds the certificate of `bob`; a second
certificate for `bob` signed by the authority is accepted without error and
replaces the entry. -/
theorem write_once_counterexample :
    demoAlice.certs "bob" = some { certificate := ⟨"bob", 3⟩, publicKey := .pub 2 } ∧
    (demoAlice.receiveCertificate symbolicLib demoSecondCertificate (.signed 100 "bob" 5)).1
      = .ok () ∧
    (demoAlice.receiveCertificate symbolicLib demoSecondCertificate
        (.signed 100 "bob" 5)).2.certs "bob"
      = some { certificate := demoSecondCertificate, publicKey := .pub 4 } :=
  ⟨rfl, rfl, rfl⟩

/-- C15 (amended): a `receiveCertificate` call with a validly signed certificate
whose key imports, for a username that already has a trust-store entry, returns
without error and replaces the entry by the new certificate and its imported
key; the sessions, the one held for that username included, are unchanged. -/
theorem certificate_replacement (c : MessengerClient K B J) (certificate : Certificate J)
    (signature : B) (theirPub : K) (old : CertEntry K J)
    (_hold : c.certs certificate.username = some old)
    (h : L.verifyWithECDSA c.caPublicKey certificate signature = true)
    (hk : L.importKeyJwk certificate.pub = some theirPub) :
    (c.receiveCertificate L certificate signature).1 = .ok () ∧
    (c.receiveCertificate L certificate signature).2.certs certificate.username
      = some { certificate := certificate, publicKey := theirPub } ∧
    (c.receiveCertificate L certificate signature).2.conns = c.conns := by
  rw [receiveCertificate_valid L c certificate signature theirPub h hk]
  refine ⟨rfl, ?_, rfl⟩
  show (if certificate.username = certificate.username then _ else _) = _
  rw [if_pos rfl]

/-- Witness of C15 as amended: `alice` accepts a second certificate for `bob`. -/
theorem certificate_replacement_witness :
    demoAlice.certs "bob" = some { certificate := ⟨"bob", 3⟩, publicKey := .pub 2 } ∧
    (demoAlice.receiveCertificate symbolicLib demoSecondCertificate
        (.signed 100 "bob" 5)).2.certs "bob"
      = some { certificate := demoSecondCertificate, publicKey := .pub 4 } :=
  ⟨rfl, (certificate_replacement symbolicLib demoAlice demoSecondCertificate
    (.signed 100 "bob" 5) (.pub 4) { certificate := ⟨"bob", 3⟩, publicKey := .pub 2 }
    rfl rfl rfl).2.1⟩

end TrustStore

/-! ## The calls as functions of the session they work on -/

section OnSession

variable [DecidableEq J] (L : Lib K B J)

theorem receiveMessage_of_session (c : MessengerClient K B J) (name : String)
    (m : Header K B × B) (seed : Nat) (s0 : Session K B J) (h : ReceiveSession L c name s0) :
    c.receiveMessage L name m seed =
      ((receiveOnSession L s0 m.1 m.2 seed).1,
        c.setConn name (receiveOnSession L s0 m.1 m.2 seed).2) := by
  obtain ⟨cert, hc, h | ⟨hn, hi⟩⟩ := h
  · simp only [MessengerClient.receiveMessage, hc, h]
  · simp only [MessengerClient.receiveMessage, hc, hn, hi]

omit [DecidableEq J] in
theorem sendMessage_of_session (c : MessengerClient K B J) (name p : String) (e : SendEntropy)
    (s0 : Session K B J) (h : SendSession L c name e s0) :
    c.sendMessage L name p e =
      ((sendOnSession L c.govPublicKey s0 p e).1,
        c.setConn name (sendOnSession L c.govPublicKey s0 p e).2) := by
  obtain ⟨cert, hc, h | ⟨hn, hi⟩⟩ := h
  · simp only [MessengerClient.sendMessage, hc, h]
  · simp only [MessengerClient.sendMessage, hc, hn, hi]

omit [DecidableEq J] in
theorem receivedSetOf_setConn (c : MessengerClient K B J) (name : String)
    (s : Session K B J) : receivedSetOf (c.setConn name s) name = s.receivedSet := by
  simp only [receivedSetOf, MessengerClient.setConn_conns_self]

omit [DecidableEq J] in
theorem receivedSetOf_setConn_ne (c : MessengerClient K B J) (name : String)
    (s : Session K B J) (x : String) (h : x ≠ name) :
    receivedSetOf (c.setConn name s) x = receivedSetOf c x := by
  simp only [receivedSetOf, MessengerClient.setConn_conns_ne c name s h]

omit [DecidableEq J] in
theorem receivedSetOf_receiveSession (c : MessengerClient K B J) (name : String)
    (s0 : Session K B J) (h : ReceiveSession L c name s0) :
    receivedSetOf c name = s0.receivedSet := by
  obtain ⟨cert, _, h | ⟨hn, hi⟩⟩ := h
  · simp only [receivedSetOf, h]
  · simp only [receivedSetOf, hn]
    unfold ratchetInitBob at hi
    cases heg : c.EGKeyPair with
    | none =>
      rw [heg] at hi
      exact Option.noConfusion hi
    | some eg =>
      rw [heg] at hi
      have := Option.some.inj hi
      subst this
      rfl

omit [DecidableEq J] in
theorem receivedSetOf_sendSession (c : MessengerClient K B J) (name : String)
    (e : SendEntropy) (s0 : Session K B J) (h : SendSession L c name e s0) :
    receivedSetOf c name = s0.receivedSet := by
  obtain ⟨cert, _, h | ⟨hn, hi⟩⟩ := h
  · simp only [receivedSetOf, h]
  · simp only [receivedSetOf, hn]
    unfold ratchetInitAlice at hi
    cases heg : c.EGKeyPair with
    | none =>
      rw [heg] at hi
      exact Option.noConfusion hi
    | some eg =>
      rw [heg] at hi
      have := Option.some.inj hi
      subst this
      rfl

theorem receivedSetOf_receive_other (c : MessengerClient K B J) (name : String)
    (m : Header K B × B) (seed : Nat) (x : String) (h : x ≠ name) :
    receivedSetOf (c.receiveMessage L name m seed).2 x = receivedSetOf c x := by
  simp only [receivedSetOf, receiveMessage_conns_other L c name m seed x h]

omit [DecidableEq J] in
theorem receivedSetOf_send (c : MessengerClient K B J) (name p : String) (e : SendEntropy)
    (x : String) : receivedSetOf (c.sendMessage L name p e).2 x = receivedSetOf c x := by
  by_cases hx : x = name
  · subst hx
    rcases sendMessage_shape L c x p e with ⟨_, hr⟩ | ⟨_, hr⟩ | ⟨s0, hs0, hr⟩
    · rw [hr]
    · rw [hr]
    · rw [hr, receivedSetOf_setConn, receivedSetOf_sendSession L c x e s0 hs0]
      exact (sendOnSession_frame L c.govPublicKey s0 p e).2.2.2.2.2.2.2
  · simp only [receivedSetOf, sendMessage_conns_other L c name p e x hx]

end OnSession

/-! ## The replay guard only grows; sessions are independent -/

section Guard

variable [DecidableEq J] (L : Lib K B J)

/-- C17: a `receiveMessage` call that throws leaves `receivedSet` unchanged (for
every peer); a call that returns a plaintext leaves the `receivedSet` of the
sender's session equal to the old one plus the pair (header ratchet key, header
counter), and that of every other peer unchanged; `sendMessage` never changes a
`receivedSet`; hence no call removes an entry.  The `receivedSet` of a peer
without session counts as empty, as it is in a new session. -/
theorem replay_guard_append_only (c : MessengerClient K B J) (name : String)
    (m : Header K B × B) (seed : Nat) :
    (∀ err c1, c.receiveMessage L name m seed = (.error err, c1) →
      ∀ x, receivedSetOf c1 x = receivedSetOf c x) ∧
    (∀ p c1, c.receiveMessage L name m seed = (.ok p, c1) →
      receivedSetOf c1 name
          = (receivedSetOf c name).add (some (L.cryptoKeyToJSON m.1.dh), m.1.n) ∧
        ∀ x, x ≠ name → receivedSetOf c1 x = receivedSetOf c x) ∧
    (∀ p e x, receivedSetOf (c.sendMessage L name p e).2 x = receivedSetOf c x) ∧
    (∀ x key, (receivedSetOf c x).has key = true →
      (receivedSetOf (c.receiveMessage L name m seed).2 x).has key = true) ∧
    (∀ p e x key, (receivedSetOf c x).has key = true →
      (receivedSetOf (c.sendMessage L name p e).2 x).has key = true) := by
  refine ⟨?_, ?_, fun p e x => receivedSetOf_send L c name p e x, ?_, ?_⟩
  · intro err c1 h x
    have h2 : c1 = (c.receiveMessage L name m seed).2 := by rw [h]
    subst h2
    by_cases hx : x = name
    · subst hx
      rcases receiveMessage_shape L c x m seed with ⟨_, hr⟩ | ⟨_, hr⟩ | ⟨s0, hs0, hr⟩
      · rw [hr]
      · rw [hr]
      · rw [hr] at h
        have h1 : (receiveOnSession L s0 m.1 m.2 seed).1 = .error err :=
          congrArg Prod.fst h
        rw [hr, receivedSetOf_setConn, receivedSetOf_receiveSession L c x s0 hs0]
        exact (receiveOnSession_receivedSet L s0 m.1 m.2 seed).2 err _
          (Prod.ext h1 rfl)
    · exact receivedSetOf_receive_other L c name m seed x hx
  · intro p c1 h
    have h2 : c1 = (c.receiveMessage L name m seed).2 := by rw [h]
    subst h2
    refine ⟨?_, fun x hx => receivedSetOf_receive_other L c name m seed x hx⟩
    rcases receiveMessage_shape L c name m seed with ⟨_, hr⟩ | ⟨_, hr⟩ | ⟨s0, hs0, hr⟩
    · rw [hr] at h
      exact absurd (congrArg Prod.fst h) (fun h => Except.noConfusion h)
    · rw [hr] at h
      exact absurd (congrArg Prod.fst h) (fun h => Except.noConfusion h)
    · rw [hr] at h
      have h1 : (receiveOnSession L s0 m.1 m.2 seed).1 = .ok p := congrArg Prod.fst h
      rw [hr, receivedSetOf_setConn, receivedSetOf_receiveSession L c name s0 hs0]
      exact (receiveOnSession_receivedSet L s0 m.1 m.2 seed).1 p _ (Prod.ext h1 rfl)
  · intro x key hk
    by_cases hx : x = name
    · subst hx
      rcases receiveMessage_shape L c x m seed with ⟨_, hr⟩ | ⟨_, hr⟩ | ⟨s0, hs0, hr⟩
      · rw [hr]
        exact hk
      · rw [hr]
        exact hk
      · rw [hr, receivedSetOf_setConn]
        rw [receivedSetOf_receiveSession L c x s0 hs0] at hk
        exact receiveOnSession_receivedSet_mono L s0 m.1 m.2 seed key hk
    · rw [receivedSetOf_receive_other L c name m seed x hx]
      exact hk
  · intro p e x key hk
    rw [receivedSetOf_send L c name p e x]
    exact hk

/-- C18: for distinct `X` and `Y`, a `sendMessage(X, ·)` or `receiveMessage(X, ·)`
call, whether it returns or throws, leaves the session stored for `Y` and the
trust-store entry of `Y` unchanged. -/
theorem session_independence (c : MessengerClient K B J) (X Y : String) (hne : X ≠ Y)
    (p : String) (e : SendEntropy) (m : Header K B × B) (seed : Nat) :
    (c.sendMessage L X p e).2.conns Y = c.conns Y ∧
    (c.sendMessage L X p e).2.certs Y = c.certs Y ∧
    (c.receiveMessage L X m seed).2.conns Y = c.conns Y ∧
    (c.receiveMessage L X m seed).2.certs Y = c.certs Y :=
  ⟨sendMessage_conns_other L c X p e Y (Ne.symm hne),
    congrFun (sendMessage_certs L c X p e) Y,
    receiveMessage_conns_other L c X m seed Y (Ne.symm hne),
    congrFun (receiveMessage_certs L c X m seed) Y⟩

/-- Witness of C18: `bob` holds a session for `alice` and trusts `carol`; his
`sendMessage` to `carol` creates a session for `carol`, and neither it nor a
`receiveMessage` from `carol` touches the session and certificate of `alice`. -/
theorem session_independence_witness :
    "carol" ≠ "alice" ∧
    ((demoBobTwoPeers.sendMessage symbolicLib "carol" "note" ⟨50, 51, 52, 53⟩).2.conns
      "carol").isSome = true ∧
    (demoBobTwoPeers.sendMessage symbolicLib "carol" "note" ⟨50, 51, 52, 53⟩).2.conns "alice"
      = demoBobTwoPeers.conns "alice" ∧
    (demoBobTwoPeers.sendMessage symbolicLib "carol" "note" ⟨50, 51, 52, 53⟩).2.certs "alice"
      = demoBobTwoPeers.certs "alice" ∧
    (demoBobTwoPeers.receiveMessage symbolicLib "carol" demoFirst 41).2.conns "alice"
      = demoBobTwoPeers.conns "alice" ∧
    (demoBobTwoPeers.receiveMessage symbolicLib "carol" demoFirst 41).2.certs "alice"
      = demoBobTwoPeers.certs "alice" :=
  ⟨by decide, rfl,
    session_independence symbolicLib demoBobTwoPeers "carol" "alice" (by decide) "note"
      ⟨50, 51, 52, 53⟩ demoFirst 41⟩

end Guard

/-! ## When `sendMessage` throws -/

section SendFailures

variable (L : Lib K B J)

theorem sendOnSession_missing (gov : K) (s : Session K B J) (p : String) (e : SendEntropy)
    (h : s.CKs = none) :
    sendOnSession L gov s p e = (.error (.str "Sending chain key missing"), s) := by
  simp only [sendOnSession, h]

theorem sendOnSession_returns (gov : K) (s : Session K B J) (p : String) (e : SendEntropy)
    (h : s.CKs ≠ none) : ∃ m s1, sendOnSession L gov s p e = (.ok m, s1) := by
  cases hck : s.CKs with
  | none => exact absurd hck h
  | some cks => exact ⟨_, _, sendOnSession_ok L gov s p e cks hck⟩

/-- C13 as stated fails: `bob` has generated his key pair and accepted the
certificate of `alice`; a first `receiveMessage` that throws
'Too many skipped messages' leaves a responder session without sending chain
key, and `sendMessage` to `alice` then throws 'Sending chain key missing'
although the certificate is there.  The name `alice` is an ordinary dictionary
key and no certificate with the username `__proto__` was accepted. -/
theorem send_chain_missing_counterexample :
    demoBob.EGKeyPair = some { pub := .pub 2, sec := .sec 2 } ∧
    demoBob.certs "alice" = some { certificate := ⟨"alice", 2⟩, publicKey := .pub 1 } ∧
    (demoBob.receiveMessage symbolicLib "alice" (demoFarPnHeader, .junk) 40).1
      = .error (.str "Too many skipped messages") ∧
    demoBobStalled.certs "alice" = some { certificate := ⟨"alice", 2⟩, publicKey := .pub 1 } ∧
    (demoBobStalled.sendMessage symbolicLib "alice" "hello" ⟨50, 51, 52, 53⟩).1
      = .error (.str "Sending chain key missing") ∧
    "alice" ∉ objectPrototypeNames ∧ demoBobStalled.certs "__proto__" = none :=
  ⟨rfl, rfl, rfl, rfl, rfl, by decide, rfl⟩

/-- C13 (amended): for a client that has generated its key pair and has
accepted no certificate with the username `__proto__`, and a `name` that is not
a property name inherited from `Object.prototype`, `sendMessage` throws 'No certificate for recipient' when no certificate for `name` has been
accepted; with a certificate it throws 'Sending chain key missing' when the
session stored for `name` has no sending chain key (a responder session whose
first DH ratchet step has not been done), and returns a (header, ciphertext)
pair in every other case; when it throws, the client state is unchanged.  The
inherited names are excluded because the tests `!this.certs[name]` and
`!this.conns[name]` (messenger.js lines 132 and 136) find the inherited property
for them, where the maps of the embedding have no entry; the assignment
`this.certs['__proto__'] = ...` (line 115) would replace the prototype of the
trust store and so add inherited names. -/
theorem send_failures (c : MessengerClient K B J) (name p : String) (e : SendEntropy)
    (hEG : c.EGKeyPair ≠ none) (_hname : name ∉ objectPrototypeNames)
    (_hproto : c.certs "__proto__" = none) :
    (c.certs name = none →
      c.sendMessage L name p e = (.error (.str "No certificate for recipient"), c)) ∧
    (c.certs name ≠ none → (∃ s, c.conns name = some s ∧ s.CKs = none) →
      c.sendMessage L name p e = (.error (.str "Sending chain key missing"), c)) ∧
    (c.certs name ≠ none → (¬ ∃ s, c.conns name = some s ∧ s.CKs = none) →
      ∃ m c1, c.sendMessage L name p e = (.ok m, c1)) := by
  refine ⟨?_, ?_, ?_⟩
  · intro h
    simp only [MessengerClient.sendMessage, h]
  · intro hc ⟨s, hs, hck⟩
    cases hcert : c.certs name with
    | none => exact absurd hcert hc
    | some cert =>
      simp only [MessengerClient.sendMessage, hcert, hs, sendOnSession_missing L _ s p e hck]
      rw [MessengerClient.setConn_self c name s hs]
  · intro hc hno
    cases hcert : c.certs name with
    | none => exact absurd hcert hc
    | some cert =>
      cases hs : c.conns name with
      | some s =>
        have hck : s.CKs ≠ none := fun h => hno ⟨s, hs, h⟩
        obtain ⟨m, s1, hr⟩ := sendOnSession_returns L c.govPublicKey s p e hck
        refine ⟨m, c.setConn name s1, ?_⟩
        simp only [MessengerClient.sendMessage, hcert, hs, hr]
      | none =>
        cases heg : c.EGKeyPair with
        | none => exact absurd heg hEG
        | some eg =>
          have hck : ∃ s0, ratchetInitAlice L c cert e = some s0 ∧ s0.CKs ≠ none := by
            simp only [ratchetInitAlice, heg]
            exact ⟨_, rfl, fun h => Option.noConfusion h⟩
          obtain ⟨s0, hinit, hck⟩ := hck
          obtain ⟨m, s1, hr⟩ := sendOnSession_returns L c.govPublicKey s0 p e hck
          refine ⟨m, c.setConn name s1, ?_⟩
          simp only [MessengerClient.sendMessage, hcert, hs, hinit, hr]

/-- Witness of C13 as amended: the first `sendMessage` of `alice` to `bob`
returns a message. -/
theorem send_failures_witness :
    demoAlice.EGKeyPair ≠ none ∧ "bob" ∉ objectPrototypeNames ∧
    demoAlice.certs "__proto__" = none ∧
    ∃ m c1, demoAlice.sendMessage symbolicLib "bob" "hello" ⟨10, 11, 12, 13⟩ = (.ok m, c1) :=
  ⟨fun h => Option.noConfusion h, by decide, rfl,
    (send_failures symbolicLib demoAlice "bob" "hello" ⟨10, 11, 12, 13⟩
      (fun h => Option.noConfusion h) (by decide) rfl).2.2 (fun h => Option.noConfusion h)
      (fun ⟨_, hs, _⟩ => Option.noConfusion hs)⟩

end SendFailures

/-! ## When the DH ratchet step is taken -/

section Trigger

variable [DecidableEq J] (L : Lib K B J)

theorem receiveOnChain_frame (s : Session K B J) (header : Header K B) (ciphertext : B) :
    (receiveOnChain L s header ciphertext).2.RK = s.RK ∧
    (receiveOnChain L s header ciphertext).2.DHs = s.DHs ∧
    (receiveOnChain L s header ciphertext).2.DHr = s.DHr ∧
    (receiveOnChain L s header ciphertext).2.CKs = s.CKs ∧
    (receiveOnChain L s header ciphertext).2.Ns = s.Ns ∧
    (receiveOnChain L s header ciphertext).2.PN = s.PN := by
  obtain ⟨h1, h2, h3, h4, h5, h6, _⟩ := skipLoop_frame L header.n (header.n - s.Nr) s
  rcases receiveOnChain_cases L s header ciphertext with
    ⟨_, hr⟩ | ⟨_, _, hr⟩ | ⟨_, ck, _, ⟨_, hr⟩ | ⟨buf, _, hr⟩⟩
  · rw [hr]
    exact ⟨rfl, rfl, rfl, rfl, rfl, rfl⟩
  · rw [hr]
    exact ⟨rfl, rfl, rfl, rfl, rfl, rfl⟩
  · rw [hr]
    exact ⟨h3, h2, h1, h4, h5, h6⟩
  · rw [hr]
    exact ⟨h3, h2, h1, h4, h5, h6⟩

theorem receiveOnSession_same (s : Session K B J) (header : Header K B) (ciphertext : B)
    (seed : Nat)
    (hnew : s.receivedSet.has (some (L.cryptoKeyToJSON header.dh), header.n) = false)
    (hmiss : s.MKSKIPPED.has (some (L.cryptoKeyToJSON header.dh), header.n) = false)
    (hsame : SameRatchetKey L s header) :
    receiveOnSession L s header ciphertext seed = receiveOnChain L s header ciphertext := by
  obtain ⟨dhr, hdhr, hj⟩ := hsame
  rw [receiveOnSession_miss L s header ciphertext seed hnew hmiss,
    ratchetIfNew_same L s header seed dhr hdhr hj]

theorem receiveOnSession_far (s : Session K B J) (header : Header K B) (ciphertext : B)
    (seed : Nat)
    (hnew : s.receivedSet.has (some (L.cryptoKeyToJSON header.dh), header.n) = false)
    (hmiss : s.MKSKIPPED.has (some (L.cryptoKeyToJSON header.dh), header.n) = false)
    (hkey : NewRatchetKey L s header) (hfar : s.Nr + MAX_SKIP < header.pn) :
    receiveOnSession L s header ciphertext seed
      = (.error (.str "Too many skipped messages"), s) := by
  rw [receiveOnSession_miss L s header ciphertext seed hnew hmiss,
    ratchetIfNew_new L s header seed hkey, skipMessageKeys_throw L s header.pn hfar]

theorem receiveOnSession_ratchet (s : Session K B J) (header : Header K B) (ciphertext : B)
    (seed : Nat)
    (hnew : s.receivedSet.has (some (L.cryptoKeyToJSON header.dh), header.n) = false)
    (hmiss : s.MKSKIPPED.has (some (L.cryptoKeyToJSON header.dh), header.n) = false)
    (hkey : NewRatchetKey L s header) (hnear : ¬ s.Nr + MAX_SKIP < header.pn) :
    (MessengerClient._skipMessageKeys L s header.pn).1 = .ok () ∧
    receiveOnSession L s header ciphertext seed
      = receiveOnChain L
          (MessengerClient._doDHRatchet L (MessengerClient._skipMessageKeys L s header.pn).2
            header.dh seed) header ciphertext := by
  have hskip : ∃ sP, MessengerClient._skipMessageKeys L s header.pn = (.ok (), sP) := by
    cases hck : s.CKr with
    | none => exact ⟨_, skipMessageKeys_absent L s header.pn hnear hck⟩
    | some ck => exact ⟨_, skipMessageKeys_loop L s header.pn hnear ck hck⟩
  obtain ⟨sP, hsP⟩ := hskip
  rw [receiveOnSession_miss L s header ciphertext seed hnew hmiss,
    ratchetIfNew_new L s header seed hkey, hsP]
  exact ⟨rfl, rfl⟩

end Trigger

section TriggerClaim

variable [DecidableEq J] (L : Lib K B J)

/-- C20 as stated fails: the session of `bob` follows the ratchet key `pub 10`;
the header `demoFarPnHeader` carries the new ratchet key `pub 77`, is neither a
replay nor served from the cache, and yet no DH ratchet step is performed: the
skip to `header.pn` = 5000 throws first and the session stays as it was (`DHr` is
still `pub 10`). -/
theorem ratchet_trigger_counterexample :
    demoBobAfterFirst.conns "alice" = some demoBobSession ∧
    demoBobSession.DHr = some (.pub 10) ∧
    NewRatchetKey symbolicLib demoBobSession demoFarPnHeader ∧
    demoBobSession.receivedSet.has
      (some (symbolicLib.cryptoKeyToJSON demoFarPnHeader.dh), demoFarPnHeader.n) = false ∧
    demoBobSession.MKSKIPPED.has
      (some (symbolicLib.cryptoKeyToJSON demoFarPnHeader.dh), demoFarPnHeader.n) = false ∧
    (demoBobAfterFirst.receiveMessage symbolicLib "alice" (demoFarPnHeader, .junk) 41).1
      = .error (.str "Too many skipped messages") ∧
    (demoBobAfterFirst.receiveMessage symbolicLib "alice" (demoFarPnHeader, .junk) 41).2.conns
      "alice" = some demoBobSession :=
  ⟨rfl, rfl, Or.inr ⟨.pub 10, rfl, by decide⟩, rfl, rfl, rfl, rfl⟩

/-- C20 (amended): take a `receiveMessage` call that is neither rejected as a
replay nor served from the skipped-key cache, `s` being the session it works
on.  If the header's ratchet key equals `DHr`, no DH ratchet step is performed
and the call leaves `RK`, `DHs`, `DHr`, `CKs`, `Ns` and `PN` unchanged.  If the
key is new (`DHr` absent or different) and `header.pn` is beyond
`Nr + MAX_SKIP`, the call throws 'Too many skipped messages' before any DH
ratchet step and the session is `s`.  If the key is new and `header.pn` is within
the bound, the skip to `header.pn` succeeds and the DH ratchet step is performed
on its result: afterwards `DHr` is the header's key, `DHs` the new key pair, `PN`
the old `Ns`, `Ns` is 0 and `RK` the root key of the step.  `sendMessage` on an
existing session leaves `RK` unchanged. -/
theorem ratchet_trigger (c : MessengerClient K B J) (name : String) (m : Header K B × B)
    (seed : Nat) (s : Session K B J) (hs : ReceiveSession L c name s)
    (hnew : s.receivedSet.has (some (L.cryptoKeyToJSON m.1.dh), m.1.n) = false)
    (hmiss : s.MKSKIPPED.has (some (L.cryptoKeyToJSON m.1.dh), m.1.n) = false) :
    (SameRatchetKey L s m.1 →
      c.receiveMessage L name m seed
          = ((receiveOnChain L s m.1 m.2).1, c.setConn name (receiveOnChain L s m.1 m.2).2) ∧
        ∃ s1, (c.receiveMessage L name m seed).2.conns name = some s1 ∧ s1.RK = s.RK ∧
          s1.DHs = s.DHs ∧ s1.DHr = s.DHr ∧ s1.CKs = s.CKs ∧ s1.Ns = s.Ns ∧ s1.PN = s.PN) ∧
    (NewRatchetKey L s m.1 → s.Nr + MAX_SKIP < m.1.pn →
      c.receiveMessage L name m seed
        = (.error (.str "Too many skipped messages"), c.setConn name s)) ∧
    (NewRatchetKey L s m.1 → ¬ s.Nr + MAX_SKIP < m.1.pn →
      (MessengerClient._skipMessageKeys L s m.1.pn).1 = .ok () ∧
        c.receiveMessage L name m seed
          = ((receiveOnChain L
                (MessengerClient._doDHRatchet L (MessengerClient._skipMessageKeys L s m.1.pn).2
                  m.1.dh seed) m.1 m.2).1,
              c.setConn name (receiveOnChain L
                (MessengerClient._doDHRatchet L (MessengerClient._skipMessageKeys L s m.1.pn).2
                  m.1.dh seed) m.1 m.2).2) ∧
        ∃ s1, (c.receiveMessage L name m seed).2.conns name = some s1 ∧
          s1.DHr = some m.1.dh ∧ s1.DHs = L.generateEG seed ∧ s1.PN = s.Ns ∧ s1.Ns = 0 ∧
          s1.RK = (L.HKDF (L.HKDF s.RK (L.computeDH s.DHs.sec m.1.dh) "ratchet").1
            (L.computeDH (L.generateEG seed).sec m.1.dh) "ratchet").1) ∧
    (∀ s0 p e, c.conns name = some s0 →
      ∃ s1, (c.sendMessage L name p e).2.conns name = some s1 ∧ s1.RK = s0.RK) := by
  have hrecv := receiveMessage_of_session L c name m seed s hs
  refine ⟨?_, ?_, ?_, ?_⟩
  · intro hsame
    have hr := receiveOnSession_same L s m.1 m.2 seed hnew hmiss hsame
    rw [hr] at hrecv
    obtain ⟨f1, f2, f3, f4, f5, f6⟩ := receiveOnChain_frame L s m.1 m.2
    refine ⟨hrecv, (receiveOnChain L s m.1 m.2).2, ?_, f1, f2, f3, f4, f5, f6⟩
    rw [hrecv]
    exact MessengerClient.setConn_conns_self c name _
  · intro hkey hfar
    rw [hrecv, receiveOnSession_far L s m.1 m.2 seed hnew hmiss hkey hfar]
  · intro hkey hnear
    obtain ⟨hok, hr⟩ := receiveOnSession_ratchet L s m.1 m.2 seed hnew hmiss hkey hnear
    rw [hr] at hrecv
    obtain ⟨f1, f2, f3, f4, f5, f6⟩ := receiveOnChain_frame L
      (MessengerClient._doDHRatchet L (MessengerClient._skipMessageKeys L s m.1.pn).2
        m.1.dh seed) m.1 m.2
    obtain ⟨_, g2, g3, _, g5, _, _⟩ := skipMessageKeys_frame L s m.1.pn
    refine ⟨hok, hrecv, (receiveOnChain L
      (MessengerClient._doDHRatchet L (MessengerClient._skipMessageKeys L s m.1.pn).2
        m.1.dh seed) m.1 m.2).2, ?_, ?_, ?_, ?_, ?_, ?_⟩
    · rw [hrecv]
      exact MessengerClient.setConn_conns_self c name _
    · rw [f3]
      rfl
    · rw [f2]
      rfl
    · rw [f6]
      exact g5
    · rw [f5]
      rfl
    · rw [f1]
      show (L.HKDF (L.HKDF (MessengerClient._skipMessageKeys L s m.1.pn).2.RK
        (L.computeDH (MessengerClient._skipMessageKeys L s m.1.pn).2.DHs.sec m.1.dh)
          "ratchet").1 _ "ratchet").1 = _
      rw [g2, g3]
  · intro s0 p e hconn
    rcases sendMessage_shape L c name p e with ⟨_, hr⟩ | ⟨hn, _⟩ | ⟨s0x, hs0, hr⟩
    · rw [hr]
      exact ⟨s0, hconn, rfl⟩
    · rw [hconn] at hn
      exact Option.noConfusion hn
    · have hs0c := hs0
      obtain ⟨cert, hc, _⟩ := hs0c
      have hs0b : SendSession L c name e s0 := ⟨cert, hc, Or.inl hconn⟩
      have heq := sendSession_unique L c name e s0x s0 hs0 hs0b
      subst heq
      rw [hr]
      exact ⟨_, MessengerClient.setConn_conns_self c name _,
        (sendOnSession_frame L c.govPublicKey s0x p e).2.2.1⟩

/-- Witness of C20 as amended: `bob`, having received the first message,
receives the second one of the same chain. -/
theorem ratchet_trigger_witness :
    ReceiveSession symbolicLib demoBobAfterFirst "alice" demoBobSession ∧
    SameRatchetKey symbolicLib demoBobSession demoSecond.1 ∧
    ∃ s1, (demoBobAfterFirst.receiveMessage symbolicLib "alice" demoSecond 41).2.conns "alice"
        = some s1 ∧ s1.RK = demoBobSession.RK ∧ s1.DHs = demoBobSession.DHs ∧
      s1.DHr = demoBobSession.DHr ∧ s1.CKs = demoBobSession.CKs ∧ s1.Ns = demoBobSession.Ns ∧
      s1.PN = demoBobSession.PN :=
  ⟨⟨_, rfl, Or.inl rfl⟩, ⟨.pub 10, rfl, rfl⟩,
    ((ratchet_trigger symbolicLib demoBobAfterFirst "alice" demoSecond 41 demoBobSession
      ⟨_, rfl, Or.inl rfl⟩ (by rfl) (by rfl)).1 ⟨.pub 10, rfl, rfl⟩).2⟩

end TriggerClaim

/-! ## One message across a DH ratchet boundary -/

section Turn

variable [DecidableEq J] (L : Lib K B J)

theorem skipMessageKeys_reached (s : Session K B J) (u : Nat) (h : u ≤ s.Nr) :
    MessengerClient._skipMessageKeys L s u = (.ok (), s) := by
  have hnear : ¬ s.Nr + MAX_SKIP < u := by omega
  cases hck : s.CKr with
  | none => exact skipMessageKeys_absent L s u hnear hck
  | some ck =>
    rw [skipMessageKeys_loop L s u hnear ck hck, Nat.sub_eq_zero_of_le h]
    rfl

/-- The first message of a new sending chain, received by a session that has
taken in every message of the previous chain: the DH ratchet step derives the
sender's chain key and the message decrypts. -/
theorem receiveOnSession_first_of_chain (hAead : AeadRoundTrip L) (s : Session K B J)
    (header : Header K B) (p : String) (seed : Nat) (hn : header.n = 0)
    (hpn : header.pn ≤ s.Nr) (hkey : NewRatchetKey L s header)
    (hnew : s.receivedSet.has (some (L.cryptoKeyToJSON header.dh), 0) = false)
    (hmiss : s.MKSKIPPED.has (some (L.cryptoKeyToJSON header.dh), 0) = false) :
    receiveOnSession L s header
        (L.encryptWithGCM
          (L.HMACtoAESKey (L.HKDF s.RK (L.computeDH s.DHs.sec header.dh) "ratchet").2 "msg")
          (.text p) header.receiverIV (stringifyHeader header)) seed =
      (.ok p,
        { DHs := L.generateEG seed
          DHr := some header.dh
          RK := (L.HKDF (L.HKDF s.RK (L.computeDH s.DHs.sec header.dh) "ratchet").1
            (L.computeDH (L.generateEG seed).sec header.dh) "ratchet").1
          CKs := some (L.HKDF (L.HKDF s.RK (L.computeDH s.DHs.sec header.dh) "ratchet").1
            (L.computeDH (L.generateEG seed).sec header.dh) "ratchet").2
          CKr := some (L.HMACtoHMACKey
            (L.HKDF s.RK (L.computeDH s.DHs.sec header.dh) "ratchet").2 "ck")
          Ns := 0
          Nr := 1
          PN := s.Ns
          MKSKIPPED := s.MKSKIPPED
          receivedSet := s.receivedSet.add (some (L.cryptoKeyToJSON header.dh), 0) }) := by
  have hnew2 : s.receivedSet.has (some (L.cryptoKeyToJSON header.dh), header.n) = false := by
    rw [hn]
    exact hnew
  have hmiss2 : s.MKSKIPPED.has (some (L.cryptoKeyToJSON header.dh), header.n) = false := by
    rw [hn]
    exact hmiss
  have hnear : ¬ s.Nr + MAX_SKIP < header.pn := by omega
  obtain ⟨_, hr⟩ := receiveOnSession_ratchet L s header
    (L.encryptWithGCM
      (L.HMACtoAESKey (L.HKDF s.RK (L.computeDH s.DHs.sec header.dh) "ratchet").2 "msg")
      (.text p) header.receiverIV (stringifyHeader header)) seed hnew2 hmiss2 hkey hnear
  rw [hr, skipMessageKeys_reached L s header.pn hpn]
  have hskip : MessengerClient._skipMessageKeys L
      (MessengerClient._doDHRatchet L s header.dh seed) header.n
        = (.ok (), MessengerClient._doDHRatchet L s header.dh seed) :=
    skipMessageKeys_reached L _ header.n (by rw [hn]; exact Nat.zero_le _)
  obtain ⟨buf, hdec, hbuf⟩ := hAead.1
    (L.HMACtoAESKey (L.HKDF s.RK (L.computeDH s.DHs.sec header.dh) "ratchet").2 "msg")
    p header.receiverIV (stringifyHeader header)
  rw [receiveOnChain_of_skip L _ _ header _
    (L.HKDF s.RK (L.computeDH s.DHs.sec header.dh) "ratchet").2 hskip rfl, hdec]
  simp only [hbuf, hn, MessengerClient._doDHRatchet, MessengerClient._pubKeyToStr, Option.map,
    Nat.zero_add]

end Turn

section Deliver

variable [DecidableEq J] (L : Lib K B J)

/-- One `deliver` step from a sender that starts a new sending chain to a
receiver that has taken in every message of the previous chain and whose DH
ratchet step on the sender's key derives the sender's chain key. -/
theorem deliver_first_of_chain (hAead : AeadRoundTrip L) (cX cY : MessengerClient K B J)
    (toName fromName : String) (e : SendEntropy) (sX sY : Session K B J) (ck : K)
    (hsX : SendSession L cX toName e sX) (hsY : ReceiveSession L cY fromName sY)
    (hCK : sX.CKs = some ck)
    (hck : (L.HKDF sY.RK (L.computeDH sY.DHs.sec sX.DHs.pub) "ratchet").2 = ck)
    (hNs : sX.Ns = 0) (hPN : sX.PN ≤ sY.Nr)
    (hkey : sY.DHr = none ∨
      ∃ d, sY.DHr = some d ∧ L.cryptoKeyToJSON sX.DHs.pub ≠ L.cryptoKeyToJSON d)
    (hnew : sY.receivedSet.has (some (L.cryptoKeyToJSON sX.DHs.pub), 0) = false)
    (hmiss : sY.MKSKIPPED.has (some (L.cryptoKeyToJSON sX.DHs.pub), 0) = false)
    (p : String) (seed : Nat) :
    deliver L cX cY toName fromName p e seed =
      (.ok p, cX.setConn toName { sX with CKs := some (L.HMACtoHMACKey ck "ck"), Ns := 1 },
        cY.setConn fromName
          { DHs := L.generateEG seed
            DHr := some sX.DHs.pub
            RK := (L.HKDF (L.HKDF sY.RK (L.computeDH sY.DHs.sec sX.DHs.pub) "ratchet").1
              (L.computeDH (L.generateEG seed).sec sX.DHs.pub) "ratchet").1
            CKs := some (L.HKDF (L.HKDF sY.RK (L.computeDH sY.DHs.sec sX.DHs.pub) "ratchet").1
              (L.computeDH (L.generateEG seed).sec sX.DHs.pub) "ratchet").2
            CKr := some (L.HMACtoHMACKey ck "ck")
            Ns := 0
            Nr := 1
            PN := sY.Ns
            MKSKIPPED := sY.MKSKIPPED
            receivedSet := sY.receivedSet.add (some (L.cryptoKeyToJSON sX.DHs.pub), 0) }) := by
  subst hck
  have hsend := sendMessage_of_session L cX toName p e sX hsX
  rw [sendOnSession_ok L cX.govPublicKey sX p e _ hCK, hNs] at hsend
  have hrecv := receiveOnSession_first_of_chain L hAead sY
    { dh := sX.DHs.pub
      pn := sX.PN
      n := 0
      vGov := (L.generateEG e.govEphemeral).pub
      cGov :=
        L.encryptWithGCM
          (L.HMACtoAESKey (L.computeDH (L.generateEG e.govEphemeral).sec cX.govPublicKey)
            L.govEncryptionDataStr)
          (.buffer (L.exportKeyRaw (L.HMACtoAESKey
            (L.HKDF sY.RK (L.computeDH sY.DHs.sec sX.DHs.pub) "ratchet").2 "msg")))
          (L.genRandomSalt e.ivGov 12) .empty
      ivGov := L.genRandomSalt e.ivGov 12
      receiverIV := L.genRandomSalt e.receiverIV 12 } p seed rfl hPN hkey hnew hmiss
  simp only [deliver, hsend, receiveMessage_of_session L cY fromName _ seed sY hsY]
  simp only [stringifyHeader] at hrecv
  rw [hrecv]

end Deliver

section Bidirectional

variable [DecidableEq J] (L : Lib K B J)

theorem deliver_turn (hAead : AeadRoundTrip L) (cX cY : MessengerClient K B J)
    (toName fromName : String) (e : SendEntropy) (sX sY : Session K B J)
    (hsX : SendSession L cX toName e sX) (hsY : ReceiveSession L cY fromName sY)
    (hCK : sX.CKs = some (L.HKDF sY.RK (L.computeDH sY.DHs.sec sX.DHs.pub) "ratchet").2)
    (hNs : sX.Ns = 0) (hPN : sX.PN ≤ sY.Nr)
    (hkey : sY.DHr = none ∨
      ∃ d, sY.DHr = some d ∧ L.cryptoKeyToJSON sX.DHs.pub ≠ L.cryptoKeyToJSON d)
    (hnew : sY.receivedSet.has (some (L.cryptoKeyToJSON sX.DHs.pub), 0) = false)
    (hmiss : sY.MKSKIPPED.has (some (L.cryptoKeyToJSON sX.DHs.pub), 0) = false)
    (p : String) (seed : Nat) :
    ∃ sX1 sY1,
      deliver L cX cY toName fromName p e seed
        = (.ok p, cX.setConn toName sX1, cY.setConn fromName sY1) ∧
      sX1 = { sX with
        CKs := some (L.HMACtoHMACKey
          (L.HKDF sY.RK (L.computeDH sY.DHs.sec sX.DHs.pub) "ratchet").2 "ck")
        Ns := 1 } ∧
      sY1 =
        { DHs := L.generateEG seed
          DHr := some sX.DHs.pub
          RK := (L.HKDF (L.HKDF sY.RK (L.computeDH sY.DHs.sec sX.DHs.pub) "ratchet").1
            (L.computeDH (L.generateEG seed).sec sX.DHs.pub) "ratchet").1
          CKs := some (L.HKDF (L.HKDF sY.RK (L.computeDH sY.DHs.sec sX.DHs.pub) "ratchet").1
            (L.computeDH (L.generateEG seed).sec sX.DHs.pub) "ratchet").2
          CKr := some (L.HMACtoHMACKey
            (L.HKDF sY.RK (L.computeDH sY.DHs.sec sX.DHs.pub) "ratchet").2 "ck")
          Ns := 0
          Nr := 1
          PN := sY.Ns
          MKSKIPPED := sY.MKSKIPPED
          receivedSet := sY.receivedSet.add (some (L.cryptoKeyToJSON sX.DHs.pub), 0) } :=
  ⟨_, _, deliver_first_of_chain L hAead cX cY toName fromName e sX sY _ hsX hsY hCK rfl hNs hPN
    hkey hnew hmiss p seed, rfl, rfl⟩

/-- The exchange of three messages between two fresh clients: the three
`receiveMessage` calls return the plaintexts, and afterwards the session of
`bob` is one KDF step ahead of the session of `alice`. -/
theorem exchange_states (hDH : DHSymmetric L) (hJwk : JwkRoundTrip L) (hAead : AeadRoundTrip L)
    (nameA nameB : String) (alice bob : MessengerClient K B J)
    (hpair : FreshPair L nameA nameB alice bob) (p1 p2 p3 : String) (e1 e2 e3 : SendEntropy)
    (r1 r2 r3 : Nat)
    (hfresh1 : ∀ eg, bob.EGKeyPair = some eg →
      L.cryptoKeyToJSON (L.generateEG r1).pub ≠ L.cryptoKeyToJSON eg.pub)
    (hfresh2 : L.cryptoKeyToJSON (L.generateEG r2).pub
      ≠ L.cryptoKeyToJSON (L.generateEG e1.ratchet).pub) :
    ∃ cA cB sA sB,
      bidirectionalExchange L alice bob nameA nameB p1 p2 p3 e1 e2 e3 r1 r2 r3
        = ([.ok p1, .ok p2, .ok p3], cA, cB) ∧
      cA.conns nameB = some sA ∧ cB.conns nameA = some sB ∧
      sB.RK = (L.HKDF sA.RK (L.computeDH sB.DHs.sec sA.DHs.pub) "ratchet").1 ∧
      sB.CKs = some (L.HKDF sA.RK (L.computeDH sB.DHs.sec sA.DHs.pub) "ratchet").2 ∧
      sB.CKr = sA.CKs ∧ sA.CKs ≠ none ∧ sB.DHr = some sA.DHs.pub := by
  obtain ⟨seedA, seedB, certA, certB, hAeg, hAcert, hBpub, hAconn, hBeg, hBcert, hApub,
    hBconn⟩ := freshPair_setup L hJwk nameA nameB alice bob hpair
  have d1 := hDH seedB seedA
  have d2 := hDH seedB e1.ratchet
  have d3 := hDH r1 e1.ratchet
  have d4 := hDH r2 r1
  have hf1 := hfresh1 _ hBeg
  -- the two initial sessions
  let sA0 : Session K B J :=
    { DHs := L.generateEG e1.ratchet
      DHr := some certB.publicKey
      RK := (L.HKDF (L.computeDH (L.generateEG seedA).sec certB.publicKey)
        (L.computeDH (L.generateEG e1.ratchet).sec certB.publicKey) "ratchet").1
      CKs := some (L.HKDF (L.computeDH (L.generateEG seedA).sec certB.publicKey)
        (L.computeDH (L.generateEG e1.ratchet).sec certB.publicKey) "ratchet").2
      CKr := none
      Ns := 0
      Nr := 0
      PN := 0
      MKSKIPPED := []
      receivedSet := [] }
  let sB0 : Session K B J :=
    { DHs := L.generateEG seedB
      DHr := none
      RK := L.computeDH (L.generateEG seedB).sec certA.publicKey
      CKs := none
      CKr := none
      Ns := 0
      Nr := 0
      PN := 0
      MKSKIPPED := []
      receivedSet := [] }
  have hA0 : ratchetInitAlice L alice certB e1 = some sA0 := by
    simp only [ratchetInitAlice, hAeg, sA0]
  have hB0 : ratchetInitBob L bob certA = some sB0 := by
    simp only [ratchetInitBob, hBeg, sB0]
  -- first message: alice to bob
  have hk1 : sA0.CKs
      = some (L.HKDF sB0.RK (L.computeDH sB0.DHs.sec sA0.DHs.pub) "ratchet").2 := by
    simp only [sA0, sB0]
    rw [hApub, hBpub, d1, d2]
  obtain ⟨sA1, sB1, h1, hsA1, hsB1⟩ := deliver_turn L hAead alice bob nameB nameA e1 sA0 sB0
    ⟨certB, hAcert, Or.inr ⟨hAconn nameB, hA0⟩⟩ ⟨certA, hBcert, Or.inr ⟨hBconn nameA, hB0⟩⟩
    hk1 rfl (Nat.le_refl _) (Or.inl rfl) rfl rfl p1 r1
  -- second message: bob to alice
  have hk2 : sB1.CKs
      = some (L.HKDF sA1.RK (L.computeDH sA1.DHs.sec sB1.DHs.pub) "ratchet").2 := by
    rw [hsA1, hsB1]
    simp only [sA0, sB0]
    rw [hApub, hBpub, d1, d2, d3]
  obtain ⟨sB2, sA2, h2, hsB2, hsA2⟩ := deliver_turn L hAead (bob.setConn nameA sB1)
    (alice.setConn nameB sA1) nameA nameB e2 sB1 sA1
    ⟨certA, hBcert, Or.inl (MessengerClient.setConn_conns_self bob nameA sB1)⟩
    ⟨certB, hAcert, Or.inl (MessengerClient.setConn_conns_self alice nameB sA1)⟩
    hk2 (by rw [hsB1]) (by rw [hsB1, hsA1])
    (Or.inr ⟨certB.publicKey, by rw [hsA1], by rw [hsB1, hBpub]; exact hf1⟩)
    (by rw [hsA1]; rfl) (by rw [hsA1]; rfl) p2 r2
  -- third message: alice to bob
  have hk3 : sA2.CKs
      = some (L.HKDF sB2.RK (L.computeDH sB2.DHs.sec sA2.DHs.pub) "ratchet").2 := by
    rw [hsA2, hsB2, hsA1, hsB1]
    simp only [sA0, sB0]
    rw [hApub, hBpub, d1, d2, d3, d4]
  have hrk3 : sA2.RK
      = (L.HKDF sB2.RK (L.computeDH sB2.DHs.sec sA2.DHs.pub) "ratchet").1 := by
    rw [hsA2, hsB2, hsA1, hsB1]
    simp only [sA0, sB0]
    rw [hApub, hBpub, d1, d2, d3, d4]
  obtain ⟨sA3, sB3, h3, hsA3, hsB3⟩ := deliver_turn L hAead
    ((alice.setConn nameB sA1).setConn nameB sA2) ((bob.setConn nameA sB1).setConn nameA sB2)
    nameB nameA e3 sA2 sB2
    ⟨certB, hAcert, Or.inl (MessengerClient.setConn_conns_self _ nameB sA2)⟩
    ⟨certA, hBcert, Or.inl (MessengerClient.setConn_conns_self _ nameA sB2)⟩
    hk3 (by rw [hsA2]) (by rw [hsA2, hsB2, hsA1, hsB1])
    (Or.inr ⟨(L.generateEG e1.ratchet).pub, by rw [hsB2, hsB1], by rw [hsA2]; exact hfresh2⟩)
    (by
      rw [hsB2, hsB1, hsA2]
      simp only [sA0, sB0, JsSet.has_add, JsSet.has_empty, Bool.false_or, decide_eq_false_iff_not]
      intro h
      exact hfresh2 (Option.some.inj (congrArg Prod.fst h)))
    (by rw [hsB2, hsB1]; rfl) p3 r3
  refine ⟨((alice.setConn nameB sA1).setConn nameB sA2).setConn nameB sA3,
    ((bob.setConn nameA sB1).setConn nameA sB2).setConn nameA sB3, sA3, sB3, ?_,
    MessengerClient.setConn_conns_self _ nameB sA3,
    MessengerClient.setConn_conns_self _ nameA sB3, ?_, ?_, ?_, ?_, ?_⟩
  · simp only [bidirectionalExchange, h1, h2, h3]
  · rw [hsB3, hsA3]
    simp only []
    rw [← hrk3]
  · rw [hsB3, hsA3]
    simp only []
    rw [← hrk3]
  · rw [hsB3, hsA3]
  · rw [hsA3]
    exact fun h => Option.noConfusion h
  · rw [hsB3, hsA3]

/-- The freshness of the generated key pairs is needed: when `bob` draws his
identity key pair again in his first DH ratchet step, `alice` takes his reply for
a message of the current chain and throws; when `alice` draws her first ratchet
key pair again, `bob` takes her third message for a replay. -/
theorem exchange_repeated_key :
    (bidirectionalExchange symbolicLib demoAlice demoBob "alice" "bob" "one" "two" "three"
      ⟨10, 11, 12, 13⟩ ⟨20, 21, 22, 23⟩ ⟨30, 31, 32, 33⟩ 2 50 60).1
      = [.ok "one", .error (.str "Receiving chain key missing after ratchet"), .ok "three"] ∧
    (bidirectionalExchange symbolicLib demoAlice demoBob "alice" "bob" "one" "two" "three"
      ⟨10, 11, 12, 13⟩ ⟨20, 21, 22, 23⟩ ⟨30, 31, 32, 33⟩ 40 10 60).1
      = [.ok "one", .ok "two", .error (.str "Replay detected")] :=
  ⟨rfl, rfl⟩

/-- C11: between two fresh clients with exchanged certificates, for all
plaintexts `p1`, `p2`, `p3`: `alice` sends `p1` and `bob` receives it, `bob` sends
`p2` and `alice` receives it, `alice` sends `p3` and `bob` receives it, and each
`receiveMessage` returns the plaintext sent.  Assumed: DH symmetry, the GCM and
JWK round trips, and that the key pairs `generateEG()` returns are fresh: the
pair `bob` draws in his first DH ratchet step is not his identity pair, and the
pair `alice` draws in hers is not her first ratchet pair. -/
theorem bidirectional_exchange (hDH : DHSymmetric L) (hJwk : JwkRoundTrip L)
    (hAead : AeadRoundTrip L) (nameA nameB : String) (alice bob : MessengerClient K B J)
    (hpair : FreshPair L nameA nameB alice bob) (p1 p2 p3 : String) (e1 e2 e3 : SendEntropy)
    (r1 r2 r3 : Nat)
    (hfresh1 : ∀ eg, bob.EGKeyPair = some eg →
      L.cryptoKeyToJSON (L.generateEG r1).pub ≠ L.cryptoKeyToJSON eg.pub)
    (hfresh2 : L.cryptoKeyToJSON (L.generateEG r2).pub
      ≠ L.cryptoKeyToJSON (L.generateEG e1.ratchet).pub) :
    (bidirectionalExchange L alice bob nameA nameB p1 p2 p3 e1 e2 e3 r1 r2 r3).1
      = [.ok p1, .ok p2, .ok p3] := by
  obtain ⟨cA, cB, sA, sB, h, _⟩ := exchange_states L hDH hJwk hAead nameA nameB alice bob hpair
    p1 p2 p3 e1 e2 e3 r1 r2 r3 hfresh1 hfresh2
  rw [h]

/-- Witness of C11: the exchange "one", "two", "three" between `alice` and
`bob`. -/
theorem bidirectional_exchange_witness :
    demoExchange.1 = [.ok "one", .ok "two", .ok "three"] :=
  bidirectional_exchange symbolicLib symbolicLib_dh symbolicLib_jwk symbolicLib_aead "alice"
    "bob" demoAlice demoBob demo_pair "one" "two" "three" ⟨10, 11, 12, 13⟩ ⟨20, 21, 22, 23⟩
    ⟨30, 31, 32, 33⟩ 40 50 60
    (fun eg h => by
      cases h
      decide)
    (by decide)

/-- C12 as stated fails: after the exchange of three messages between `alice` and
`bob` (every message received), the root key `bob` holds for `alice` is not the
root key `alice` holds for `bob`. -/
theorem root_key_counterexample :
    demoExchange.1 = [.ok "one", .ok "two", .ok "three"] ∧
    rootKeyOf demoExchange.2.1 "bob"
      = some (.hkdf true (.hkdf true (.hkdf true (.shared 1 2) (.shared 2 10) "ratchet")
          (.shared 10 40) "ratchet") (.shared 40 50) "ratchet") ∧
    rootKeyOf demoExchange.2.2 "alice"
      = some (.hkdf true (.hkdf true (.hkdf true (.hkdf true (.shared 1 2) (.shared 2 10)
          "ratchet") (.shared 10 40) "ratchet") (.shared 40 50) "ratchet") (.shared 50 60)
          "ratchet") ∧
    rootKeyOf demoExchange.2.1 "bob" ≠ rootKeyOf demoExchange.2.2 "alice" :=
  ⟨rfl, rfl, rfl, by decide⟩

/-- C12 (amended): after that exchange the session of `bob`, who received last,
is one KDF step ahead of the session of `alice`: his `RK` and `CKs` are the two
outputs of `HKDF(RK of alice, DH(DHs.sec of bob, DHs.pub of alice))`, his `CKr`
is the sending chain key of `alice`, and his `DHr` is her ratchet public key.
Assumptions as for C11. -/
theorem root_key_one_step_ahead (hDH : DHSymmetric L) (hJwk : JwkRoundTrip L)
    (hAead : AeadRoundTrip L) (nameA nameB : String) (alice bob : MessengerClient K B J)
    (hpair : FreshPair L nameA nameB alice bob) (p1 p2 p3 : String) (e1 e2 e3 : SendEntropy)
    (r1 r2 r3 : Nat)
    (hfresh1 : ∀ eg, bob.EGKeyPair = some eg →
      L.cryptoKeyToJSON (L.generateEG r1).pub ≠ L.cryptoKeyToJSON eg.pub)
    (hfresh2 : L.cryptoKeyToJSON (L.generateEG r2).pub
      ≠ L.cryptoKeyToJSON (L.generateEG e1.ratchet).pub) :
    ∃ sA sB,
      (bidirectionalExchange L alice bob nameA nameB p1 p2 p3 e1 e2 e3 r1 r2 r3).2.1.conns nameB
        = some sA ∧
      (bidirectionalExchange L alice bob nameA nameB p1 p2 p3 e1 e2 e3 r1 r2 r3).2.2.conns nameA
        = some sB ∧
      sB.RK = (L.HKDF sA.RK (L.computeDH sB.DHs.sec sA.DHs.pub) "ratchet").1 ∧
      sB.CKs = some (L.HKDF sA.RK (L.computeDH sB.DHs.sec sA.DHs.pub) "ratchet").2 ∧
      sB.CKr = sA.CKs ∧ sA.CKs ≠ none ∧ sB.DHr = some sA.DHs.pub := by
  obtain ⟨cA, cB, sA, sB, h, hA, hB, hrest⟩ := exchange_states L hDH hJwk hAead nameA nameB
    alice bob hpair p1 p2 p3 e1 e2 e3 r1 r2 r3 hfresh1 hfresh2
  rw [h]
  exact ⟨sA, sB, hA, hB, hrest⟩

/-- Witness of C12 as amended: the sessions after the exchange between `alice`
and `bob`. -/
theorem root_key_one_step_ahead_witness :
    ∃ sA sB, demoExchange.2.1.conns "bob" = some sA ∧ demoExchange.2.2.conns "alice" = some sB ∧
      sB.RK = (symbolicLib.HKDF sA.RK (symbolicLib.computeDH sB.DHs.sec sA.DHs.pub)
        "ratchet").1 ∧
      sB.CKs = some (symbolicLib.HKDF sA.RK (symbolicLib.computeDH sB.DHs.sec sA.DHs.pub)
        "ratchet").2 ∧
      sB.CKr = sA.CKs ∧ sA.CKs ≠ none ∧ sB.DHr = some sA.DHs.pub :=
  root_key_one_step_ahead symbolicLib symbolicLib_dh symbolicLib_jwk symbolicLib_aead "alice"
    "bob" demoAlice demoBob demo_pair "one" "two" "three" ⟨10, 11, 12, 13⟩ ⟨20, 21, 22, 23⟩
    ⟨30, 31, 32, 33⟩ 40 50 60
    (fun eg h => by
      cases h
      decide)
    (by decide)

end Bidirectional

/-! ## The state after a skip -/

section SkipPost

variable [DecidableEq J] (L : Lib K B J)

/-- The loop of `_skipMessageKeys` ends by its own test: any fuel beyond the
`until - Nr` passes it needs gives the same state. -/
theorem skipLoop_fuel (u : Nat) :
    ∀ (fuel : Nat) (s : Session K B J), u - s.Nr ≤ fuel →
      skipLoop L u fuel s = skipLoop L u (u - s.Nr) s := by
  intro fuel
  induction fuel with
  | zero =>
    intro s h
    rw [Nat.le_zero.mp h]
  | succ n ih =>
    intro s h
    by_cases hlt : s.Nr < u
    · obtain ⟨k, hk⟩ : ∃ k, u - s.Nr = k + 1 := ⟨u - s.Nr - 1, by omega⟩
      rw [hk]
      cases hck : s.CKr with
      | none => simp only [skipLoop, hlt, hck, if_true]
      | some ck =>
        have hNr : (skipStep L s ck).Nr = s.Nr + 1 := rfl
        have hk2 : u - (skipStep L s ck).Nr = k := by
          rw [hNr]
          omega
        simp only [skipLoop, hlt, hck, if_true]
        rw [ih (skipStep L s ck) (by omega), hk2]
    · have h0 : u - s.Nr = 0 := by omega
      rw [h0]
      simp only [skipLoop, hlt, if_false]

/-- C21: for a session with receiving chain key `ck` and `Nr` = a, and a target
`t` with a ≤ t ≤ a + `MAX_SKIP`, `_skipMessageKeys(state, t)` returns (the loop
ends by its own test, whatever fuel beyond `t - a` it is given) with `Nr` = t,
`CKr` the key `ck` advanced `t - a` times by the chain step, and `MKSKIPPED` the
old map extended with exactly the entries (JWK text of `DHr`, i) ↦ raw message
key of `ck` advanced `i - a` times, for a ≤ i < t: these keys map to these
values, every other key is looked up as before; the other fields are
unchanged.  For `t` ≤ a the state is unchanged. -/
theorem skip_postcondition (s : Session K B J) (ck : K) (t : Nat) (hck : s.CKr = some ck) :
    (s.Nr ≤ t → t ≤ s.Nr + MAX_SKIP →
      (MessengerClient._skipMessageKeys L s t).1 = .ok () ∧
      (MessengerClient._skipMessageKeys L s t).2.Nr = t ∧
      (MessengerClient._skipMessageKeys L s t).2.CKr = some (chainKey L ck (t - s.Nr)) ∧
      (∀ key : HeaderKey J,
        (MessengerClient._skipMessageKeys L s t).2.MKSKIPPED.get key =
          if key.1 = MessengerClient._pubKeyToStr L s.DHr ∧ s.Nr ≤ key.2 ∧ key.2 < t then
            some (L.exportKeyRaw (messageKey L ck (key.2 - s.Nr)))
          else s.MKSKIPPED.get key) ∧
      (∀ key : HeaderKey J,
        (MessengerClient._skipMessageKeys L s t).2.MKSKIPPED.has key =
          (s.MKSKIPPED.has key ||
            decide (key.1 = MessengerClient._pubKeyToStr L s.DHr ∧ s.Nr ≤ key.2 ∧ key.2 < t))) ∧
      ((∀ j, s.Nr ≤ j → s.MKSKIPPED.has (MessengerClient._pubKeyToStr L s.DHr, j) = false) →
        (MessengerClient._skipMessageKeys L s t).2.MKSKIPPED.length
          = s.MKSKIPPED.length + (t - s.Nr)) ∧
      (MessengerClient._skipMessageKeys L s t).2.DHr = s.DHr ∧
      (MessengerClient._skipMessageKeys L s t).2.DHs = s.DHs ∧
      (MessengerClient._skipMessageKeys L s t).2.RK = s.RK ∧
      (MessengerClient._skipMessageKeys L s t).2.CKs = s.CKs ∧
      (MessengerClient._skipMessageKeys L s t).2.Ns = s.Ns ∧
      (MessengerClient._skipMessageKeys L s t).2.PN = s.PN ∧
      (MessengerClient._skipMessageKeys L s t).2.receivedSet = s.receivedSet ∧
      ∀ fuel, t - s.Nr ≤ fuel →
        skipLoop L t fuel s = (MessengerClient._skipMessageKeys L s t).2) ∧
    (t ≤ s.Nr → MessengerClient._skipMessageKeys L s t = (.ok (), s)) := by
  refine ⟨?_, skipMessageKeys_reached L s t⟩
  intro hle hbound
  have hnear : ¬ s.Nr + MAX_SKIP < t := by omega
  have hskip := skipMessageKeys_loop L s t hnear ck hck
  obtain ⟨hNr, hCKr⟩ := skipLoop_position L t (t - s.Nr) s ck hck (Nat.le_refl _)
  obtain ⟨f1, f2, f3, f4, f5, f6, f7⟩ := skipMessageKeys_frame L s t
  rw [hskip]
  refine ⟨rfl, ?_, hCKr, skipLoop_get L t (t - s.Nr) s ck hck (Nat.le_refl _),
    skipLoop_has L t (t - s.Nr) s ck hck (Nat.le_refl _), ?_, ?_, ?_, ?_, ?_, ?_, ?_, ?_, ?_⟩
  · show (skipLoop L t (t - s.Nr) s).Nr = t
    rw [hNr]
    exact Nat.max_eq_right hle
  · intro hfree
    refine skipLoop_length L t (MessengerClient._pubKeyToStr L s.DHr) (t - s.Nr) s rfl ?_
      (Nat.le_refl _) hfree
    rw [hck]
    exact fun h => Option.noConfusion h
  · rw [hskip] at f1
    exact f1
  · rw [hskip] at f2
    exact f2
  · rw [hskip] at f3
    exact f3
  · rw [hskip] at f4
    exact f4
  · rw [hskip] at f5
    exact f5
  · rw [hskip] at f6
    exact f6
  · rw [hskip] at f7
    exact f7
  · intro fuel hfuel
    exact skipLoop_fuel L t fuel s hfuel

/-- Witness of C21: a session of `bob` at `Nr` = 0 skips to the target 3. -/
theorem skip_postcondition_witness :
    (MessengerClient._skipMessageKeys symbolicLib demoReplaySession 3).1 = .ok () ∧
    (MessengerClient._skipMessageKeys symbolicLib demoReplaySession 3).2.Nr = 3 ∧
    (MessengerClient._skipMessageKeys symbolicLib demoReplaySession 3).2.CKr
      = some (chainKey symbolicLib .junk (3 - demoReplaySession.Nr)) :=
  ⟨((skip_postcondition symbolicLib demoReplaySession .junk 3 (by rfl)).1 (by decide)
      (by decide)).1,
    ((skip_postcondition symbolicLib demoReplaySession .junk 3 (by rfl)).1 (by decide)
      (by decide)).2.1,
    ((skip_postcondition symbolicLib demoReplaySession .junk 3 (by rfl)).1 (by decide)
      (by decide)).2.2.1⟩

end SkipPost

/-! ## The send step -/

section SendStep

variable [DecidableEq J] (L : Lib K B J)

/-- Every session of a client belongs to a trusted peer, after any sequence of
calls: a session is created only after the certificate test, and no call removes
a certificate. -/
theorem trusted_step (c : MessengerClient K B J)
    (h : ∀ name, c.conns name ≠ none → c.certs name ≠ none) (call : Call K B J) :
    ∀ name, (c.step L call).conns name ≠ none → (c.step L call).certs name ≠ none := by
  intro name
  cases call with
  | generateCertificate username seed => exact h name
  | receiveCertificate certificate signature =>
    show (c.receiveCertificate L certificate signature).2.conns name ≠ none →
      (c.receiveCertificate L certificate signature).2.certs name ≠ none
    cases hv : L.verifyWithECDSA c.caPublicKey certificate signature with
    | false =>
      rw [receiveCertificate_invalid L c certificate signature hv]
      exact h name
    | true =>
      cases hk : L.importKeyJwk certificate.pub with
      | none =>
        rw [receiveCertificate_import_fails L c certificate signature hv hk]
        exact h name
      | some theirPub =>
        rw [receiveCertificate_valid L c certificate signature theirPub hv hk]
        intro hconn
        show (if name = certificate.username then _ else c.certs name) ≠ none
        by_cases hn : name = certificate.username
        · rw [if_pos hn]
          exact fun h => Option.noConfusion h
        · rw [if_neg hn]
          exact h name hconn
  | sendMessage peer plaintext e =>
    show (c.sendMessage L peer plaintext e).2.conns name ≠ none →
      (c.sendMessage L peer plaintext e).2.certs name ≠ none
    rw [sendMessage_certs L c peer plaintext e]
    by_cases hn : name = peer
    · subst hn
      rcases sendMessage_shape L c name plaintext e with ⟨_, hr⟩ | ⟨_, hr⟩ | ⟨s0, hs0, _⟩
      · rw [hr]
        exact h name
      · rw [hr]
        exact h name
      · obtain ⟨cert, hc, _⟩ := hs0
        intro _
        rw [hc]
        exact fun h => Option.noConfusion h
    · rw [sendMessage_conns_other L c peer plaintext e name hn]
      exact h name
  | receiveMessage sender message seed =>
    show (c.receiveMessage L sender message seed).2.conns name ≠ none →
      (c.receiveMessage L sender message seed).2.certs name ≠ none
    rw [receiveMessage_certs L c sender message seed]
    by_cases hn : name = sender
    · subst hn
      rcases receiveMessage_shape L c name message seed with
        ⟨_, hr⟩ | ⟨_, hr⟩ | ⟨s0, hs0, _⟩
      · rw [hr]
        exact h name
      · rw [hr]
        exact h name
      · obtain ⟨cert, hc, _⟩ := hs0
        intro _
        rw [hc]
        exact fun h => Option.noConfusion h
    · rw [receiveMessage_conns_other L c sender message seed name hn]
      exact h name

theorem trusted_run :
    ∀ (calls : List (Call K B J)) (c : MessengerClient K B J),
      (∀ name, c.conns name ≠ none → c.certs name ≠ none) →
      ∀ name, (c.run L calls).conns name ≠ none → (c.run L calls).certs name ≠ none := by
  intro calls
  induction calls with
  | nil =>
    intro c h
    exact h
  | cons call rest ih =>
    intro c h
    exact ih (c.step L call) (trusted_step L c h call)

theorem trusted_reachable (ca gov : K) (calls : List (Call K B J)) (name : String)
    (h : ((MessengerClient.new ca gov : MessengerClient K B J).run L calls).conns name ≠ none) :
    ((MessengerClient.new ca gov : MessengerClient K B J).run L calls).certs name ≠ none :=
  trusted_run L calls _ (fun _ h => absurd rfl h) name h

omit [DecidableEq J] in
/-- One `sendMessage` on a stored session with sending chain key `ck`, for a
trusted peer. -/
theorem sendMessage_stored (c : MessengerClient K B J) (name : String) (s : Session K B J)
    (ck : K) (p : String) (e : SendEntropy) (hcert : c.certs name ≠ none)
    (hconn : c.conns name = some s) (hck : s.CKs = some ck) :
    c.sendMessage L name p e =
      ((sendOnSession L c.govPublicKey s p e).1,
        c.setConn name { s with CKs := some (L.HMACtoHMACKey ck "ck"), Ns := s.Ns + 1 }) ∧
    sendOnSession L c.govPublicKey s p e =
      ((sendOnSession L c.govPublicKey s p e).1,
        { s with CKs := some (L.HMACtoHMACKey ck "ck"), Ns := s.Ns + 1 }) := by
  cases hc : c.certs name with
  | none => exact absurd hc hcert
  | some cert =>
    have hs : SendSession L c name e s := ⟨cert, hc, Or.inl hconn⟩
    have hr := sendMessage_of_session L c name p e s hs
    have hok := sendOnSession_ok L c.govPublicKey s p e ck hck
    refine ⟨?_, ?_⟩
    · rw [hr, hok]
    · rw [hok]

omit [DecidableEq J] in
/-- Consecutive `sendMessage` calls on a stored session with a sending chain
return messages whose counters are `Ns`, `Ns + 1`, ... -/
theorem sendAll_counters (name : String) :
    ∀ (sends : List (String × SendEntropy)) (c : MessengerClient K B J) (s : Session K B J)
      (ck : K), c.certs name ≠ none → c.conns name = some s → s.CKs = some ck →
      ∃ ms : List (Header K B × B), (sendAll L c name sends).1 = ms.map Except.ok ∧
        ms.map (fun m => m.1.n) = List.range' s.Ns sends.length := by
  intro sends
  induction sends with
  | nil =>
    intro c s ck _ _ _
    exact ⟨[], rfl, rfl⟩
  | cons x rest ih =>
    intro c s ck hcert hconn hck
    obtain ⟨p, e⟩ := x
    obtain ⟨hr, _⟩ := sendMessage_stored L c name s ck p e hcert hconn hck
    have hok := sendOnSession_ok L c.govPublicKey s p e ck hck
    rw [hok] at hr
    obtain ⟨ms, hms, hn⟩ := ih
      (c.setConn name { s with CKs := some (L.HMACtoHMACKey ck "ck"), Ns := s.Ns + 1 })
      { s with CKs := some (L.HMACtoHMACKey ck "ck"), Ns := s.Ns + 1 }
      (L.HMACtoHMACKey ck "ck") hcert (MessengerClient.setConn_conns_self c name _) rfl
    have hex : ∃ m : Header K B × B,
        c.sendMessage L name p e
          = (.ok m,
              c.setConn name
                { s with CKs := some (L.HMACtoHMACKey ck "ck"), Ns := s.Ns + 1 }) ∧
        m.1.n = s.Ns := ⟨_, hr, rfl⟩
    obtain ⟨m, hm, hmn⟩ := hex
    refine ⟨m :: ms, ?_, ?_⟩
    · simp only [sendAll, hm, hms, List.map_cons]
    · simp only [List.map_cons, List.length_cons, List.range'_succ, hmn]
      rw [hn]

/-- C22: in every state a client reaches by calls of its methods, for a session
stored for `name` with sending chain key `ck`, `sendMessage(name, p)` returns a
header with `n` the `Ns` before the call, `pn` = `PN` and `dh` = `DHs.pub`, and a
ciphertext made under the message key derived from `ck`; it increases `Ns` by
exactly 1, replaces `CKs` by the next chain key derived from `ck`, and leaves
`RK`, `CKr`, `DHs`, `DHr`, `Nr`, `PN`, `MKSKIPPED` and `receivedSet` unchanged.
Hence consecutive sends carry the counters `Ns`, `Ns + 1`, ...: 0, 1, 2, ... from
the start of a chain. -/
theorem send_step (ca gov : K) (calls : List (Call K B J)) (c : MessengerClient K B J)
    (hc : (MessengerClient.new ca gov).run L calls = c) (name : String) (s : Session K B J)
    (ck : K) (hconn : c.conns name = some s) (hck : s.CKs = some ck) (p : String)
    (e : SendEntropy) :
    (∃ (header : Header K B) (s1 : Session K B J),
      c.sendMessage L name p e =
        (.ok (header,
            L.encryptWithGCM (L.HMACtoAESKey ck "msg") (.text p) header.receiverIV
              (stringifyHeader header)),
          c.setConn name s1) ∧
      header.n = s.Ns ∧ header.pn = s.PN ∧ header.dh = s.DHs.pub ∧
      s1.Ns = s.Ns + 1 ∧ s1.CKs = some (L.HMACtoHMACKey ck "ck") ∧
      s1.RK = s.RK ∧ s1.CKr = s.CKr ∧ s1.DHs = s.DHs ∧ s1.DHr = s.DHr ∧ s1.Nr = s.Nr ∧
      s1.PN = s.PN ∧ s1.MKSKIPPED = s.MKSKIPPED ∧ s1.receivedSet = s.receivedSet) ∧
    ∀ sends : List (String × SendEntropy),
      ∃ ms : List (Header K B × B), (sendAll L c name sends).1 = ms.map Except.ok ∧
        ms.map (fun m => m.1.n) = List.range' s.Ns sends.length := by
  have hcert : c.certs name ≠ none := by
    subst hc
    refine trusted_reachable L ca gov calls name ?_
    rw [hconn]
    exact fun h => Option.noConfusion h
  refine ⟨?_, fun sends => sendAll_counters L name sends c s ck hcert hconn hck⟩
  obtain ⟨hr, _⟩ := sendMessage_stored L c name s ck p e hcert hconn hck
  rw [sendOnSession_ok L c.govPublicKey s p e ck hck] at hr
  exact ⟨_, _, hr, rfl, rfl, rfl, rfl, rfl, rfl, rfl, rfl, rfl, rfl, rfl, rfl, rfl⟩

/-- Witness of C22: the second `sendMessage` of `alice` to `bob`. -/
theorem send_step_witness :
    demoAliceAfterFirst.conns "bob" = some demoAliceSession ∧ demoAliceSession.Ns = 1 ∧
    ∃ (header : Header Term Term) (s1 : Session Term Term Nat),
      (demoAliceAfterFirst.sendMessage symbolicLib "bob" "two" ⟨20, 21, 22, 23⟩).1
        = .ok (header,
            symbolicLib.encryptWithGCM
              (symbolicLib.HMACtoAESKey
                (.hmacKey (.hkdf false (.shared 1 2) (.shared 2 10) "ratchet") "ck") "msg")
              (.text "two") header.receiverIV (stringifyHeader header)) ∧
      header.n = demoAliceSession.Ns ∧ s1.Ns = demoAliceSession.Ns + 1 ∧
      s1.RK = demoAliceSession.RK := by
  refine ⟨rfl, rfl, ?_⟩
  obtain ⟨header, s1, hr, hn, _, _, hNs, _, hRK, _⟩ :=
    (send_step symbolicLib (.pub 100) (.pub 200) demoAliceCalls demoAliceAfterFirst rfl "bob"
      demoAliceSession (.hmacKey (.hkdf false (.shared 1 2) (.shared 2 10) "ratchet") "ck")
      (by rfl) (by rfl) "two" ⟨20, 21, 22, 23⟩).1
  exact ⟨header, s1, congrArg Prod.fst hr, hn, hNs, hRK⟩

end SendStep

end DoubleRatchet
